import Mathlib

/-!
Formal model of the core of the `sigma` vector-graphics editor: the
`DesignObject` document model with its serialization (src/objects.ts),
the auto-layout engine, the undo/redo history manager (src/history.ts),
and the polygon-based boolean-operation engine (js/boolean.js).

JavaScript numbers are modelled as rationals (`ℚ`); every arithmetic
operation performed by the source on the inputs we reason about is exact,
so `ℚ` is a faithful value model.  JavaScript's `a || b` expression on a
number/string evaluates to `b` exactly when `a` is `0`/`""`/absent; the
`numD`/`strD`/`boolD` helpers below reproduce that.  Plain-data values
(snapshots, serialized forms) are modelled as immutable values, on which
`Utils.deepClone` — a structural deep copy — is the identity.
-/

namespace Design

/-- Evaluates `options.f || d` for a possibly absent numeric field `f`:
the default is taken when the field is absent or equal to `0`. -/
def numD (o : Option ℚ) (d : ℚ) : ℚ :=
  match o with
  | none => d
  | some v => if v = 0 then d else v

/-- Evaluates `options.f || d` for a possibly absent string field:
the default is taken when the field is absent or the empty string. -/
def strD (o : Option String) (d : String) : String :=
  match o with
  | none => d
  | some v => if v = "" then d else v

/-- Evaluates `options.f || d` for a possibly absent boolean field. -/
def boolD (o : Option Bool) (d : Bool) : Bool :=
  match o with
  | none => d
  | some v => v || d

/-- Evaluates `options.f || d` for a possibly absent array field: arrays
are always truthy in JavaScript, so only absence selects the default. -/
def listD {α : Type} (o : Option (List α)) (d : List α) : List α :=
  o.getD d

/-- Evaluates `options.f !== undefined ? options.f : d`. -/
def undefD {α : Type} (o : Option α) (d : α) : α :=
  o.getD d

/-- Truthiness test used for object-valued fields (`options.f ? g(f) : null`):
the field may be absent (`undefined`), explicitly `null`, or an object;
only an object is truthy. -/
def truthyObj {α : Type} (o : Option (Option α)) : Option α :=
  match o with
  | some (some v) => some v
  | _ => none

/-- Evaluates `options.f || null` for a field holding a string or `null`:
`null`, absence and the empty string all give `null`. -/
def strOrNull (o : Option (Option String)) : Option String :=
  match o with
  | some (some s) => if s = "" then none else some s
  | _ => none

/-- Evaluates `options.f !== undefined ? options.f : d` for a field
holding a string or `null` (so a present `null` is kept). -/
def strUndefD (o : Option (Option String)) (d : Option String) : Option String :=
  match o with
  | some v => v
  | none => d

end Design

namespace Design

/-- A point `{x, y}` (src/utils.ts `Point`). -/
structure Pt where
  x : ℚ
  y : ℚ
deriving Repr, DecidableEq

/-- A rectangle `{x, y, width, height}` (src/utils.ts `Rect`). -/
structure Rect where
  x : ℚ
  y : ℚ
  width : ℚ
  height : ℚ
deriving Repr, DecidableEq

/-- A gradient color stop (src/objects.ts `GradientStop`). -/
structure GradientStop where
  offset : ℚ
  color : String
deriving Repr, DecidableEq

/-- Serialized gradient data (src/objects.ts `GradientData`); the fields
are optional because `Gradient`'s constructor accepts partial data. -/
structure GradientData where
  type : Option String := none
  angle : Option ℚ := none
  stops : Option (List GradientStop) := none
  centerX : Option ℚ := none
  centerY : Option ℚ := none
  radiusX : Option ℚ := none
  radiusY : Option ℚ := none
deriving Repr, DecidableEq

/-- A live `Gradient` object (src/objects.ts). -/
structure Gradient where
  type : String
  angle : ℚ
  stops : List GradientStop
  centerX : ℚ
  centerY : ℚ
  radiusX : ℚ
  radiusY : ℚ
deriving Repr, DecidableEq

/-- The `Gradient` constructor (src/objects.ts, `constructor(options = {})`). -/
def Gradient.ofOptions (o : GradientData) : Gradient where
  type := strD o.type "linear"
  angle := numD o.angle 0
  stops := listD o.stops [⟨0, "#5B5BFF"⟩, ⟨1, "#FF5B5B"⟩]
  centerX := numD o.centerX (1/2)
  centerY := numD o.centerY (1/2)
  radiusX := numD o.radiusX (1/2)
  radiusY := numD o.radiusY (1/2)

/-- `Gradient.serialize`. -/
def Gradient.serialize (g : Gradient) : GradientData where
  type := some g.type
  angle := some g.angle
  stops := some g.stops
  centerX := some g.centerX
  centerY := some g.centerY
  radiusX := some g.radiusX
  radiusY := some g.radiusY

/-- `Gradient.deserialize` (returns `null` on `null` input). -/
def Gradient.deserialize (d : Option GradientData) : Option Gradient :=
  d.map Gradient.ofOptions

/-- Serialized shadow data (src/objects.ts `ShadowData`), optional fields. -/
structure ShadowData where
  type : Option String := none
  color : Option String := none
  offsetX : Option ℚ := none
  offsetY : Option ℚ := none
  blur : Option ℚ := none
  spread : Option ℚ := none
  visible : Option Bool := none
deriving Repr, DecidableEq

/-- A live `Shadow` object (src/objects.ts). -/
structure Shadow where
  type : String
  color : String
  offsetX : ℚ
  offsetY : ℚ
  blur : ℚ
  spread : ℚ
  visible : Bool
deriving Repr, DecidableEq

/-- The `Shadow` constructor. -/
def Shadow.ofOptions (o : ShadowData) : Shadow where
  type := strD o.type "drop"
  color := strD o.color "rgba(0,0,0,0.25)"
  offsetX := numD o.offsetX 0
  offsetY := numD o.offsetY 4
  blur := numD o.blur 8
  spread := numD o.spread 0
  visible := undefD o.visible true

/-- `Shadow.serialize`. -/
def Shadow.serialize (s : Shadow) : ShadowData where
  type := some s.type
  color := some s.color
  offsetX := some s.offsetX
  offsetY := some s.offsetY
  blur := some s.blur
  spread := some s.spread
  visible := some s.visible

/-- `Shadow.deserialize`. -/
def Shadow.deserialize (d : Option ShadowData) : Option Shadow :=
  d.map Shadow.ofOptions

/-- Serialized constraints data (src/objects.ts `ConstraintsData`). -/
structure ConstraintsData where
  horizontal : Option String := none
  vertical : Option String := none
  originalX : Option ℚ := none
  originalY : Option ℚ := none
  originalWidth : Option ℚ := none
  originalHeight : Option ℚ := none
  originalParentWidth : Option ℚ := none
  originalParentHeight : Option ℚ := none
deriving Repr, DecidableEq

/-- A live `Constraints` object (src/objects.ts). -/
structure Constraints where
  horizontal : String
  vertical : String
  originalX : ℚ
  originalY : ℚ
  originalWidth : ℚ
  originalHeight : ℚ
  originalParentWidth : ℚ
  originalParentHeight : ℚ
deriving Repr, DecidableEq

/-- The `Constraints` constructor. -/
def Constraints.ofOptions (o : ConstraintsData) : Constraints where
  horizontal := strD o.horizontal "left"
  vertical := strD o.vertical "top"
  originalX := numD o.originalX 0
  originalY := numD o.originalY 0
  originalWidth := numD o.originalWidth 0
  originalHeight := numD o.originalHeight 0
  originalParentWidth := numD o.originalParentWidth 0
  originalParentHeight := numD o.originalParentHeight 0

/-- `Constraints.serialize`. -/
def Constraints.serialize (c : Constraints) : ConstraintsData where
  horizontal := some c.horizontal
  vertical := some c.vertical
  originalX := some c.originalX
  originalY := some c.originalY
  originalWidth := some c.originalWidth
  originalHeight := some c.originalHeight
  originalParentWidth := some c.originalParentWidth
  originalParentHeight := some c.originalParentHeight

/-- `Constraints.deserialize`. -/
def Constraints.deserialize (d : Option ConstraintsData) : Option Constraints :=
  d.map Constraints.ofOptions

/-- Serialized auto-layout data (src/objects.ts `AutoLayoutData`). -/
structure AutoLayoutData where
  direction : Option String := none
  primaryAxisAlign : Option String := none
  counterAxisAlign : Option String := none
  spacing : Option ℚ := none
  paddingTop : Option ℚ := none
  paddingRight : Option ℚ := none
  paddingBottom : Option ℚ := none
  paddingLeft : Option ℚ := none
  primaryAxisSizing : Option String := none
  counterAxisSizing : Option String := none
deriving Repr, DecidableEq

/-- A live `AutoLayout` object (src/objects.ts). -/
structure AutoLayout where
  direction : String
  primaryAxisAlign : String
  counterAxisAlign : String
  spacing : ℚ
  paddingTop : ℚ
  paddingRight : ℚ
  paddingBottom : ℚ
  paddingLeft : ℚ
  primaryAxisSizing : String
  counterAxisSizing : String
deriving Repr, DecidableEq

/-- The `AutoLayout` constructor (src/objects.ts, TS version: no
`padding` shorthand). -/
def AutoLayout.ofOptions (o : AutoLayoutData) : AutoLayout where
  direction := strD o.direction "horizontal"
  primaryAxisAlign := strD o.primaryAxisAlign "start"
  counterAxisAlign := strD o.counterAxisAlign "start"
  spacing := numD o.spacing 10
  paddingTop := numD o.paddingTop 0
  paddingRight := numD o.paddingRight 0
  paddingBottom := numD o.paddingBottom 0
  paddingLeft := numD o.paddingLeft 0
  primaryAxisSizing := strD o.primaryAxisSizing "hug"
  counterAxisSizing := strD o.counterAxisSizing "hug"

/-- `AutoLayout.serialize`. -/
def AutoLayout.serialize (a : AutoLayout) : AutoLayoutData where
  direction := some a.direction
  primaryAxisAlign := some a.primaryAxisAlign
  counterAxisAlign := some a.counterAxisAlign
  spacing := some a.spacing
  paddingTop := some a.paddingTop
  paddingRight := some a.paddingRight
  paddingBottom := some a.paddingBottom
  paddingLeft := some a.paddingLeft
  primaryAxisSizing := some a.primaryAxisSizing
  counterAxisSizing := some a.counterAxisSizing

/-- `AutoLayout.deserialize`. -/
def AutoLayout.deserialize (d : Option AutoLayoutData) : Option AutoLayout :=
  d.map AutoLayout.ofOptions

/-- A path anchor point (src/objects.ts `PathPoint`).  Serialization
stores path points by reference, so the same type serves live objects
and serialized data. -/
structure PathPoint where
  x : ℚ
  y : ℚ
  handleIn : Option Pt
  handleOut : Option Pt
deriving Repr, DecidableEq

end Design

namespace Design

/-- The attributes every `DesignObject` carries (src/objects.ts, the base
class fields).  The non-owning `parent` back-reference and transient
render caches are not part of the value model.  For a `Line`, the
`x`/`y`/`width`/`height` slots are unused (the class replaces them with
accessors derived from the endpoints); the embedding keeps them at `0`. -/
structure ObjCore where
  id : String
  name : String
  x : ℚ
  y : ℚ
  width : ℚ
  height : ℚ
  rotation : ℚ
  fill : Option String
  fillOpacity : ℚ
  stroke : Option String
  strokeWidth : ℚ
  strokeOpacity : ℚ
  visible : Bool
  locked : Bool
  opacity : ℚ
  blendMode : String
  gradient : Option Gradient
  shadows : List Shadow
  blur : ℚ
  constraints : Option Constraints
deriving Repr, DecidableEq

/-- The serialized attributes common to every variant plus every
variant-specific scalar field (`DesignObjectData` and its extensions in
src/objects.ts).  All fields except the `type` tag are optional, matching
`Partial<...Data>` constructor arguments.  Fields that may legally hold
`null` (distinct from being absent) are doubly optional.  A
`ComponentInstance`'s live `masterComponent` reference is modelled as an
opaque heap reference (`Nat`). -/
structure DataCore where
  dtype : String
  id : Option String := none
  name : Option String := none
  x : Option ℚ := none
  y : Option ℚ := none
  width : Option ℚ := none
  height : Option ℚ := none
  rotation : Option ℚ := none
  fill : Option (Option String) := none
  fillOpacity : Option ℚ := none
  stroke : Option (Option String) := none
  strokeWidth : Option ℚ := none
  strokeOpacity : Option ℚ := none
  visible : Option Bool := none
  locked : Option Bool := none
  opacity : Option ℚ := none
  blendMode : Option String := none
  gradient : Option (Option GradientData) := none
  shadows : Option (List ShadowData) := none
  blur : Option ℚ := none
  constraints : Option (Option ConstraintsData) := none
  cornerRadius : Option ℚ := none
  x1 : Option ℚ := none
  y1 : Option ℚ := none
  x2 : Option ℚ := none
  y2 : Option ℚ := none
  text : Option String := none
  fontFamily : Option String := none
  fontSize : Option ℚ := none
  fontWeight : Option String := none
  lineHeight : Option ℚ := none
  textAlign : Option String := none
  clipContent : Option Bool := none
  autoLayout : Option (Option AutoLayoutData) := none
  points : Option (List PathPoint) := none
  closed : Option Bool := none
  componentId : Option String := none
  description : Option String := none
  overrides : Option (List (String × Bool)) := none
  masterComponent : Option Nat := none
  src : Option String := none
  imageData : Option (Option String) := none
  fit : Option String := none
deriving Repr, DecidableEq

mutual

/-- A live `DesignObject`: the common attributes plus the
variant-specific payload. -/
inductive Obj : Type where
  | mk (core : ObjCore) (pay : Pay) : Obj

/-- The variant-specific payload of a `DesignObject`.  `generic` stands
for the base-class fallback `DesignObject` built for an unknown type tag. -/
inductive Pay : Type where
  | rectangle (cornerRadius : ℚ) : Pay
  | ellipse : Pay
  | line (x1 y1 x2 y2 : ℚ) : Pay
  | text (text fontFamily : String) (fontSize : ℚ) (fontWeight : String)
      (lineHeight : ℚ) (textAlign : String) : Pay
  | frame (clipContent : Bool) (cornerRadius : ℚ) (autoLayout : Option AutoLayout)
      (children : ObjList) : Pay
  | path (points : List PathPoint) (closed : Bool) (bx bY bw bh : ℚ) : Pay
  | group (children : ObjList) : Pay
  | image (src : String) (imageData : Option String) (fit : String)
      (cornerRadius : ℚ) : Pay
  | component (clipContent : Bool) (cornerRadius : ℚ) (componentId description : String)
      (children : ObjList) : Pay
  | compInstance (componentId : String) (masterComponent : Option Nat)
      (overrides : List (String × Bool)) (cornerRadius : ℚ) : Pay
  | generic (tag : String) : Pay

/-- An owned, ordered child sequence (paint order). -/
inductive ObjList : Type where
  | nil : ObjList
  | cons (head : Obj) (tail : ObjList) : ObjList

end

mutual

/-- Serialized form of a `DesignObject` (`DesignObjectData`): the scalar
fields plus the optional serialized children. -/
inductive Data : Type where
  | mk (core : DataCore) (children : Option DataList) : Data

/-- A serialized child sequence. -/
inductive DataList : Type where
  | nil : DataList
  | cons (head : Data) (tail : DataList) : DataList

end

namespace ObjList

/-- Appends a child at the end of the sequence (`Array.prototype.push`). -/
def append : ObjList → Obj → ObjList
  | .nil, o => .cons o .nil
  | .cons a t, o => .cons a (t.append o)

/-- Number of children. -/
def length : ObjList → Nat
  | .nil => 0
  | .cons _ t => t.length + 1

/-- Conversion from a Lean list, for stating concrete examples. -/
def ofList : List Obj → ObjList
  | [] => .nil
  | o :: t => .cons o (ofList t)

end ObjList

/-- The common attributes of an object. -/
def Obj.core : Obj → ObjCore
  | .mk c _ => c

/-- The variant payload of an object. -/
def Obj.pay : Obj → Pay
  | .mk _ p => p

/-- Replaces the common attributes of an object. -/
def Obj.withCore (o : Obj) (c : ObjCore) : Obj :=
  .mk c o.pay

/-- The `type` tag of an object, as `serialize` emits it. -/
def Obj.typeName (o : Obj) : String :=
  match o.pay with
  | .rectangle _ => "rectangle"
  | .ellipse => "ellipse"
  | .line _ _ _ _ => "line"
  | .text _ _ _ _ _ _ => "text"
  | .frame _ _ _ _ => "frame"
  | .path _ _ _ _ _ _ => "path"
  | .group _ => "group"
  | .image _ _ _ _ => "image"
  | .component _ _ _ _ _ => "component"
  | .compInstance _ _ _ _ => "componentInstance"
  | .generic tag => tag

/-- The bounds computed by `Line`'s `get bounds`: the axis-aligned box of
the two endpoints, with a degenerate extent replaced by `1` via `|| 1`. -/
def lineBounds (x1 y1 x2 y2 : ℚ) : Rect :=
  let minX := min x1 x2
  let minY := min y1 y2
  let maxX := max x1 x2
  let maxY := max y1 y2
  { x := minX
    y := minY
    width := if maxX - minX = 0 then 1 else maxX - minX
    height := if maxY - minY = 0 then 1 else maxY - minY }

/-- The `bounds` getter: the base class returns the stored rectangle;
`Line` derives it from the endpoints; `Path` returns the cached box with
`|| 0` / `|| 1` guards. -/
def Obj.bounds (o : Obj) : Rect :=
  match o.pay with
  | .line x1 y1 x2 y2 => lineBounds x1 y1 x2 y2
  | .path _ _ bx bY bw bh =>
      { x := if bx = 0 then 0 else bx
        y := if bY = 0 then 0 else bY
        width := if bw = 0 then 1 else bw
        height := if bh = 0 then 1 else bh }
  | _ => { x := o.core.x, y := o.core.y, width := o.core.width, height := o.core.height }

/-- The `x` getter (`Line` overrides it with `bounds.x`). -/
def Obj.getX (o : Obj) : ℚ :=
  match o.pay with
  | .line x1 y1 x2 y2 => (lineBounds x1 y1 x2 y2).x
  | _ => o.core.x

/-- The `y` getter. -/
def Obj.getY (o : Obj) : ℚ :=
  match o.pay with
  | .line x1 y1 x2 y2 => (lineBounds x1 y1 x2 y2).y
  | _ => o.core.y

/-- The `width` getter. -/
def Obj.getW (o : Obj) : ℚ :=
  match o.pay with
  | .line x1 y1 x2 y2 => (lineBounds x1 y1 x2 y2).width
  | _ => o.core.width

/-- The `height` getter. -/
def Obj.getH (o : Obj) : ℚ :=
  match o.pay with
  | .line x1 y1 x2 y2 => (lineBounds x1 y1 x2 y2).height
  | _ => o.core.height

/-- The `x` setter: `Line` shifts both endpoints by the delta to the
current `bounds.x`; every other variant stores the value. -/
def Obj.setX (o : Obj) (v : ℚ) : Obj :=
  match o with
  | .mk c (.line x1 y1 x2 y2) =>
      let dx := v - (lineBounds x1 y1 x2 y2).x
      .mk c (.line (x1 + dx) y1 (x2 + dx) y2)
  | .mk c p => .mk { c with x := v } p

/-- The `y` setter. -/
def Obj.setY (o : Obj) (v : ℚ) : Obj :=
  match o with
  | .mk c (.line x1 y1 x2 y2) =>
      let dy := v - (lineBounds x1 y1 x2 y2).y
      .mk c (.line x1 (y1 + dy) x2 (y2 + dy))
  | .mk c p => .mk { c with y := v } p

/-- The `width` setter: `Line` rescales both endpoints about the smaller
endpoint `x` (a no-op guard fires when the current width is `0`, which
`lineBounds` in fact never produces); every other variant stores the
value. -/
def Obj.setW (o : Obj) (v : ℚ) : Obj :=
  match o with
  | .mk c (.line x1 y1 x2 y2) =>
      let currentWidth := (lineBounds x1 y1 x2 y2).width
      if currentWidth = 0 then .mk c (.line x1 y1 x2 y2)
      else
        let ratio := v / currentWidth
        let minX := min x1 x2
        .mk c (.line (minX + (x1 - minX) * ratio) y1 (minX + (x2 - minX) * ratio) y2)
  | .mk c p => .mk { c with width := v } p

/-- The `height` setter. -/
def Obj.setH (o : Obj) (v : ℚ) : Obj :=
  match o with
  | .mk c (.line x1 y1 x2 y2) =>
      let currentHeight := (lineBounds x1 y1 x2 y2).height
      if currentHeight = 0 then .mk c (.line x1 y1 x2 y2)
      else
        let ratio := v / currentHeight
        let minY := min y1 y2
        .mk c (.line x1 (minY + (y1 - minY) * ratio) x2 (minY + (y2 - minY) * ratio))
  | .mk c p => .mk { c with height := v } p

end Design

namespace Design

/-- Accumulates `totalSize` (sum of primary-axis extents) and
`maxCrossSize` (max of counter-axis extents) over the children, both
starting from `0`, as the first `forEach` of `AutoLayout.apply` does. -/
def alScanSizes (isH : Bool) : ℚ → ℚ → ObjList → ℚ × ℚ
  | t, m, .nil => (t, m)
  | t, m, .cons c cs =>
      alScanSizes isH
        (t + (if isH then c.getW else c.getH))
        (max m (if isH then c.getH else c.getW))
        cs

/-- One child of the placement `forEach` in horizontal direction: sets
the child's `x` to the running position, then its `y` (and, under
`stretch`, its `height`) according to `counterAxisAlign`; an alignment
value matching no `switch` case leaves the counter axis alone. -/
def alChildH (al : AutoLayout) (fy maxCross pos : ℚ) (c : Obj) : Obj :=
  let c1 := c.setX pos
  if al.counterAxisAlign = "start" then c1.setY (fy + al.paddingTop)
  else if al.counterAxisAlign = "center" then
    c1.setY (fy + al.paddingTop + (maxCross - c1.getH) / 2)
  else if al.counterAxisAlign = "end" then
    c1.setY (fy + al.paddingTop + maxCross - c1.getH)
  else if al.counterAxisAlign = "stretch" then
    (c1.setY (fy + al.paddingTop)).setH maxCross
  else c1

/-- One child of the placement `forEach` in vertical direction. -/
def alChildV (al : AutoLayout) (fx maxCross pos : ℚ) (c : Obj) : Obj :=
  let c1 := c.setY pos
  if al.counterAxisAlign = "start" then c1.setX (fx + al.paddingLeft)
  else if al.counterAxisAlign = "center" then
    c1.setX (fx + al.paddingLeft + (maxCross - c1.getW) / 2)
  else if al.counterAxisAlign = "end" then
    c1.setX (fx + al.paddingLeft + maxCross - c1.getW)
  else if al.counterAxisAlign = "stretch" then
    (c1.setX (fx + al.paddingLeft)).setW maxCross
  else c1

/-- The placement `forEach` of `AutoLayout.apply`: walks the children
with the running primary-axis position (advanced by the just-placed
child's extent plus spacing, read back through the getter as the source
does). -/
def alPlace (al : AutoLayout) (isH : Bool) (fx fy maxCross : ℚ) : ℚ → ObjList → ObjList
  | _, .nil => .nil
  | pos, .cons c cs =>
      if isH then
        let nextPos := pos + (c.setX pos).getW + al.spacing
        .cons (alChildH al fy maxCross pos c) (alPlace al isH fx fy maxCross nextPos cs)
      else
        let nextPos := pos + (c.setY pos).getH + al.spacing
        .cons (alChildV al fx maxCross pos c) (alPlace al isH fx fy maxCross nextPos cs)

/-- `AutoLayout.apply(frame)` (src/objects.ts): positions the children
sequentially along the primary axis, aligns/stretches them on the
counter axis, and overwrites the frame's extent on each axis whose
sizing mode is `hug`.  A no-op on an empty frame and on non-frames
(the method is only ever invoked on a `Frame`). -/
def AutoLayout.apply (al : AutoLayout) (f : Obj) : Obj :=
  match f with
  | .mk c (.frame cc cr fal cs) =>
      match cs with
      | .nil => .mk c (.frame cc cr fal cs)
      | _ =>
          let isH := al.direction = "horizontal"
          let startPos := if isH then c.x + al.paddingLeft else c.y + al.paddingTop
          let sizes := alScanSizes isH 0 0 cs
          let totalSize := sizes.1 + al.spacing * ((cs.length : ℚ) - 1)
          let maxCross := sizes.2
          let placed := alPlace al isH c.x c.y maxCross startPos cs
          let c1 :=
            if al.primaryAxisSizing = "hug" then
              if isH then { c with width := totalSize + al.paddingLeft + al.paddingRight }
              else { c with height := totalSize + al.paddingTop + al.paddingBottom }
            else c
          let c2 :=
            if al.counterAxisSizing = "hug" then
              if isH then { c1 with height := maxCross + al.paddingTop + al.paddingBottom }
              else { c1 with width := maxCross + al.paddingLeft + al.paddingRight }
            else c1
          .mk c2 (.frame cc cr fal placed)
  | other => other

/-- `Frame.addChild`: appends the child and re-runs auto-layout when it
is enabled.  (The `parent` back-reference is not part of the value
model.)  Only meaningful on a frame. -/
def Frame.addChild (f : Obj) (child : Obj) : Obj :=
  match f with
  | .mk c (.frame cc cr al cs) =>
      let f1 := Obj.mk c (.frame cc cr al (cs.append child))
      match al with
      | some a => a.apply f1
      | none => f1
  | other => other

/-- Folds `(minX, minY, maxX, maxY)` over children bounds, as
`Group.updateBounds` does. -/
def groupBoundsFold : ObjList → ℚ × ℚ × ℚ × ℚ → ℚ × ℚ × ℚ × ℚ
  | .nil, a => a
  | .cons c cs, (mnx, mny, mxx, mxy) =>
      let b := c.bounds
      groupBoundsFold cs
        (min mnx b.x, min mny b.y, max mxx (b.x + b.width), max mxy (b.y + b.height))

/-- `Group.updateBounds`: recomputes the stored rectangle as the union
of the children's bounds; an early return leaves an empty group alone.
The source starts its fold from `±Infinity`; starting from the first
child's bounds and folding over all children again is the same fold
restricted to `ℚ`. -/
def Group.updateBounds (g : Obj) : Obj :=
  match g with
  | .mk c (.group (.cons h t)) =>
      let hb := h.bounds
      let r := groupBoundsFold (ObjList.cons h t) (hb.x, hb.y, hb.x + hb.width, hb.y + hb.height)
      .mk { c with x := r.1, y := r.2.1, width := r.2.2.1 - r.1, height := r.2.2.2 - r.2.1 }
        (.group (.cons h t))
  | other => other

/-- `Group.addChild`: appends the child, then recomputes bounds. -/
def Group.addChild (g : Obj) (child : Obj) : Obj :=
  match g with
  | .mk c (.group cs) => Group.updateBounds (.mk c (.group (cs.append child)))
  | other => other

/-- `Component.addChild`: appends the child (no post-processing). -/
def Component.addChild (k : Obj) (child : Obj) : Obj :=
  match k with
  | .mk c (.component cc cr cid desc cs) =>
      .mk c (.component cc cr cid desc (cs.append child))
  | other => other

/-- Folds `(minX, minY, maxX, maxY)` over path anchor points, as
`Path.updateBounds` does (handles do not extend bounds). -/
def pathBoundsFold : List PathPoint → ℚ × ℚ × ℚ × ℚ → ℚ × ℚ × ℚ × ℚ
  | [], a => a
  | p :: ps, (mnx, mny, mxx, mxy) =>
      pathBoundsFold ps (min mnx p.x, min mny p.y, max mxx p.x, max mxy p.y)

/-- `Path.updateBounds`: recomputes the cached `(_x, _y, _width, _height)`
from the anchor points, replacing a degenerate extent by `1` via `|| 1`;
an early return keeps the current cache when there are no points. -/
def Path.recomputeBounds (points : List PathPoint) (cur : ℚ × ℚ × ℚ × ℚ) : ℚ × ℚ × ℚ × ℚ :=
  match points with
  | [] => cur
  | p :: ps =>
      let r := pathBoundsFold (p :: ps) (p.x, p.y, p.x, p.y)
      let w := r.2.2.1 - r.1
      let h := r.2.2.2 - r.2.1
      (r.1, r.2.1, if w = 0 then 1 else w, if h = 0 then 1 else h)

end Design

namespace Design

/-- The common part of `DesignObject.serialize`: every base attribute,
with `x`/`y`/`width`/`height` read through the (possibly overridden)
getters and sub-objects serialized recursively. -/
def baseData (o : Obj) : DataCore where
  dtype := o.typeName
  id := some o.core.id
  name := some o.core.name
  x := some o.getX
  y := some o.getY
  width := some o.getW
  height := some o.getH
  rotation := some o.core.rotation
  fill := some o.core.fill
  fillOpacity := some o.core.fillOpacity
  stroke := some o.core.stroke
  strokeWidth := some o.core.strokeWidth
  strokeOpacity := some o.core.strokeOpacity
  visible := some o.core.visible
  locked := some o.core.locked
  opacity := some o.core.opacity
  blendMode := some o.core.blendMode
  gradient := some (o.core.gradient.map Gradient.serialize)
  shadows := some (o.core.shadows.map Shadow.serialize)
  blur := some o.core.blur
  constraints := some (o.core.constraints.map Constraints.serialize)

mutual

/-- `DesignObject.serialize` with each variant's override: the base
attributes plus the variant-specific fields, children serialized
recursively.  A `ComponentInstance` serializes its `componentId`,
`overrides` and `cornerRadius` but not its live `masterComponent`
reference; a `Component` serializes its children but not its weak
instance set. -/
def Obj.serialize : Obj → Data
  | .mk c p =>
      let base := baseData (.mk c p)
      match p with
      | .rectangle cr => .mk { base with cornerRadius := some cr } none
      | .ellipse => .mk base none
      | .line x1 y1 x2 y2 =>
          .mk { base with x1 := some x1, y1 := some y1, x2 := some x2, y2 := some y2 } none
      | .text t ff fs fw lh ta =>
          .mk { base with text := some t, fontFamily := some ff, fontSize := some fs,
                          fontWeight := some fw, lineHeight := some lh, textAlign := some ta } none
      | .frame cc cr al cs =>
          .mk { base with clipContent := some cc, cornerRadius := some cr,
                          autoLayout := some (al.map AutoLayout.serialize) }
            (some (Obj.serializeList cs))
      | .path pts cl _ _ _ _ =>
          .mk { base with points := some pts, closed := some cl } none
      | .group cs => .mk base (some (Obj.serializeList cs))
      | .image s idata ft cr =>
          .mk { base with src := some s, imageData := some idata, fit := some ft,
                          cornerRadius := some cr } none
      | .component cc cr cid desc cs =>
          .mk { base with clipContent := some cc, cornerRadius := some cr,
                          componentId := some cid, description := some desc }
            (some (Obj.serializeList cs))
      | .compInstance cid _ ov cr =>
          .mk { base with componentId := some cid, overrides := some ov,
                          cornerRadius := some cr } none
      | .generic _ => .mk base none

/-- Serializes a child sequence in order. -/
def Obj.serializeList : ObjList → DataList
  | .nil => .nil
  | .cons o t => .cons o.serialize (Obj.serializeList t)

end

/-- The base `DesignObject` constructor over partial data: every common
attribute with its `||` / `!== undefined` default.  The random
`Utils.generateId()` fallback (taken only when the data carries no id, or
an empty one) is abstracted as the marker string `"obj_fresh"`; every
claim below feeds the constructor serialized data, which always carries
the object's id. -/
def baseCore (type_ : String) (dc : DataCore) : ObjCore where
  id := strD dc.id "obj_fresh"
  name := strD dc.name type_.capitalize
  x := numD dc.x 0
  y := numD dc.y 0
  width := numD dc.width 100
  height := numD dc.height 100
  rotation := numD dc.rotation 0
  fill := strUndefD dc.fill (some "#5B5BFF")
  fillOpacity := undefD dc.fillOpacity 1
  stroke := strOrNull dc.stroke
  strokeWidth := numD dc.strokeWidth 0
  strokeOpacity := undefD dc.strokeOpacity 1
  visible := undefD dc.visible true
  locked := boolD dc.locked false
  opacity := undefD dc.opacity 1
  blendMode := strD dc.blendMode "normal"
  gradient := (truthyObj dc.gradient).map Gradient.ofOptions
  shadows := (dc.shadows.getD []).map Shadow.ofOptions
  blur := numD dc.blur 0
  constraints := (truthyObj dc.constraints).map Constraints.ofOptions

/-- Evaluates `options.fill || '#FFFFFF'` on a doubly-optional fill. -/
def fillOrWhite (f : Option (Option String)) : String :=
  match f with
  | some (some s) => if s = "" then "#FFFFFF" else s
  | _ => "#FFFFFF"

/-- Evaluates `options.stroke || '#000000'` on a doubly-optional stroke. -/
def strokeOrBlack (s : Option (Option String)) : String :=
  match s with
  | some (some v) => if v = "" then "#000000" else v
  | _ => "#000000"

mutual

/-- `DesignObject.deserialize` (src/objects.ts): dispatches on the type
tag to the matching variant constructor, falling back to a base
`DesignObject` carrying the unknown tag.  Container constructors rebuild
their children through `addChild`, re-running auto-layout (Frame) or
bounds recomputation (Group) per insertion.  A `ComponentInstance` is
rebuilt unlinked (`masterComponent` can only arrive through direct
construction with a live reference, which serialized data never carries;
the `syncFromMaster` call that would then fire is outside this model). -/
def Obj.deserialize : Data → Obj
  | .mk dc children =>
      if dc.dtype = "rectangle" then
        .mk (baseCore "rectangle" dc) (.rectangle (numD dc.cornerRadius 0))
      else if dc.dtype = "ellipse" then
        .mk (baseCore "ellipse" dc) .ellipse
      else if dc.dtype = "line" then
        .mk { baseCore "line" dc with
                x := 0, y := 0, width := 0, height := 0,
                fill := none,
                stroke := some (strokeOrBlack dc.stroke),
                strokeWidth := numD dc.strokeWidth 2 }
          (.line (dc.x1.getD (dc.x.getD 0))
                 (dc.y1.getD (dc.y.getD 0))
                 (dc.x2.getD ((dc.x.getD 0) + (dc.width.getD 100)))
                 (dc.y2.getD ((dc.y.getD 0) + (dc.height.getD 100))))
      else if dc.dtype = "text" then
        .mk { baseCore "text" dc with
                width := numD dc.width 100, height := numD dc.height 24 }
          (.text (strD dc.text "Text") (strD dc.fontFamily "Inter")
                 (numD dc.fontSize 16) (strD dc.fontWeight "400")
                 (numD dc.lineHeight (3/2)) (strD dc.textAlign "left"))
      else if dc.dtype = "frame" then
        let f0 := Obj.mk { baseCore "frame" dc with fill := some (fillOrWhite dc.fill) }
          (.frame (undefD dc.clipContent true) (numD dc.cornerRadius 0)
            ((truthyObj dc.autoLayout).map AutoLayout.ofOptions) .nil)
        Obj.frameChildren f0 children
      else if dc.dtype = "path" then
        let b := Path.recomputeBounds (listD dc.points []) (0, 0, 1, 1)
        .mk (baseCore "path" dc)
          (.path (listD dc.points []) (boolD dc.closed false) b.1 b.2.1 b.2.2.1 b.2.2.2)
      else if dc.dtype = "group" then
        let g0 := Obj.mk { baseCore "group" dc with fill := none } (.group .nil)
        Obj.groupChildren g0 children
      else if dc.dtype = "image" then
        .mk (baseCore "image" dc)
          (.image (strD dc.src "") (strOrNull dc.imageData) (strD dc.fit "cover")
            (numD dc.cornerRadius 0))
      else if dc.dtype = "component" then
        let k0 := Obj.mk { baseCore "component" dc with fill := some (fillOrWhite dc.fill) }
          (.component (undefD dc.clipContent true) (numD dc.cornerRadius 0)
            (strD dc.componentId "obj_fresh") (strD dc.description "") .nil)
        Obj.componentChildren k0 children
      else if dc.dtype = "componentInstance" then
        .mk (baseCore "componentInstance" dc)
          (.compInstance (strD dc.componentId "") dc.masterComponent
            (dc.overrides.getD []) (numD dc.cornerRadius 0))
      else
        .mk (baseCore dc.dtype dc) (.generic dc.dtype)

/-- Rebuilds frame children (`options.children.forEach(... addChild ...)`). -/
def Obj.frameChildren : Obj → Option DataList → Obj
  | f, none => f
  | f, some ds => Obj.frameChildrenList f ds

/-- The frame child-rebuilding fold. -/
def Obj.frameChildrenList : Obj → DataList → Obj
  | f, .nil => f
  | f, .cons d ds => Obj.frameChildrenList (Frame.addChild f (Obj.deserialize d)) ds

/-- Rebuilds group children. -/
def Obj.groupChildren : Obj → Option DataList → Obj
  | g, none => g
  | g, some ds => Obj.groupChildrenList g ds

/-- The group child-rebuilding fold. -/
def Obj.groupChildrenList : Obj → DataList → Obj
  | g, .nil => g
  | g, .cons d ds => Obj.groupChildrenList (Group.addChild g (Obj.deserialize d)) ds

/-- Rebuilds component children. -/
def Obj.componentChildren : Obj → Option DataList → Obj
  | k, none => k
  | k, some ds => Obj.componentChildrenList k ds

/-- The component child-rebuilding fold. -/
def Obj.componentChildrenList : Obj → DataList → Obj
  | k, .nil => k
  | k, .cons d ds => Obj.componentChildrenList (Component.addChild k (Obj.deserialize d)) ds

end

/-- `DesignObject.clone`: `new this.constructor(this.serialize())` with a
freshly generated id and `' Copy'` appended to the name.  Because
`serialize` emits the variant's own type tag and `deserialize` dispatches
on that tag to the same constructor, `new this.constructor(data)` equals
`DesignObject.deserialize(data)` here; the random fresh id is passed in
explicitly. -/
def Obj.clone (o : Obj) (freshId : String) : Obj :=
  let c := Obj.deserialize o.serialize
  c.withCore { c.core with id := freshId, name := o.core.name ++ " Copy" }

end Design

namespace Design

/-- A history snapshot (src/history.ts `HistoryState`): serialized
objects plus the selected ids. -/
structure HistoryState where
  objects : List Data
  selectedIds : List String

/-- `Utils.deepClone` is a structural deep copy of plain data; on the
immutable values of this model it is the identity. -/
def deepClone (s : HistoryState) : HistoryState := s

/-- The undo/redo manager (src/history.ts `HistoryManager`): two bounded
stacks of snapshots plus the re-entrancy flag.  Stacks grow at the list
end (`Array.prototype.push`/`pop`); eviction removes the list head
(`shift`). -/
structure HistoryManager where
  maxSize : Nat
  undoStack : List HistoryState
  redoStack : List HistoryState
  isApplying : Bool

/-- The `HistoryManager` constructor (`maxSize` defaults to 100). -/
def HistoryManager.new (maxSize : Nat := 100) : HistoryManager where
  maxSize := maxSize
  undoStack := []
  redoStack := []
  isApplying := false

/-- `HistoryManager.push`: dropped while a restore is being applied;
otherwise clears the redo stack, appends a deep clone of the state, and
evicts the oldest entry once the stack exceeds `maxSize`. -/
def HistoryManager.push (h : HistoryManager) (state : HistoryState) : HistoryManager :=
  if h.isApplying then h
  else
    let u := h.undoStack ++ [deepClone state]
    { h with
        redoStack := []
        undoStack := if h.maxSize < u.length then u.drop 1 else u }

/-- `HistoryManager.undo`: absent on an empty undo stack; otherwise
pushes a deep clone of the current state onto the redo stack and pops
and returns the undo top. -/
def HistoryManager.undo (h : HistoryManager) (currentState : HistoryState) :
    Option HistoryState × HistoryManager :=
  match h.undoStack.getLast? with
  | none => (none, h)
  | some s =>
      (some s,
        { h with
            redoStack := h.redoStack ++ [deepClone currentState]
            undoStack := h.undoStack.dropLast })

/-- `HistoryManager.redo`: pops and returns the redo top when present. -/
def HistoryManager.redo (h : HistoryManager) : Option HistoryState × HistoryManager :=
  match h.redoStack.getLast? with
  | none => (none, h)
  | some s => (some s, { h with redoStack := h.redoStack.dropLast })

/-- Pushes a sequence of states in order. -/
def HistoryManager.pushAll (h : HistoryManager) (states : List HistoryState) : HistoryManager :=
  states.foldl HistoryManager.push h

end Design

namespace Design

/-- Cubic bezier evaluation in Bernstein form
(`BooleanOperations.bezierPoint`). -/
def bezierPoint (p0 p1 p2 p3 : Pt) (t : ℚ) : Pt :=
  let mt := 1 - t
  let mt2 := mt * mt
  let mt3 := mt2 * mt
  let t2 := t * t
  let t3 := t2 * t
  { x := mt3 * p0.x + 3 * mt2 * t * p1.x + 3 * mt * t2 * p2.x + t3 * p3.x
    y := mt3 * p0.y + 3 * mt2 * t * p1.y + 3 * mt * t2 * p2.y + t3 * p3.y }

/-- `BooleanOperations.ellipseToPolygon`: an N-gon sampled evenly by
angle.  The source calls `Math.cos(angle)`/`Math.sin(angle)` at angles
`(i/segments)·2π`; those transcendental samples are abstracted by the
parameters `cosPi`/`sinPi`, which stand for `t ↦ cos(π·t)` and
`t ↦ sin(π·t)` (floating-point approximations in the source). -/
def ellipseToPolygon (cosPi sinPi : ℚ → ℚ) (x y width height : ℚ)
    (segments : ℕ := 32) : List Pt :=
  let cx := x + width / 2
  let cy := y + height / 2
  let rx := width / 2
  let ry := height / 2
  (List.range segments).map fun i =>
    let t := ((i : ℚ) / (segments : ℚ)) * 2
    { x := cx + cosPi t * rx, y := cy + sinPi t * ry }

/-- `BooleanOperations.roundedRectToPolygon`: 90°-arc sampling of the
four corners, `segmentsPerCorner + 1` samples each (the loops are
inclusive).  Angles are expressed in units of π for `cosPi`/`sinPi`. -/
def roundedRectToPolygon (cosPi sinPi : ℚ → ℚ) (x y width height radius : ℚ)
    (segmentsPerCorner : ℕ := 8) : List Pt :=
  let r := min radius (min (width / 2) (height / 2))
  let n := segmentsPerCorner
  let arc := fun (base : ℚ) (cx cy : ℚ) =>
    (List.range (n + 1)).map fun i =>
      let t := base + (i : ℚ) / (2 * (n : ℚ))
      Pt.mk (cx + cosPi t * r) (cy + sinPi t * r)
  arc (-(1/2)) (x + width - r) (y + r) ++
  arc 0 (x + width - r) (y + height - r) ++
  arc (1/2) (x + r) (y + height - r) ++
  arc 1 (x + r) (y + r)

/-- `BooleanOperations.pathToPolygon`: each anchor point, followed by
`segmentsPerCurve - 1` interior bezier samples whenever the segment to
the (cyclically) next anchor carries a handle; on an open path the last
iteration additionally pushes its `next` point, which is the first
anchor again. -/
def pathToPolygon (pts : List PathPoint) (closed : Bool)
    (segmentsPerCurve : ℕ := 8) : List Pt :=
  (List.range pts.length).flatMap fun i =>
    let current := pts.getD i ⟨0, 0, none, none⟩
    let next := pts.getD ((i + 1) % pts.length) ⟨0, 0, none, none⟩
    let p0 : Pt := ⟨current.x, current.y⟩
    let p3 : Pt := ⟨next.x, next.y⟩
    [p0] ++
    (if current.handleOut.isSome || next.handleIn.isSome then
      let p1 := current.handleOut.getD p0
      let p2 := next.handleIn.getD p3
      (List.range (segmentsPerCurve - 1)).map fun t =>
        bezierPoint p0 p1 p2 p3 (((t + 1 : ℕ) : ℚ) / (segmentsPerCurve : ℚ))
    else []) ++
    (if !closed && i = pts.length - 1 then [p3] else [])

/-- `BooleanOperations.objectToPolygon`: Rectangle → 4 corners (rounded
polygon when `cornerRadius > 0`), Ellipse → 32-gon, Path → flattened
polygon, anything else → empty. -/
def objectToPolygon (cosPi sinPi : ℚ → ℚ) (o : Obj) : List Pt :=
  if o.typeName = "rectangle" then
    match o.pay with
    | .rectangle cr =>
        if 0 < cr then
          roundedRectToPolygon cosPi sinPi o.getX o.getY o.getW o.getH cr
        else
          [⟨o.getX, o.getY⟩, ⟨o.getX + o.getW, o.getY⟩,
           ⟨o.getX + o.getW, o.getY + o.getH⟩, ⟨o.getX, o.getY + o.getH⟩]
    | _ =>
        [⟨o.getX, o.getY⟩, ⟨o.getX + o.getW, o.getY⟩,
         ⟨o.getX + o.getW, o.getY + o.getH⟩, ⟨o.getX, o.getY + o.getH⟩]
  else if o.typeName = "ellipse" then
    ellipseToPolygon cosPi sinPi o.getX o.getY o.getW o.getH 32
  else if o.typeName = "path" then
    match o.pay with
    | .path pts cl _ _ _ _ => pathToPolygon pts cl
    | _ => []
  else []

/-- `BooleanOperations.pointInPolygon`: standard ray casting. -/
def pointInPolygon (pt : Pt) (polygon : List Pt) : Bool :=
  let n := polygon.length
  (List.range n).foldl
    (fun inside i =>
      let pi := polygon.getD i ⟨0, 0⟩
      let pj := polygon.getD ((i + n - 1) % n) ⟨0, 0⟩
      if (decide (pt.y < pi.y) != decide (pt.y < pj.y)) &&
          decide (pt.x < (pj.x - pi.x) * (pt.y - pi.y) / (pj.y - pi.y) + pi.x) then
        !inside
      else inside)
    false

/-- `BooleanOperations.lineIntersection`: the parametric determinant
test; the floating `Math.abs(denom) < 0.0001` guard is idealized to the
rational `1/10000`. -/
def lineIntersection (p1 p2 p3 p4 : Pt) : Option Pt :=
  let denom := (p1.x - p2.x) * (p3.y - p4.y) - (p1.y - p2.y) * (p3.x - p4.x)
  if |denom| < 1 / 10000 then none
  else
    let t := ((p1.x - p3.x) * (p3.y - p4.y) - (p1.y - p3.y) * (p3.x - p4.x)) / denom
    let u := -((p1.x - p2.x) * (p1.y - p3.y) - (p1.y - p2.y) * (p1.x - p3.x)) / denom
    if 0 ≤ t ∧ t ≤ 1 ∧ 0 ≤ u ∧ u ≤ 1 then
      some ⟨p1.x + t * (p2.x - p1.x), p1.y + t * (p2.y - p1.y)⟩
    else none

/-- The `atan2` bucket of a vector: `atan2` ranges over `(-π, π]`, so the
lower half-plane (angles in `(-π, 0)`) sorts first, then the positive
x-axis (angle `0`, which `atan2(0,0) = 0` joins), then the upper
half-plane (`(0, π)`), then the negative x-axis (angle `π`). -/
def angBucket (v : Pt) : ℕ :=
  if v.y < 0 then 0
  else if v.y = 0 ∧ 0 ≤ v.x then 1
  else if 0 < v.y then 2
  else 3

/-- The z-component of the cross product of two plane vectors. -/
def crossZ (u v : Pt) : ℚ :=
  u.x * v.y - u.y * v.x

/-- Exact statement of `atan2(u.y, u.x) < atan2(v.y, v.x)`: compare the
buckets; within the open half-plane buckets the angles differ by less
than π, so their `atan2` order is the sign of the cross product. -/
def angLt (u v : Pt) : Prop :=
  angBucket u < angBucket v ∨
    (angBucket u = angBucket v ∧ (angBucket u = 0 ∨ angBucket u = 2) ∧ 0 < crossZ u v)

instance (u v : Pt) : Decidable (angLt u v) := by
  unfold angLt; infer_instance

/-- Squared distance from the pivot, the comparator's tie-breaker. -/
def distSq (u : Pt) : ℚ :=
  u.x * u.x + u.y * u.y

/-- The sort comparator of `convexHull` as a strict order: `a` sorts
strictly before `b` when its polar angle around the pivot is smaller, or
the angles are equal and it is closer. -/
def polarBefore (pivot a b : Pt) : Bool :=
  let u := Pt.mk (a.x - pivot.x) (a.y - pivot.y)
  let v := Pt.mk (b.x - pivot.x) (b.y - pivot.y)
  decide (angLt u v) ||
    (!decide (angLt u v) && !decide (angLt v u) && decide (distSq u < distSq v))

/-- Stable insertion into a sorted list under a strict-order comparator. -/
def insertBy (lt : Pt → Pt → Bool) (x : Pt) : List Pt → List Pt
  | [] => [x]
  | y :: ys => if lt x y then x :: y :: ys else y :: insertBy lt x ys

/-- Stable insertion sort.  `Array.prototype.sort` with a comparator that
is a strict weak order returns the unique sorted arrangement up to ties;
on the inputs considered below all sort keys are distinct, so any
correct sort yields this result. -/
def sortBy (lt : Pt → Pt → Bool) : List Pt → List Pt
  | [] => []
  | x :: xs => insertBy lt x (sortBy lt xs)

/-- The inner `while` loop of the Graham scan: with the stack top at the
list head, pops while the turn `second → top → point` is not a strict
left turn (`cross <= 0`). -/
def popNonLeft (point : Pt) : List Pt → List Pt
  | top :: second :: rest =>
      let cross := (top.x - second.x) * (point.y - second.y) -
                   (top.y - second.y) * (point.x - second.x)
      if cross ≤ 0 then popNonLeft point (second :: rest)
      else top :: second :: rest
  | l => l

/-- The Graham-scan sweep over the angle-sorted points. -/
def scanHull : List Pt → List Pt → List Pt
  | stack, [] => stack
  | stack, p :: ps => scanHull (p :: popNonLeft p stack) ps

/-- The index of the lowest-then-leftmost point (its pivot-selection
loop, run from index 0, which compares the start index with itself and
keeps it). -/
def lowestIndex (ps : List Pt) : ℕ :=
  (List.range ps.length).foldl
    (fun low i =>
      let pi := ps.getD i ⟨0, 0⟩
      let pl := ps.getD low ⟨0, 0⟩
      if pi.y < pl.y ∨ (pi.y = pl.y ∧ pi.x < pl.x) then i else low)
    0

/-- Swaps two list positions (the pivot swap mutates the input array). -/
def swapAt (ps : List Pt) (i j : ℕ) : List Pt :=
  (ps.set i (ps.getD j ⟨0, 0⟩)).set j (ps.getD i ⟨0, 0⟩)

/-- `BooleanOperations.convexHull`: Graham scan — fewer than 3 points are
returned unchanged; otherwise the lowest-then-leftmost point is swapped
to the front as pivot, the rest are sorted by polar angle (ties by
distance), and the sweep keeps only strict left turns. -/
def convexHull (points : List Pt) : List Pt :=
  if points.length < 3 then points
  else
    let swapped := swapAt points 0 (lowestIndex points)
    let pivot := swapped.getD 0 ⟨0, 0⟩
    let sorted := sortBy (polarBefore pivot) (swapped.drop 1)
    (scanHull [pivot] sorted).reverse

end Design

namespace Design

/-- Evaluates `a || b` on nullable strings (`null` and `""` are falsy). -/
def jsOr (a b : Option String) : Option String :=
  match a with
  | some s => if s = "" then b else some s
  | none => b

/-- Truthiness of a nullable string. -/
def strTruthy (s : Option String) : Bool :=
  match s with
  | some v => v != ""
  | none => false

/-- `BooleanOperations.polygonToPath`: a fresh closed `Path` named
`'Boolean Result'` whose points are the polygon vertices (pushed
directly, without handles), bounds recomputed once at the end.  The
`Path` constructor is the deserializer's `"path"` branch. -/
def polygonToPath (polygon : List Pt) (fill stroke : Option String) : Obj :=
  let p0 := Obj.deserialize (.mk
    { dtype := "path"
      name := some "Boolean Result"
      fill := some fill
      stroke := some stroke
      strokeWidth := some (if strTruthy stroke then 1 else 0)
      closed := some true } none)
  match p0 with
  | .mk c (.path _ cl _ _ _ _) =>
      let pts := polygon.map fun p => PathPoint.mk p.x p.y none none
      let b := Path.recomputeBounds pts (0, 0, 1, 1)
      .mk c (.path pts cl b.1 b.2.1 b.2.2.1 b.2.2.2)
  | other => other

/-- `BooleanOperations.union`: convex hull of the combined point set, as
a path filled with `obj1.fill || obj2.fill` and stroked with
`obj1.stroke`. -/
def BoolOps.union (cosPi sinPi : ℚ → ℚ) (o1 o2 : Obj) : Obj :=
  let poly1 := objectToPolygon cosPi sinPi o1
  let poly2 := objectToPolygon cosPi sinPi o2
  let hull := convexHull (poly1 ++ poly2)
  polygonToPath hull (jsOr o1.core.fill o2.core.fill) o1.core.stroke

/-- `BooleanOperations.subtract`: builds a closed `Path` named
`'Subtracted Shape'` from `obj1`'s outer boundary only; `obj2`'s polygon
is computed but unused (no hole is carved). -/
def BoolOps.subtract (cosPi sinPi : ℚ → ℚ) (o1 o2 : Obj) : Obj :=
  let poly1 := objectToPolygon cosPi sinPi o1
  let _poly2 := objectToPolygon cosPi sinPi o2
  let p0 := Obj.deserialize (.mk
    { dtype := "path"
      name := some "Subtracted Shape"
      fill := some o1.core.fill
      stroke := some o1.core.stroke
      strokeWidth := some o1.core.strokeWidth
      closed := some true } none)
  match p0 with
  | .mk c (.path _ cl _ _ _ _) =>
      let pts := poly1.map fun p => PathPoint.mk p.x p.y none none
      let b := Path.recomputeBounds pts (0, 0, 1, 1)
      .mk c (.path pts cl b.1 b.2.1 b.2.2.1 b.2.2.2)
  | other => other

/-- The edge–edge intersection gathering loop of
`BooleanOperations.intersect`. -/
def edgeIntersections (poly1 poly2 : List Pt) : List Pt :=
  (List.range poly1.length).flatMap fun i =>
    let p1 := poly1.getD i ⟨0, 0⟩
    let p2 := poly1.getD ((i + 1) % poly1.length) ⟨0, 0⟩
    (List.range poly2.length).filterMap fun j =>
      let p3 := poly2.getD j ⟨0, 0⟩
      let p4 := poly2.getD ((j + 1) % poly2.length) ⟨0, 0⟩
      lineIntersection p1 p2 p3 p4

/-- `BooleanOperations.intersect`: points of each polygon inside the
other plus all edge intersections; absent when fewer than 3 points
result, otherwise the convex hull of the gathered set as a path. -/
def BoolOps.intersect (cosPi sinPi : ℚ → ℚ) (o1 o2 : Obj) : Option Obj :=
  let poly1 := objectToPolygon cosPi sinPi o1
  let poly2 := objectToPolygon cosPi sinPi o2
  let pts := poly1.filter (fun p => pointInPolygon p poly2) ++
             poly2.filter (fun p => pointInPolygon p poly1) ++
             edgeIntersections poly1 poly2
  if pts.length < 3 then none
  else
    let hull := convexHull pts
    some (polygonToPath hull (jsOr o1.core.fill o2.core.fill) o1.core.stroke)

/-- `BooleanOperations.exclude`: defers to `union`. -/
def BoolOps.exclude (cosPi sinPi : ℚ → ℚ) (o1 o2 : Obj) : Obj :=
  BoolOps.union cosPi sinPi o1 o2

mutual

/-- Structural equality on objects, standing in for JavaScript reference
identity in `Array.prototype.indexOf`: in this value model an object in
a list is found by structural comparison.  (The theorems below never
depend on a document holding two structurally equal objects.) -/
def objBEq : Obj → Obj → Bool
  | .mk c p, .mk c2 p2 => decide (c = c2) && payBEq p p2

def payBEq : Pay → Pay → Bool
  | .rectangle a, .rectangle b => decide (a = b)
  | .ellipse, .ellipse => true
  | .line a b c d, .line a2 b2 c2 d2 => decide (a = a2 ∧ b = b2 ∧ c = c2 ∧ d = d2)
  | .text a b c d e f, .text a2 b2 c2 d2 e2 f2 =>
      decide (a = a2 ∧ b = b2 ∧ c = c2 ∧ d = d2 ∧ e = e2 ∧ f = f2)
  | .frame a b c cs, .frame a2 b2 c2 cs2 =>
      decide (a = a2 ∧ b = b2 ∧ c = c2) && objListBEq cs cs2
  | .path a b c d e f, .path a2 b2 c2 d2 e2 f2 =>
      decide (a = a2 ∧ b = b2 ∧ c = c2 ∧ d = d2 ∧ e = e2 ∧ f = f2)
  | .group cs, .group cs2 => objListBEq cs cs2
  | .image a b c d, .image a2 b2 c2 d2 => decide (a = a2 ∧ b = b2 ∧ c = c2 ∧ d = d2)
  | .component a b c d cs, .component a2 b2 c2 d2 cs2 =>
      decide (a = a2 ∧ b = b2 ∧ c = c2 ∧ d = d2) && objListBEq cs cs2
  | .compInstance a b c d, .compInstance a2 b2 c2 d2 =>
      decide (a = a2 ∧ b = b2 ∧ c = c2 ∧ d = d2)
  | .generic a, .generic b => decide (a = b)
  | _, _ => false

def objListBEq : ObjList → ObjList → Bool
  | .nil, .nil => true
  | .cons a t, .cons b t2 => objBEq a b && objListBEq t t2
  | _, _ => false

end

/-- The fields of the application that the boolean-operation entry point
touches (src/app.ts `FigmaClone`): the document, the selection and the
history manager. -/
structure App where
  objects : List Obj
  selectedObjects : List Obj
  history : HistoryManager

/-- `app.saveState()`: pushes the serialized document and selected ids. -/
def App.saveState (app : App) : App :=
  { app with
      history := app.history.push
        ⟨app.objects.map Obj.serialize, app.selectedObjects.map (fun o => o.core.id)⟩ }

/-- `app.addObject(obj)`: appends to the document. -/
def App.addObject (app : App) (o : Obj) : App :=
  { app with objects := app.objects ++ [o] }

/-- `app.removeObject(obj)`: removes the first occurrence found by
identity (`indexOf` + `splice`); a no-op when the object is absent. -/
def App.removeObject (app : App) (o : Obj) : App :=
  { app with objects := app.objects.eraseP (fun x => objBEq x o) }

/-- `app.selectObjects(objects)`. -/
def App.selectObjects (app : App) (l : List Obj) : App :=
  { app with selectedObjects := l }

/-- `BooleanOperations.performOperation`: requires exactly two selected
objects, both of a valid variant (rectangle/ellipse/path); otherwise
reports failure (`null`) and leaves the application untouched.  On
success it snapshots history, removes the two operands, and adds and
selects the result.  An unknown operation name leaves `result` at `null`
and changes nothing. -/
def performOperation (cosPi sinPi : ℚ → ℚ) (app : App) (operation : String) :
    Option Obj × App :=
  match app.selectedObjects with
  | [o1, o2] =>
      let validTypes := ["rectangle", "ellipse", "path"]
      if o1.typeName ∈ validTypes ∧ o2.typeName ∈ validTypes then
        let result : Option Obj :=
          if operation = "union" then some (BoolOps.union cosPi sinPi o1 o2)
          else if operation = "subtract" then some (BoolOps.subtract cosPi sinPi o1 o2)
          else if operation = "intersect" then BoolOps.intersect cosPi sinPi o1 o2
          else if operation = "exclude" then some (BoolOps.exclude cosPi sinPi o1 o2)
          else none
        match result with
        | some r =>
            (some r,
              ((((app.saveState).removeObject o1).removeObject o2).addObject r).selectObjects [r])
        | none => (none, app)
      else (none, app)
  | _ => (none, app)

end Design

namespace Design

mutual

/-- Erases every live `masterComponent` reference, recursively.  A
serialize/deserialize round trip reproduces every observable
(serialized) attribute; the live master link is exactly the data that
`serialize` does not carry — relinking by `componentId` is the host's
responsibility (§6 of the specification). -/
def Obj.scrub : Obj → Obj
  | .mk c p => .mk c (Pay.scrub p)

/-- Payload part of `Obj.scrub`. -/
def Pay.scrub : Pay → Pay
  | .compInstance cid _ ov cr => .compInstance cid none ov cr
  | .frame cc cr al cs => .frame cc cr al (ObjList.scrub cs)
  | .group cs => .group (ObjList.scrub cs)
  | .component cc cr cid desc cs => .component cc cr cid desc (ObjList.scrub cs)
  | p => p

/-- Child-sequence part of `Obj.scrub`. -/
def ObjList.scrub : ObjList → ObjList
  | .nil => .nil
  | .cons o t => .cons o.scrub (ObjList.scrub t)

end

/-- Well-formedness of a gradient: no field holds a value that the
constructor's `||` defaulting would replace. -/
def wfGradient (g : Gradient) : Prop :=
  g.type ≠ "" ∧ g.centerX ≠ 0 ∧ g.centerY ≠ 0 ∧ g.radiusX ≠ 0 ∧ g.radiusY ≠ 0

/-- Well-formedness of a shadow. -/
def wfShadow (s : Shadow) : Prop :=
  s.type ≠ "" ∧ s.color ≠ "" ∧ s.offsetY ≠ 0 ∧ s.blur ≠ 0

/-- Well-formedness of constraints. -/
def wfConstraints (c : Constraints) : Prop :=
  c.horizontal ≠ "" ∧ c.vertical ≠ ""

/-- Well-formedness of auto-layout settings. -/
def wfAutoLayout (a : AutoLayout) : Prop :=
  a.direction ≠ "" ∧ a.primaryAxisAlign ≠ "" ∧ a.counterAxisAlign ≠ "" ∧
  a.spacing ≠ 0 ∧ a.primaryAxisSizing ≠ "" ∧ a.counterAxisSizing ≠ ""

/-- Well-formedness of the common attributes: strings with non-empty
constructor defaults are non-empty, the stroke is never the empty
string, and the sub-objects are themselves well-formed. -/
def wfCore (c : ObjCore) : Prop :=
  c.id ≠ "" ∧ c.name ≠ "" ∧ c.blendMode ≠ "" ∧ c.stroke ≠ some "" ∧
  (∀ g, c.gradient = some g → wfGradient g) ∧
  (∀ s ∈ c.shadows, wfShadow s) ∧
  (∀ k, c.constraints = some k → wfConstraints k)

/-- The ten known type tags of `DesignObject.deserialize`'s dispatch. -/
def knownTags : List String :=
  ["rectangle", "ellipse", "line", "text", "frame", "path", "group", "image",
   "component", "componentInstance"]

mutual

/-- Well-formedness of a design object: the constructor-default
conditions on its fields, recursively on children, and — for the two
container variants whose `addChild` reprocesses state — the requirement
that the object is in the state its own post-processing produces (a
`Group`'s rectangle is the union of its children's bounds; a `Frame`
with auto-layout enabled is a fixed point of `AutoLayout.apply`). -/
def Obj.wf : Obj → Prop
  | .mk c p => wfCore c ∧ Pay.wfAt c p

/-- Per-variant well-formedness. -/
def Pay.wfAt : ObjCore → Pay → Prop
  | c, .rectangle _ => 0 < c.width ∧ 0 < c.height
  | c, .ellipse => 0 < c.width ∧ 0 < c.height
  | c, .line _ _ _ _ =>
      c.fill = none ∧ c.stroke ≠ none ∧ c.strokeWidth ≠ 0 ∧
      c.x = 0 ∧ c.y = 0 ∧ c.width = 0 ∧ c.height = 0
  | c, .text t ff fs fw lh ta =>
      0 < c.width ∧ 0 < c.height ∧
      t ≠ "" ∧ ff ≠ "" ∧ fs ≠ 0 ∧ fw ≠ "" ∧ lh ≠ 0 ∧ ta ≠ ""
  | c, .frame cc cr al cs =>
      0 < c.width ∧ 0 < c.height ∧ c.fill ≠ none ∧ c.fill ≠ some "" ∧
      ObjList.wfAll cs ∧
      (match al with
       | none => True
       | some a =>
           wfAutoLayout a ∧ ObjList.sizesPos cs ∧
           a.apply (.mk c (.frame cc cr (some a) cs)) = .mk c (.frame cc cr (some a) cs))
  | c, .path pts _ bx bY bw bh =>
      0 < c.width ∧ 0 < c.height ∧
      (bx, bY, bw, bh) = Path.recomputeBounds pts (0, 0, 1, 1)
  | c, .group cs =>
      c.fill = none ∧ 0 < c.width ∧ 0 < c.height ∧ ObjList.wfAll cs ∧
      Group.updateBounds (.mk c (.group cs)) = .mk c (.group cs)
  | c, .image _ idata ft _ =>
      0 < c.width ∧ 0 < c.height ∧ idata ≠ some "" ∧ ft ≠ ""
  | c, .component _ _ cid _ cs =>
      0 < c.width ∧ 0 < c.height ∧ c.fill ≠ none ∧ c.fill ≠ some "" ∧
      cid ≠ "" ∧ ObjList.wfAll cs
  | c, .compInstance _ _ _ _ => 0 < c.width ∧ 0 < c.height
  | c, .generic tag => 0 < c.width ∧ 0 < c.height ∧ tag ∉ knownTags

/-- All children well-formed. -/
def ObjList.wfAll : ObjList → Prop
  | .nil => True
  | .cons o t => o.wf ∧ ObjList.wfAll t

/-- All children have positive extents (as the layout engine reads
them). -/
def ObjList.sizesPos : ObjList → Prop
  | .nil => True
  | .cons o t => 0 < o.getW ∧ 0 < o.getH ∧ ObjList.sizesPos t

end

end Design

namespace Design

/-- The scalar part of serialized data. -/
def Data.core : Data → DataCore
  | .mk c _ => c

/-- The serialized children, when present. -/
def Data.children : Data → Option DataList
  | .mk _ cs => cs

/-- The live master reference of a payload (`null` for variants other
than `ComponentInstance`). -/
def Pay.masterRef : Pay → Option Nat
  | .compInstance _ m _ _ => m
  | _ => none

/-- The `componentId` carried by a payload (`""` elsewhere). -/
def Pay.componentIdOf : Pay → String
  | .compInstance cid _ _ _ => cid
  | .component _ _ cid _ _ => cid
  | _ => ""

/-- A well-formed sample of the common attributes, used by the concrete
instantiations below. -/
def sampleCore : ObjCore where
  id := "id1"
  name := "Rectangle"
  x := 0
  y := 0
  width := 100
  height := 100
  rotation := 0
  fill := some "#5B5BFF"
  fillOpacity := 1
  stroke := none
  strokeWidth := 0
  strokeOpacity := 1
  visible := true
  locked := false
  opacity := 1
  blendMode := "normal"
  gradient := none
  shadows := []
  blur := 0
  constraints := none

/-- The derived-geometry contract of a `Line` at endpoints
`(x1, y1)`/`(x2, y2)` with common attributes `core`, exercised at write
value `v`: the bounds are the axis-aligned box of the endpoints with a
degenerate extent replaced by `1`; writing `x`/`y` translates the
endpoints (leaving every stored attribute untouched) so that the new
`bounds.x`/`bounds.y` is the written value; writing `width`/`height`
rescales the endpoints about the smaller one so that the new extent is
the written value, leaving the other axis and the stored attributes
untouched. -/
def lineDerivedSpec (core : ObjCore) (x1 y1 x2 y2 v : ℚ) : Prop :=
  let o := Obj.mk core (.line x1 y1 x2 y2)
  o.bounds.x = min x1 x2 ∧
  o.bounds.y = min y1 y2 ∧
  o.bounds.width = (if max x1 x2 - min x1 x2 = 0 then 1 else max x1 x2 - min x1 x2) ∧
  o.bounds.height = (if max y1 y2 - min y1 y2 = 0 then 1 else max y1 y2 - min y1 y2) ∧
  ((o.setX v).core = core ∧ (o.setX v).bounds.x = v ∧
    ∃ d, (o.setX v).pay = .line (x1 + d) y1 (x2 + d) y2) ∧
  ((o.setY v).core = core ∧ (o.setY v).bounds.y = v ∧
    ∃ d, (o.setY v).pay = .line x1 (y1 + d) x2 (y2 + d)) ∧
  ((o.setW v).core = core ∧ (o.setW v).getW = v ∧
    ∃ a b, (o.setW v).pay = .line a y1 b y2) ∧
  ((o.setH v).core = core ∧ (o.setH v).getH = v ∧
    ∃ a b, (o.setH v).pay = .line x1 a x2 b)

end Design

namespace Design

def alPrimSum (isH : Bool) : ObjList → ℚ
  | .nil => 0
  | .cons c t => (if isH then c.getW else c.getH) + alPrimSum isH t

def alCrossMax (isH : Bool) : ObjList → ℚ
  | .nil => 0
  | .cons c t => max (if isH then c.getH else c.getW) (alCrossMax isH t)

def allCrossLe (isH : Bool) (M : ℚ) : ObjList → Prop
  | .nil => True
  | .cons c t => (if isH then c.getH else c.getW) ≤ M ∧ allCrossLe isH M t

def alPosAfter (al : AutoLayout) (isH : Bool) : ℚ → ObjList → ℚ
  | p, .nil => p
  | p, .cons c t =>
      alPosAfter al isH
        (if isH then p + (c.setX p).getW + al.spacing else p + (c.setY p).getH + al.spacing) t

def ObjList.appendAll : ObjList → ObjList → ObjList
  | .nil, l => l
  | .cons h t, l => .cons h (ObjList.appendAll t l)

/-- The core/children pair `AutoLayout.apply` produces on a non-empty
frame, with the `let` chain of the source written out. -/
def applyNF (al : AutoLayout) (c : ObjCore) (cs : ObjList) : ObjCore × ObjList :=
  let isH := al.direction = "horizontal"
  let startPos := if isH then c.x + al.paddingLeft else c.y + al.paddingTop
  let sizes := alScanSizes isH 0 0 cs
  let totalSize := sizes.1 + al.spacing * ((cs.length : ℚ) - 1)
  let maxCross := sizes.2
  let placed := alPlace al isH c.x c.y maxCross startPos cs
  let c1 :=
    if al.primaryAxisSizing = "hug" then
      if isH then { c with width := totalSize + al.paddingLeft + al.paddingRight }
      else { c with height := totalSize + al.paddingTop + al.paddingBottom }
    else c
  let c2 :=
    if al.counterAxisSizing = "hug" then
      if isH then { c1 with height := maxCross + al.paddingTop + al.paddingBottom }
      else { c1 with width := maxCross + al.paddingLeft + al.paddingRight }
    else c1
  (c2, placed)

/-- A concrete auto-layout configuration (horizontal, `start` alignment,
`hug` sizing on both axes). -/
def sampleAL : AutoLayout where
  direction := "horizontal"
  primaryAxisAlign := "start"
  counterAxisAlign := "start"
  spacing := 10
  paddingTop := 10
  paddingRight := 10
  paddingBottom := 10
  paddingLeft := 10
  primaryAxisSizing := "hug"
  counterAxisSizing := "hug"

/-- Common attributes of the sample frame's rectangle child, already at
the position auto-layout assigns it. -/
def sampleChildCore : ObjCore :=
  { sampleCore with id := "id2", name := "Child", x := 10, y := 10, width := 30, height := 20 }

/-- A frame with auto-layout enabled, holding one rectangle child, in
its post-`apply` fixed-point state. -/
def sampleFrame : Obj :=
  Obj.mk { sampleCore with id := "id3", name := "Frame", width := 50, height := 40, fill := some "#FFFFFF" }
    (.frame true 0 (some sampleAL) (.cons (Obj.mk sampleChildCore (.rectangle 0)) .nil))

/-- Folds a child-insertion step over a sequence (the shape of the
container constructors' `options.children.forEach(... addChild ...)`
loops, with the step function abstracted). -/
def ObjList.foldAdd (step : Obj → Obj → Obj) : Obj → ObjList → Obj
  | acc, .nil => acc
  | acc, .cons o t => ObjList.foldAdd step (step acc o) t

end Design

namespace Design

theorem push_isApplying (h : HistoryManager) (s : HistoryState) :
    (h.push s).isApplying = h.isApplying := by
  unfold HistoryManager.push
  split <;> rfl

theorem push_maxSize (h : HistoryManager) (s : HistoryState) :
    (h.push s).maxSize = h.maxSize := by
  unfold HistoryManager.push
  split <;> rfl

theorem push_undoStack (h : HistoryManager) (s : HistoryState)
    (hap : h.isApplying = false) (hle : h.undoStack.length ≤ h.maxSize) :
    (h.push s).undoStack =
      (h.undoStack ++ [s]).drop ((h.undoStack ++ [s]).length - h.maxSize) := by
  unfold HistoryManager.push
  rw [hap]
  simp only [Bool.false_eq_true, if_false, deepClone]
  split
  · next hlt =>
      simp only [List.length_append, List.length_cons, List.length_nil] at hlt ⊢
      have : h.undoStack.length + (0 + 1) - h.maxSize = 1 := by omega
      rw [this]
  · next hlt =>
      simp only [List.length_append, List.length_cons, List.length_nil] at hlt ⊢
      have : h.undoStack.length + (0 + 1) - h.maxSize = 0 := by omega
      rw [this, List.drop_zero]

theorem push_undoStack_le (h : HistoryManager) (s : HistoryState)
    (hap : h.isApplying = false) (hle : h.undoStack.length ≤ h.maxSize) :
    (h.push s).undoStack.length ≤ h.maxSize := by
  rw [push_undoStack h s hap hle]
  simp only [List.length_drop, List.length_append, List.length_cons, List.length_nil]
  omega

theorem pushAll_undoStack (m : ℕ) (ss : List HistoryState) :
    ∀ (h : HistoryManager), h.isApplying = false → h.maxSize = m →
      h.undoStack.length ≤ m →
      (h.pushAll ss).undoStack =
        (h.undoStack ++ ss).drop ((h.undoStack ++ ss).length - m) := by
  induction ss with
  | nil =>
      intro h hap hm hle
      simp only [HistoryManager.pushAll, List.foldl_nil, List.append_nil]
      rw [Nat.sub_eq_zero_of_le (hm ▸ hle), List.drop_zero]
  | cons s ss ih =>
      intro h hap hm hle
      have hstep : h.pushAll (s :: ss) = (h.push s).pushAll ss := rfl
      have hap2 : (h.push s).isApplying = false := by rw [push_isApplying, hap]
      have hm2 : (h.push s).maxSize = m := by rw [push_maxSize, hm]
      have hle2 : (h.push s).undoStack.length ≤ m :=
        hm ▸ push_undoStack_le h s hap (hm ▸ hle)
      have hps : (h.push s).undoStack =
          (h.undoStack ++ [s]).drop ((h.undoStack ++ [s]).length - m) :=
        hm ▸ push_undoStack h s hap (hm ▸ hle)
      rw [hstep, ih _ hap2 hm2 hle2, hps]
      have hj : (h.undoStack ++ [s]).length - m ≤ (h.undoStack ++ [s]).length :=
        Nat.sub_le _ _
      rw [← List.drop_append_of_le_length hj, List.drop_drop]
      have hassoc : (h.undoStack ++ [s]) ++ ss = h.undoStack ++ s :: ss := by
        simp
      rw [hassoc]
      congr 1
      simp only [List.length_drop, List.length_append, List.length_cons, List.length_nil]
      omega

/-- CLAIM C3 — History bound: starting from an empty `HistoryManager` of
capacity `maxSize` (applying flag clear) and pushing `maxSize + k`
states, `k ≥ 1`, the undo stack holds exactly `maxSize` entries, namely
the last `maxSize` states pushed (oldest evicted first). -/
theorem C3_history_bound (maxSize k : ℕ) (ss : List HistoryState)
    (hk : 1 ≤ k) (hlen : ss.length = maxSize + k) :
    ((HistoryManager.new maxSize).pushAll ss).undoStack = ss.drop k ∧
    ((HistoryManager.new maxSize).pushAll ss).undoStack.length = maxSize := by
  have h0 : (HistoryManager.new maxSize).undoStack = [] := rfl
  have h := pushAll_undoStack maxSize ss (HistoryManager.new maxSize) rfl rfl
    (by rw [h0]; simp)
  rw [h0] at h
  simp only [List.nil_append] at h
  rw [hlen] at h
  have hk2 : maxSize + k - maxSize = k := by omega
  rw [hk2] at h
  refine ⟨h, ?_⟩
  rw [h]
  simp only [List.length_drop, hlen]
  omega

/-- Witness for C3 at `maxSize = 1`, `k = 1` and two concrete snapshots. -/
theorem C3_history_bound_witness :
    (1 ≤ 1 ∧ ([⟨[], ["a"]⟩, ⟨[], ["b"]⟩] : List HistoryState).length = 1 + 1) ∧
    (((HistoryManager.new 1).pushAll [⟨[], ["a"]⟩, ⟨[], ["b"]⟩]).undoStack =
        ([⟨[], ["a"]⟩, ⟨[], ["b"]⟩] : List HistoryState).drop 1 ∧
      ((HistoryManager.new 1).pushAll [⟨[], ["a"]⟩, ⟨[], ["b"]⟩]).undoStack.length = 1) :=
  ⟨⟨le_refl 1, rfl⟩, C3_history_bound 1 1 [⟨[], ["a"]⟩, ⟨[], ["b"]⟩] (le_refl 1) rfl⟩

/-- CLAIM C2 — Undo then redo restores the pre-undo state: with a
non-empty undo stack, `undo(s)` immediately followed by `redo()` returns
(not absent) exactly the snapshot `s` passed to `undo` — deep clones of
plain data, so byte-for-byte the same serialized state. -/
theorem C2_undo_redo (h : HistoryManager) (s : HistoryState)
    (hne : h.undoStack ≠ []) :
    ((h.undo s).2.redo).1 = some s := by
  unfold HistoryManager.undo
  cases hget : h.undoStack.getLast? with
  | none => exact absurd (List.getLast?_eq_none_iff.mp hget) hne
  | some t =>
      unfold HistoryManager.redo
      simp only [deepClone, List.getLast?_concat]

/-- Witness for C2 on a one-entry undo stack. -/
theorem C2_undo_redo_witness :
    ((HistoryManager.mk 100 [⟨[], ["old"]⟩] [] false).undoStack ≠ []) ∧
    (((HistoryManager.mk 100 [⟨[], ["old"]⟩] [] false).undo ⟨[], ["cur"]⟩).2.redo).1 =
      some ⟨[], ["cur"]⟩ :=
  ⟨by simp, C2_undo_redo (HistoryManager.mk 100 [⟨[], ["old"]⟩] [] false) ⟨[], ["cur"]⟩ (by simp)⟩

/-- CLAIM C4 — Re-entrancy guard: while `isApplying` is set, `push` is a
complete no-op; the manager (both stacks and every other field) is
unchanged. -/
theorem C4_push_noop_while_applying (h : HistoryManager) (s : HistoryState)
    (hap : h.isApplying = true) :
    h.push s = h := by
  unfold HistoryManager.push
  rw [hap]
  simp

/-- Witness for C4. -/
theorem C4_push_noop_while_applying_witness :
    (HistoryManager.mk 100 [] [] true).isApplying = true ∧
    (HistoryManager.mk 100 [] [] true).push ⟨[], []⟩ = HistoryManager.mk 100 [] [] true :=
  ⟨rfl, C4_push_noop_while_applying (HistoryManager.mk 100 [] [] true) ⟨[], []⟩ rfl⟩

end Design

namespace Design

/-- CLAIM C10 — Convex hull correctness: the Graham-scan hull of a unit
square's four corners plus its center returns exactly the four corners;
the strictly interior center is excluded. -/
theorem C10_convex_hull_square :
    convexHull [⟨0, 0⟩, ⟨1, 0⟩, ⟨1, 1⟩, ⟨0, 1⟩, ⟨1/2, 1/2⟩] =
      [⟨0, 0⟩, ⟨1, 0⟩, ⟨1, 1⟩, ⟨0, 1⟩] := by
  with_unfolding_all rfl

end Design

namespace Design

/-- CLAIM C9 — Boolean-operation precondition: unless exactly two objects
are selected, both of variant rectangle/ellipse/path, every boolean
operation returns an absent result and leaves the application untouched —
no object removed or added, no history entry recorded. -/
theorem C9_boolean_invalid_selection (cosPi sinPi : ℚ → ℚ) (app : App) (operation : String)
    (hbad : ¬ (app.selectedObjects.length = 2 ∧
      ∀ o ∈ app.selectedObjects, o.typeName ∈ ["rectangle", "ellipse", "path"])) :
    performOperation cosPi sinPi app operation = (none, app) := by
  unfold performOperation
  cases hsel : app.selectedObjects with
  | nil => rfl
  | cons o1 t =>
      cases t with
      | nil => rfl
      | cons o2 t2 =>
          cases t2 with
          | cons o3 t3 => rfl
          | nil =>
              rw [hsel] at hbad
              have hng : ¬ (o1.typeName ∈ (["rectangle", "ellipse", "path"] : List String) ∧
                  o2.typeName ∈ (["rectangle", "ellipse", "path"] : List String)) := by
                intro ⟨a, b⟩
                refine hbad ⟨by simp, ?_⟩
                intro o ho
                simp only [List.mem_cons, List.not_mem_nil, or_false] at ho
                rcases ho with rfl | rfl
                · exact a
                · exact b
              dsimp only
              rw [if_neg hng]

/-- Witness for C9: a single selected rectangle, `union` requested. -/
theorem C9_boolean_invalid_selection_witness :
    (¬ ((App.mk [] [Obj.mk sampleCore (.rectangle 0)] (HistoryManager.new 100)).selectedObjects.length = 2 ∧
      ∀ o ∈ (App.mk [] [Obj.mk sampleCore (.rectangle 0)] (HistoryManager.new 100)).selectedObjects,
        o.typeName ∈ ["rectangle", "ellipse", "path"])) ∧
    performOperation (fun _ => 0) (fun _ => 0)
        (App.mk [] [Obj.mk sampleCore (.rectangle 0)] (HistoryManager.new 100)) "union" =
      (none, App.mk [] [Obj.mk sampleCore (.rectangle 0)] (HistoryManager.new 100)) :=
  ⟨by simp, C9_boolean_invalid_selection (fun _ => 0) (fun _ => 0)
    (App.mk [] [Obj.mk sampleCore (.rectangle 0)] (HistoryManager.new 100)) "union" (by simp)⟩

/-- CLAIM C8 — AutoLayout hug: a horizontal frame with hug primary
sizing, spacing 10, zero padding and three children of widths 20, 30 and
40 gets width `20 + 30 + 40 + 10·2 = 110` (content plus padding) from
`AutoLayout.apply`, whatever the alignment settings and counter sizing. -/
theorem C8_autolayout_hug (core : ObjCore) (cc : Bool) (cr : ℚ) (al : AutoLayout)
    (c1 c2 c3 : Obj)
    (hdir : al.direction = "horizontal") (hsp : al.spacing = 10)
    (hpl : al.paddingLeft = 0) (hpr : al.paddingRight = 0)
    (hhug : al.primaryAxisSizing = "hug")
    (h1 : c1.getW = 20) (h2 : c2.getW = 30) (h3 : c3.getW = 40) :
    ((al.apply (Obj.mk core
        (.frame cc cr (some al) (.cons c1 (.cons c2 (.cons c3 .nil)))))).getW) = 110 := by
  unfold AutoLayout.apply
  simp only [hdir, hsp, hpl, hpr, hhug, alScanSizes, ObjList.length, h1, h2, h3,
    eq_self_iff_true, if_true, decide_True]
  split <;> (simp only [Obj.getW, Obj.pay, Obj.core]; push_cast; norm_num)

/-- Witness for C8: a concrete frame with three rectangles of widths
20, 30 and 40 under the layout of the claim. -/
theorem C8_autolayout_hug_witness :
    ((AutoLayout.mk "horizontal" "start" "start" 10 0 0 0 0 "hug" "hug").direction = "horizontal" ∧
      (AutoLayout.mk "horizontal" "start" "start" 10 0 0 0 0 "hug" "hug").spacing = 10 ∧
      (AutoLayout.mk "horizontal" "start" "start" 10 0 0 0 0 "hug" "hug").paddingLeft = 0 ∧
      (AutoLayout.mk "horizontal" "start" "start" 10 0 0 0 0 "hug" "hug").paddingRight = 0 ∧
      (AutoLayout.mk "horizontal" "start" "start" 10 0 0 0 0 "hug" "hug").primaryAxisSizing = "hug" ∧
      (Obj.mk { sampleCore with width := 20 } (.rectangle 0)).getW = 20 ∧
      (Obj.mk { sampleCore with width := 30 } (.rectangle 0)).getW = 30 ∧
      (Obj.mk { sampleCore with width := 40 } (.rectangle 0)).getW = 40) ∧
    (((AutoLayout.mk "horizontal" "start" "start" 10 0 0 0 0 "hug" "hug").apply
      (Obj.mk sampleCore (.frame true 0 (some (AutoLayout.mk "horizontal" "start" "start" 10 0 0 0 0 "hug" "hug"))
        (.cons (Obj.mk { sampleCore with width := 20 } (.rectangle 0))
          (.cons (Obj.mk { sampleCore with width := 30 } (.rectangle 0))
            (.cons (Obj.mk { sampleCore with width := 40 } (.rectangle 0)) .nil)))))).getW) = 110 :=
  ⟨⟨rfl, rfl, rfl, rfl, rfl, rfl, rfl, rfl⟩,
    C8_autolayout_hug sampleCore true 0 (AutoLayout.mk "horizontal" "start" "start" 10 0 0 0 0 "hug" "hug")
      (Obj.mk { sampleCore with width := 20 } (.rectangle 0))
      (Obj.mk { sampleCore with width := 30 } (.rectangle 0))
      (Obj.mk { sampleCore with width := 40 } (.rectangle 0))
      rfl rfl rfl rfl rfl rfl rfl rfl⟩

end Design

namespace Design

/-- CLAIM C7 counterexample — the claim, as stated, fails on a
degenerate (vertical) line: the bounds of a `Line` with `x1 = x2 = 5`
have width `1` (the `|| 1` guard), not `|x2 - x1| = 0`. -/
theorem C7_line_derived_cex :
    (Obj.mk sampleCore (.line 5 0 5 3)).bounds.width ≠ |(5:ℚ) - 5| := by
  with_unfolding_all decide

/-- CLAIM C7 (amended) — Line geometry is derived from the endpoints:
the bounds are the axis-aligned box of the two endpoints except that a
degenerate extent is replaced by `1`; writing `x`/`y` translates the
endpoints (leaving all stored attributes untouched) so the bounds land
at the written value, and writing a positive `width`/`height` to a line
that is not degenerate on that axis rescales the endpoints about the
smaller one so the new extent equals the written value — nothing is
stored independently. -/
theorem C7_line_derived (core : ObjCore) (x1 y1 x2 y2 v : ℚ)
    (hv : 0 < v) (hx : x1 ≠ x2) (hy : y1 ≠ y2) :
    lineDerivedSpec core x1 y1 x2 y2 v := by
  have hΔx : max x1 x2 - min x1 x2 ≠ 0 := by
    rcases le_total x1 x2 with h | h
    · simp [max_eq_right h, min_eq_left h, sub_eq_zero]; exact fun hh => hx hh.symm
    · simp [max_eq_left h, min_eq_right h, sub_eq_zero]; exact hx
  have hΔy : max y1 y2 - min y1 y2 ≠ 0 := by
    rcases le_total y1 y2 with h | h
    · simp [max_eq_right h, min_eq_left h, sub_eq_zero]; exact fun hh => hy hh.symm
    · simp [max_eq_left h, min_eq_right h, sub_eq_zero]; exact hy
  have hwx : (lineBounds x1 y1 x2 y2).width = max x1 x2 - min x1 x2 := by
    show (if max x1 x2 - min x1 x2 = 0 then (1:ℚ) else max x1 x2 - min x1 x2) = _
    rw [if_neg hΔx]
  have hwy : (lineBounds x1 y1 x2 y2).height = max y1 y2 - min y1 y2 := by
    show (if max y1 y2 - min y1 y2 = 0 then (1:ℚ) else max y1 y2 - min y1 y2) = _
    rw [if_neg hΔy]
  refine ⟨rfl, rfl, rfl, rfl, ?_, ?_, ?_, ?_⟩
  · refine ⟨rfl, ?_, ⟨v - min x1 x2, rfl⟩⟩
    show min (x1 + (v - (lineBounds x1 y1 x2 y2).x)) (x2 + (v - (lineBounds x1 y1 x2 y2).x)) = v
    show min (x1 + (v - min x1 x2)) (x2 + (v - min x1 x2)) = v
    rw [min_add_add_right]
    ring
  · refine ⟨rfl, ?_, ⟨v - min y1 y2, rfl⟩⟩
    show min (y1 + (v - (lineBounds x1 y1 x2 y2).y)) (y2 + (v - (lineBounds x1 y1 x2 y2).y)) = v
    show min (y1 + (v - min y1 y2)) (y2 + (v - min y1 y2)) = v
    rw [min_add_add_right]
    ring
  · -- setW
    have hne : (lineBounds x1 y1 x2 y2).width ≠ 0 := by rw [hwx]; exact hΔx
    have hsetW : (Obj.mk core (.line x1 y1 x2 y2)).setW v =
        Obj.mk core (.line
          (min x1 x2 + (x1 - min x1 x2) * (v / (lineBounds x1 y1 x2 y2).width)) y1
          (min x1 x2 + (x2 - min x1 x2) * (v / (lineBounds x1 y1 x2 y2).width)) y2) := by
      simp only [Obj.setW]
      rw [if_neg hne]
    rw [hsetW]
    refine ⟨rfl, ?_, ⟨_, _, rfl⟩⟩
    rw [hwx]
    set r := v / (max x1 x2 - min x1 x2) with hr
    have hΔpos : 0 < max x1 x2 - min x1 x2 :=
      lt_of_le_of_ne (sub_nonneg.mpr (min_le_max)) (Ne.symm hΔx)
    have hrpos : 0 < r := div_pos hv hΔpos
    show (lineBounds (min x1 x2 + (x1 - min x1 x2) * r) y1
        (min x1 x2 + (x2 - min x1 x2) * r) y2).width = v
    rcases le_total x1 x2 with h | h
    · rw [min_eq_left h] at *
      have h1p : x1 + (x1 - x1) * r = x1 := by ring
      have hle2 : x1 + (x1 - x1) * r ≤ x1 + (x2 - x1) * r := by
        rw [h1p]
        nlinarith [sub_nonneg.mpr h]
      show (if max (x1 + (x1 - x1) * r) (x1 + (x2 - x1) * r) -
          min (x1 + (x1 - x1) * r) (x1 + (x2 - x1) * r) = 0 then (1:ℚ)
        else max (x1 + (x1 - x1) * r) (x1 + (x2 - x1) * r) -
          min (x1 + (x1 - x1) * r) (x1 + (x2 - x1) * r)) = v
      rw [max_eq_right hle2, min_eq_left hle2, h1p]
      have hval : x1 + (x2 - x1) * r - x1 = v := by
        have hne2 : x2 - x1 ≠ 0 := sub_ne_zero.mpr (Ne.symm hx)
        rw [hr, max_eq_right h]
        field_simp
      rw [hval, if_neg (ne_of_gt hv)]
    · rw [min_eq_right h] at *
      have h2p : x2 + (x2 - x2) * r = x2 := by ring
      have hle2 : x2 + (x2 - x2) * r ≤ x2 + (x1 - x2) * r := by
        rw [h2p]
        nlinarith [sub_nonneg.mpr h]
      show (if max (x2 + (x1 - x2) * r) (x2 + (x2 - x2) * r) -
          min (x2 + (x1 - x2) * r) (x2 + (x2 - x2) * r) = 0 then (1:ℚ)
        else max (x2 + (x1 - x2) * r) (x2 + (x2 - x2) * r) -
          min (x2 + (x1 - x2) * r) (x2 + (x2 - x2) * r)) = v
      rw [max_eq_left hle2, min_eq_right hle2, h2p]
      have hval : x2 + (x1 - x2) * r - x2 = v := by
        have hne2 : x1 - x2 ≠ 0 := sub_ne_zero.mpr hx
        rw [hr, max_eq_left h]
        field_simp
      rw [hval, if_neg (ne_of_gt hv)]
  · -- setH
    have hne : (lineBounds x1 y1 x2 y2).height ≠ 0 := by rw [hwy]; exact hΔy
    have hsetH : (Obj.mk core (.line x1 y1 x2 y2)).setH v =
        Obj.mk core (.line x1
          (min y1 y2 + (y1 - min y1 y2) * (v / (lineBounds x1 y1 x2 y2).height)) x2
          (min y1 y2 + (y2 - min y1 y2) * (v / (lineBounds x1 y1 x2 y2).height))) := by
      simp only [Obj.setH]
      rw [if_neg hne]
    rw [hsetH]
    refine ⟨rfl, ?_, ⟨_, _, rfl⟩⟩
    rw [hwy]
    set r := v / (max y1 y2 - min y1 y2) with hr
    have hΔpos : 0 < max y1 y2 - min y1 y2 :=
      lt_of_le_of_ne (sub_nonneg.mpr (min_le_max)) (Ne.symm hΔy)
    have hrpos : 0 < r := div_pos hv hΔpos
    show (lineBounds x1 (min y1 y2 + (y1 - min y1 y2) * r)
        x2 (min y1 y2 + (y2 - min y1 y2) * r)).height = v
    rcases le_total y1 y2 with h | h
    · rw [min_eq_left h] at *
      have h1p : y1 + (y1 - y1) * r = y1 := by ring
      have hle2 : y1 + (y1 - y1) * r ≤ y1 + (y2 - y1) * r := by
        rw [h1p]
        nlinarith [sub_nonneg.mpr h]
      show (if max (y1 + (y1 - y1) * r) (y1 + (y2 - y1) * r) -
          min (y1 + (y1 - y1) * r) (y1 + (y2 - y1) * r) = 0 then (1:ℚ)
        else max (y1 + (y1 - y1) * r) (y1 + (y2 - y1) * r) -
          min (y1 + (y1 - y1) * r) (y1 + (y2 - y1) * r)) = v
      rw [max_eq_right hle2, min_eq_left hle2, h1p]
      have hval : y1 + (y2 - y1) * r - y1 = v := by
        have hne2 : y2 - y1 ≠ 0 := sub_ne_zero.mpr (Ne.symm hy)
        rw [hr, max_eq_right h]
        field_simp
      rw [hval, if_neg (ne_of_gt hv)]
    · rw [min_eq_right h] at *
      have h2p : y2 + (y2 - y2) * r = y2 := by ring
      have hle2 : y2 + (y2 - y2) * r ≤ y2 + (y1 - y2) * r := by
        rw [h2p]
        nlinarith [sub_nonneg.mpr h]
      show (if max (y2 + (y1 - y2) * r) (y2 + (y2 - y2) * r) -
          min (y2 + (y1 - y2) * r) (y2 + (y2 - y2) * r) = 0 then (1:ℚ)
        else max (y2 + (y1 - y2) * r) (y2 + (y2 - y2) * r) -
          min (y2 + (y1 - y2) * r) (y2 + (y2 - y2) * r)) = v
      rw [max_eq_left hle2, min_eq_right hle2, h2p]
      have hval : y2 + (y1 - y2) * r - y2 = v := by
        have hne2 : y1 - y2 ≠ 0 := sub_ne_zero.mpr hy
        rw [hr, max_eq_left h]
        field_simp
      rw [hval, if_neg (ne_of_gt hv)]


/-- Witness for C7 at endpoints `(1,2)`–`(4,6)` and write value `3`. -/
theorem C7_line_derived_witness :
    (0 < (3:ℚ) ∧ (1:ℚ) ≠ 4 ∧ (2:ℚ) ≠ 6) ∧ lineDerivedSpec sampleCore 1 2 4 6 3 :=
  ⟨⟨by norm_num, by norm_num, by norm_num⟩,
    C7_line_derived sampleCore 1 2 4 6 3 (by norm_num) (by norm_num) (by norm_num)⟩

end Design

namespace Design

theorem apply_rotation (a : AutoLayout) (f : Obj) :
    (a.apply f).core.rotation = f.core.rotation := by
  cases f with
  | mk c p =>
      cases p
      case frame cc cr al cs =>
        cases cs with
        | nil => rfl
        | cons h t =>
            unfold AutoLayout.apply
            dsimp only [Obj.core]
            split_ifs <;> rfl
      all_goals rfl

theorem frameAddChild_rotation (f c : Obj) :
    (Frame.addChild f c).core.rotation = f.core.rotation := by
  cases f with
  | mk fc p =>
      cases p
      case frame cc cr al cs =>
        unfold Frame.addChild
        cases al with
        | none => rfl
        | some a =>
            rw [apply_rotation]
            rfl
      all_goals rfl

theorem frameChildrenList_rotation : (ds : DataList) → ∀ f : Obj,
    (Obj.frameChildrenList f ds).core.rotation = f.core.rotation
  | .nil, f => rfl
  | .cons d ds, f => by
      show (Obj.frameChildrenList (Frame.addChild f (Obj.deserialize d)) ds).core.rotation = _
      rw [frameChildrenList_rotation ds, frameAddChild_rotation]

theorem frameChildren_rotation (f : Obj) (ds : Option DataList) :
    (Obj.frameChildren f ds).core.rotation = f.core.rotation := by
  cases ds with
  | none => rfl
  | some l => exact frameChildrenList_rotation l f

theorem groupUpdateBounds_rotation (g : Obj) :
    (Group.updateBounds g).core.rotation = g.core.rotation := by
  cases g with
  | mk c p =>
      cases p
      case group cs =>
        cases cs with
        | nil => rfl
        | cons h t => rfl
      all_goals rfl

theorem groupAddChild_rotation (g c : Obj) :
    (Group.addChild g c).core.rotation = g.core.rotation := by
  cases g with
  | mk gc p =>
      cases p
      case group cs =>
        rw [Group.addChild, groupUpdateBounds_rotation]
        rfl
      all_goals rfl

theorem groupChildrenList_rotation : (ds : DataList) → ∀ g : Obj,
    (Obj.groupChildrenList g ds).core.rotation = g.core.rotation
  | .nil, g => rfl
  | .cons d ds, g => by
      show (Obj.groupChildrenList (Group.addChild g (Obj.deserialize d)) ds).core.rotation = _
      rw [groupChildrenList_rotation ds, groupAddChild_rotation]

theorem groupChildren_rotation (g : Obj) (ds : Option DataList) :
    (Obj.groupChildren g ds).core.rotation = g.core.rotation := by
  cases ds with
  | none => rfl
  | some l => exact groupChildrenList_rotation l g

theorem componentAddChild_rotation (k c : Obj) :
    (Component.addChild k c).core.rotation = k.core.rotation := by
  cases k with
  | mk kc p =>
      cases p
      case component cc cr cid desc cs => rfl
      all_goals rfl

theorem componentChildrenList_rotation : (ds : DataList) → ∀ k : Obj,
    (Obj.componentChildrenList k ds).core.rotation = k.core.rotation
  | .nil, k => rfl
  | .cons d ds, k => by
      show (Obj.componentChildrenList (Component.addChild k (Obj.deserialize d)) ds).core.rotation = _
      rw [componentChildrenList_rotation ds, componentAddChild_rotation]

theorem componentChildren_rotation (k : Obj) (ds : Option DataList) :
    (Obj.componentChildren k ds).core.rotation = k.core.rotation := by
  cases ds with
  | none => rfl
  | some l => exact componentChildrenList_rotation l k

end Design

namespace Design

/-- Unfolds `DesignObject.deserialize` on the `"rectangle"` tag. -/
theorem deserialize_rectangle (dc : DataCore) (ch : Option DataList)
    (h : dc.dtype = "rectangle") :
    Obj.deserialize (.mk dc ch) =
      Obj.mk (baseCore "rectangle" dc) (.rectangle (numD dc.cornerRadius 0)) := by
  unfold Obj.deserialize
  rw [if_pos h]

/-- Unfolds `DesignObject.deserialize` on the `"ellipse"` tag. -/
theorem deserialize_ellipse (dc : DataCore) (ch : Option DataList)
    (h : dc.dtype = "ellipse") :
    Obj.deserialize (.mk dc ch) =
      Obj.mk (baseCore "ellipse" dc) .ellipse := by
  unfold Obj.deserialize
  rw [if_neg (h ▸ by decide)]
  rw [if_pos h]

/-- Unfolds `DesignObject.deserialize` on the `"line"` tag. -/
theorem deserialize_line (dc : DataCore) (ch : Option DataList)
    (h : dc.dtype = "line") :
    Obj.deserialize (.mk dc ch) =
      Obj.mk { baseCore "line" dc with
        x := 0, y := 0, width := 0, height := 0,
        fill := none,
        stroke := some (strokeOrBlack dc.stroke),
        strokeWidth := numD dc.strokeWidth 2 }
      (.line (dc.x1.getD (dc.x.getD 0))
             (dc.y1.getD (dc.y.getD 0))
             (dc.x2.getD ((dc.x.getD 0) + (dc.width.getD 100)))
             (dc.y2.getD ((dc.y.getD 0) + (dc.height.getD 100)))) := by
  unfold Obj.deserialize
  rw [if_neg (h ▸ by decide)]
  rw [if_neg (h ▸ by decide)]
  rw [if_pos h]

/-- Unfolds `DesignObject.deserialize` on the `"text"` tag. -/
theorem deserialize_text (dc : DataCore) (ch : Option DataList)
    (h : dc.dtype = "text") :
    Obj.deserialize (.mk dc ch) =
      Obj.mk { baseCore "text" dc with
        width := numD dc.width 100, height := numD dc.height 24 }
      (.text (strD dc.text "Text") (strD dc.fontFamily "Inter")
             (numD dc.fontSize 16) (strD dc.fontWeight "400")
             (numD dc.lineHeight (3/2)) (strD dc.textAlign "left")) := by
  unfold Obj.deserialize
  rw [if_neg (h ▸ by decide)]
  rw [if_neg (h ▸ by decide)]
  rw [if_neg (h ▸ by decide)]
  rw [if_pos h]

/-- Unfolds `DesignObject.deserialize` on the `"frame"` tag. -/
theorem deserialize_frame (dc : DataCore) (ch : Option DataList)
    (h : dc.dtype = "frame") :
    Obj.deserialize (.mk dc ch) =
      Obj.frameChildren
      (Obj.mk { baseCore "frame" dc with fill := some (fillOrWhite dc.fill) }
        (.frame (undefD dc.clipContent true) (numD dc.cornerRadius 0)
          ((truthyObj dc.autoLayout).map AutoLayout.ofOptions) .nil)) ch := by
  unfold Obj.deserialize
  rw [if_neg (h ▸ by decide)]
  rw [if_neg (h ▸ by decide)]
  rw [if_neg (h ▸ by decide)]
  rw [if_neg (h ▸ by decide)]
  rw [if_pos h]

/-- Unfolds `DesignObject.deserialize` on the `"path"` tag. -/
theorem deserialize_path (dc : DataCore) (ch : Option DataList)
    (h : dc.dtype = "path") :
    Obj.deserialize (.mk dc ch) =
      Obj.mk (baseCore "path" dc)
      (.path (listD dc.points []) (boolD dc.closed false)
        (Path.recomputeBounds (listD dc.points []) (0, 0, 1, 1)).1
        (Path.recomputeBounds (listD dc.points []) (0, 0, 1, 1)).2.1
        (Path.recomputeBounds (listD dc.points []) (0, 0, 1, 1)).2.2.1
        (Path.recomputeBounds (listD dc.points []) (0, 0, 1, 1)).2.2.2) := by
  unfold Obj.deserialize
  rw [if_neg (h ▸ by decide)]
  rw [if_neg (h ▸ by decide)]
  rw [if_neg (h ▸ by decide)]
  rw [if_neg (h ▸ by decide)]
  rw [if_neg (h ▸ by decide)]
  rw [if_pos h]

/-- Unfolds `DesignObject.deserialize` on the `"group"` tag. -/
theorem deserialize_group (dc : DataCore) (ch : Option DataList)
    (h : dc.dtype = "group") :
    Obj.deserialize (.mk dc ch) =
      Obj.groupChildren
      (Obj.mk { baseCore "group" dc with fill := none } (.group .nil)) ch := by
  unfold Obj.deserialize
  rw [if_neg (h ▸ by decide)]
  rw [if_neg (h ▸ by decide)]
  rw [if_neg (h ▸ by decide)]
  rw [if_neg (h ▸ by decide)]
  rw [if_neg (h ▸ by decide)]
  rw [if_neg (h ▸ by decide)]
  rw [if_pos h]

/-- Unfolds `DesignObject.deserialize` on the `"image"` tag. -/
theorem deserialize_image (dc : DataCore) (ch : Option DataList)
    (h : dc.dtype = "image") :
    Obj.deserialize (.mk dc ch) =
      Obj.mk (baseCore "image" dc)
      (.image (strD dc.src "") (strOrNull dc.imageData) (strD dc.fit "cover")
        (numD dc.cornerRadius 0)) := by
  unfold Obj.deserialize
  rw [if_neg (h ▸ by decide)]
  rw [if_neg (h ▸ by decide)]
  rw [if_neg (h ▸ by decide)]
  rw [if_neg (h ▸ by decide)]
  rw [if_neg (h ▸ by decide)]
  rw [if_neg (h ▸ by decide)]
  rw [if_neg (h ▸ by decide)]
  rw [if_pos h]

/-- Unfolds `DesignObject.deserialize` on the `"component"` tag. -/
theorem deserialize_component (dc : DataCore) (ch : Option DataList)
    (h : dc.dtype = "component") :
    Obj.deserialize (.mk dc ch) =
      Obj.componentChildren
      (Obj.mk { baseCore "component" dc with fill := some (fillOrWhite dc.fill) }
        (.component (undefD dc.clipContent true) (numD dc.cornerRadius 0)
          (strD dc.componentId "obj_fresh") (strD dc.description "") .nil)) ch := by
  unfold Obj.deserialize
  rw [if_neg (h ▸ by decide)]
  rw [if_neg (h ▸ by decide)]
  rw [if_neg (h ▸ by decide)]
  rw [if_neg (h ▸ by decide)]
  rw [if_neg (h ▸ by decide)]
  rw [if_neg (h ▸ by decide)]
  rw [if_neg (h ▸ by decide)]
  rw [if_neg (h ▸ by decide)]
  rw [if_pos h]

/-- Unfolds `DesignObject.deserialize` on the `"componentInstance"` tag. -/
theorem deserialize_compInstance (dc : DataCore) (ch : Option DataList)
    (h : dc.dtype = "componentInstance") :
    Obj.deserialize (.mk dc ch) =
      Obj.mk (baseCore "componentInstance" dc)
      (.compInstance (strD dc.componentId "") dc.masterComponent
        (dc.overrides.getD []) (numD dc.cornerRadius 0)) := by
  unfold Obj.deserialize
  rw [if_neg (h ▸ by decide)]
  rw [if_neg (h ▸ by decide)]
  rw [if_neg (h ▸ by decide)]
  rw [if_neg (h ▸ by decide)]
  rw [if_neg (h ▸ by decide)]
  rw [if_neg (h ▸ by decide)]
  rw [if_neg (h ▸ by decide)]
  rw [if_neg (h ▸ by decide)]
  rw [if_neg (h ▸ by decide)]
  rw [if_pos h]

/-- Unfolds `DesignObject.deserialize` on an unknown tag (the base-class
fallback). -/
theorem deserialize_generic (dc : DataCore) (ch : Option DataList)
    (h : dc.dtype ∉ knownTags) :
    Obj.deserialize (.mk dc ch) =
      Obj.mk (baseCore dc.dtype dc) (.generic dc.dtype) := by
  unfold Obj.deserialize
  rw [if_neg (fun heq => h (by rw [heq]; decide))]
  rw [if_neg (fun heq => h (by rw [heq]; decide))]
  rw [if_neg (fun heq => h (by rw [heq]; decide))]
  rw [if_neg (fun heq => h (by rw [heq]; decide))]
  rw [if_neg (fun heq => h (by rw [heq]; decide))]
  rw [if_neg (fun heq => h (by rw [heq]; decide))]
  rw [if_neg (fun heq => h (by rw [heq]; decide))]
  rw [if_neg (fun heq => h (by rw [heq]; decide))]
  rw [if_neg (fun heq => h (by rw [heq]; decide))]
  rw [if_neg (fun heq => h (by rw [heq]; decide))]

/-- CLAIM C5 (amended) — rotation is stored exactly as assigned, with no
normalization: for every serialized datum, whatever the variant, the
constructed object's rotation is `options.rotation || 0` — the given
value itself (or `0` when absent or zero), NOT reduced mod 360 and not
clamped into `[0, 360)`. -/
theorem C5_rotation_stored_raw (d : Data) :
    (Obj.deserialize d).core.rotation = numD d.core.rotation 0 := by
  cases d with
  | mk dc ch =>
      show (Obj.deserialize (.mk dc ch)).core.rotation = numD dc.rotation 0
      by_cases h1 : dc.dtype = "rectangle"
      · rw [deserialize_rectangle dc ch h1]; rfl
      by_cases h2 : dc.dtype = "ellipse"
      · rw [deserialize_ellipse dc ch h2]; rfl
      by_cases h3 : dc.dtype = "line"
      · rw [deserialize_line dc ch h3]; rfl
      by_cases h4 : dc.dtype = "text"
      · rw [deserialize_text dc ch h4]; rfl
      by_cases h5 : dc.dtype = "frame"
      · rw [deserialize_frame dc ch h5, frameChildren_rotation]; rfl
      by_cases h6 : dc.dtype = "path"
      · rw [deserialize_path dc ch h6]; rfl
      by_cases h7 : dc.dtype = "group"
      · rw [deserialize_group dc ch h7, groupChildren_rotation]; rfl
      by_cases h8 : dc.dtype = "image"
      · rw [deserialize_image dc ch h8]; rfl
      by_cases h9 : dc.dtype = "component"
      · rw [deserialize_component dc ch h9, componentChildren_rotation]; rfl
      by_cases h10 : dc.dtype = "componentInstance"
      · rw [deserialize_compInstance dc ch h10]; rfl
      · rw [deserialize_generic dc ch (by
          intro hm
          simp only [knownTags, List.mem_cons, List.not_mem_nil, or_false] at hm
          rcases hm with h | h | h | h | h | h | h | h | h | h <;> tauto)]
        rfl

/-- CLAIM C5 counterexample — constructing a rectangle with rotation 400
stores 400 itself: the stored value is not reduced mod 360 (which would
be 40) and lies outside `[0, 360)`. -/
theorem C5_rotation_cex :
    (Obj.deserialize (.mk { dtype := "rectangle", rotation := some 400 } none)).core.rotation = 400 ∧
    ¬ ((Obj.deserialize (.mk { dtype := "rectangle", rotation := some 400 } none)).core.rotation < 360) := by
  constructor
  · with_unfolding_all rfl
  · with_unfolding_all decide

end Design

namespace Design

theorem numD_some_zero (v : ℚ) : numD (some v) 0 = v := by
  unfold numD
  split <;> simp_all

theorem numD_some_of_ne (v d : ℚ) (h : v ≠ 0) : numD (some v) d = v := by
  simp only [numD]
  rw [if_neg h]

theorem strD_some_empty (v : String) : strD (some v) "" = v := by
  unfold strD
  split <;> simp_all

theorem strD_some_of_ne (v d : String) (h : v ≠ "") : strD (some v) d = v := by
  simp only [strD]
  rw [if_neg h]

theorem boolD_some_false (v : Bool) : boolD (some v) false = v := by
  unfold boolD
  exact Bool.or_false v

theorem strOrNull_some_of_ne (s : Option String) (h : s ≠ some "") :
    strOrNull (some s) = s := by
  cases s with
  | none => rfl
  | some v =>
      simp only [strOrNull]
      rw [if_neg]
      intro hv
      exact h (by rw [hv])

theorem truthyObj_some {α : Type} (x : Option α) : truthyObj (some x) = x := by
  cases x <;> rfl

theorem gradient_roundtrip (g : Gradient) (h : wfGradient g) :
    Gradient.ofOptions g.serialize = g := by
  obtain ⟨h1, h2, h3, h4, h5⟩ := h
  unfold Gradient.ofOptions Gradient.serialize
  cases g with
  | mk t a st cx cy rx ry =>
      simp only at h1 h2 h3 h4 h5 ⊢
      rw [strD_some_of_ne _ _ h1, numD_some_zero]
      simp only [listD, Option.getD_some]
      rw [numD_some_of_ne _ _ h2, numD_some_of_ne _ _ h3,
        numD_some_of_ne _ _ h4, numD_some_of_ne _ _ h5]

theorem shadow_roundtrip (s : Shadow) (h : wfShadow s) :
    Shadow.ofOptions s.serialize = s := by
  obtain ⟨h1, h2, h3, h4⟩ := h
  unfold Shadow.ofOptions Shadow.serialize
  cases s with
  | mk t c ox oy b sp vis =>
      simp only at h1 h2 h3 h4 ⊢
      rw [strD_some_of_ne _ _ h1, strD_some_of_ne _ _ h2, numD_some_zero,
        numD_some_of_ne _ _ h3, numD_some_of_ne _ _ h4, numD_some_zero]
      rfl

theorem shadows_roundtrip (l : List Shadow) (h : ∀ s ∈ l, wfShadow s) :
    (l.map Shadow.serialize).map Shadow.ofOptions = l := by
  induction l with
  | nil => rfl
  | cons s t ih =>
      simp only [List.map_cons, List.cons.injEq]
      exact ⟨shadow_roundtrip s (h s (by simp)),
        ih (fun x hx => h x (by simp [hx]))⟩

theorem constraints_roundtrip (k : Constraints) (h : wfConstraints k) :
    Constraints.ofOptions k.serialize = k := by
  obtain ⟨h1, h2⟩ := h
  unfold Constraints.ofOptions Constraints.serialize
  cases k with
  | mk a b c d e f g i =>
      simp only at h1 h2 ⊢
      rw [strD_some_of_ne _ _ h1, strD_some_of_ne _ _ h2]
      simp only [numD_some_zero]

theorem autoLayout_roundtrip (a : AutoLayout) (h : wfAutoLayout a) :
    AutoLayout.ofOptions a.serialize = a := by
  obtain ⟨h1, h2, h3, h4, h5, h6⟩ := h
  unfold AutoLayout.ofOptions AutoLayout.serialize
  cases a with
  | mk d pa ca sp pt pr pb pl ps cs =>
      simp only at h1 h2 h3 h4 h5 h6 ⊢
      rw [strD_some_of_ne _ _ h1, strD_some_of_ne _ _ h2, strD_some_of_ne _ _ h3,
        numD_some_of_ne _ _ h4, strD_some_of_ne _ _ h5, strD_some_of_ne _ _ h6]
      simp only [numD_some_zero]

theorem baseCore_of_baseData (c : ObjCore) (p : Pay) (t : String)
    (hwf : wfCore c) (hw : c.width ≠ 0) (hh : c.height ≠ 0)
    (hgx : Obj.getX (Obj.mk c p) = c.x) (hgy : Obj.getY (Obj.mk c p) = c.y)
    (hgw : Obj.getW (Obj.mk c p) = c.width) (hgh : Obj.getH (Obj.mk c p) = c.height) :
    baseCore t (baseData (Obj.mk c p)) = c := by
  obtain ⟨h1, h2, h3, h4, h5, h6, h7⟩ := hwf
  unfold baseCore baseData
  simp only [Obj.core] at *
  rw [hgx, hgy, hgw, hgh]
  cases c with
  | mk cid cname cx cy cw chh crot cfill cfo cstroke csw cso cvis clock cop cbm cgrad cshad cblur ccons =>
      simp only at h1 h2 h3 h4 h5 h6 h7 hw hh ⊢
      congr 1
      · exact strD_some_of_ne _ _ h1
      · exact strD_some_of_ne _ _ h2
      · exact numD_some_zero cx
      · exact numD_some_zero cy
      · exact numD_some_of_ne _ _ hw
      · exact numD_some_of_ne _ _ hh
      · exact numD_some_zero crot
      · exact strOrNull_some_of_ne _ h4
      · exact numD_some_zero csw
      · exact boolD_some_false clock
      · exact strD_some_of_ne _ _ h3
      · rw [truthyObj_some]
        cases cgrad with
        | none => rfl
        | some g => exact congrArg some (gradient_roundtrip g (h5 g rfl))
      · simp only [Option.getD_some]
        exact shadows_roundtrip cshad h6
      · exact numD_some_zero cblur
      · rw [truthyObj_some]
        cases ccons with
        | none => rfl
        | some k => exact congrArg some (constraints_roundtrip k (h7 k rfl))

end Design

namespace Design

theorem serialize_compInstance (c : ObjCore) (cid : String) (m : Option Nat)
    (ov : List (String × Bool)) (cr : ℚ) :
    Obj.serialize (Obj.mk c (.compInstance cid m ov cr)) =
      .mk { baseData (Obj.mk c (.compInstance cid m ov cr)) with
              componentId := some cid, overrides := some ov, cornerRadius := some cr }
        none := rfl

/-- CLAIM C6 (amended) — cloning a linked `ComponentInstance` yields a
`ComponentInstance` with the freshly generated id, the name suffixed
`' Copy'`, the same `componentId` and all other observable attributes,
but its `masterComponent` reference is `null` — the live master link is
not carried through `serialize`, so the clone is unlinked until the host
relinks it by `componentId`. -/
theorem C6_clone_unlinked (c : ObjCore) (cid : String) (m : Option Nat)
    (ov : List (String × Bool)) (cr : ℚ) (freshId : String)
    (hwf : Obj.wf (Obj.mk c (.compInstance cid m ov cr))) :
    Obj.clone (Obj.mk c (.compInstance cid m ov cr)) freshId =
      Obj.mk { c with id := freshId, name := c.name ++ " Copy" }
        (.compInstance cid none ov cr) := by
  obtain ⟨hwfc, hsz⟩ := hwf
  obtain ⟨hw, hh⟩ := hsz
  unfold Obj.clone
  rw [serialize_compInstance]
  rw [deserialize_compInstance _ _ rfl]
  have hbase : baseCore "componentInstance"
      { baseData (Obj.mk c (.compInstance cid m ov cr)) with
          componentId := some cid, overrides := some ov, cornerRadius := some cr } =
      baseCore "componentInstance" (baseData (Obj.mk c (.compInstance cid m ov cr))) := rfl
  rw [hbase, baseCore_of_baseData c (.compInstance cid m ov cr) "componentInstance"
    hwfc (ne_of_gt hw) (ne_of_gt hh) rfl rfl rfl rfl]
  simp only [Obj.withCore, Obj.core, Obj.pay, strD_some_empty, numD_some_zero,
    Option.getD_some]
  rfl

/-- CLAIM C6 counterexample — the claim as stated is false: the clone of
an instance linked to a master does NOT still point at that master; its
master reference comes back `null` (only the `componentId` survives). -/
theorem C6_clone_unlinked_cex :
    (Obj.clone (Obj.mk sampleCore (.compInstance "master-7" (some 7) [] 0)) "fresh").pay.masterRef ≠
      (Obj.mk sampleCore (.compInstance "master-7" (some 7) [] 0)).pay.masterRef := by
  have h1 : (Obj.clone (Obj.mk sampleCore (.compInstance "master-7" (some 7) [] 0)) "fresh").pay.masterRef = none := by
    with_unfolding_all rfl
  have h2 : (Obj.mk sampleCore (.compInstance "master-7" (some 7) [] 0)).pay.masterRef = some 7 := by
    with_unfolding_all rfl
  rw [h1, h2]
  simp

/-- Witness for C6 on a concrete linked instance. -/
theorem C6_clone_unlinked_witness :
    Obj.wf (Obj.mk sampleCore (.compInstance "master-7" (some 7) [("fill", true)] 2)) ∧
    Obj.clone (Obj.mk sampleCore (.compInstance "master-7" (some 7) [("fill", true)] 2)) "fresh-id" =
      Obj.mk { sampleCore with id := "fresh-id", name := sampleCore.name ++ " Copy" }
        (.compInstance "master-7" none [("fill", true)] 2) := by
  have hwf : Obj.wf (Obj.mk sampleCore (.compInstance "master-7" (some 7) [("fill", true)] 2)) := by
    refine ⟨⟨?_, ?_, ?_, ?_, ?_, ?_, ?_⟩, ?_, ?_⟩ <;> simp [sampleCore]
  exact ⟨hwf, C6_clone_unlinked sampleCore "master-7" (some 7) [("fill", true)] 2 "fresh-id" hwf⟩

end Design

namespace Design

theorem scrub_core (o : Obj) : (Obj.scrub o).core = o.core := by
  cases o with
  | mk c p => rfl

theorem scrub_pay_line (c : ObjCore) (x1 y1 x2 y2 : ℚ) :
    Obj.scrub (Obj.mk c (.line x1 y1 x2 y2)) = Obj.mk c (.line x1 y1 x2 y2) := rfl

theorem scrub_bounds (o : Obj) : (Obj.scrub o).bounds = o.bounds := by
  cases o with
  | mk c p => cases p <;> rfl

theorem scrub_getX (o : Obj) : (Obj.scrub o).getX = o.getX := by
  cases o with
  | mk c p => cases p <;> rfl

theorem scrub_getY (o : Obj) : (Obj.scrub o).getY = o.getY := by
  cases o with
  | mk c p => cases p <;> rfl

theorem scrub_getW (o : Obj) : (Obj.scrub o).getW = o.getW := by
  cases o with
  | mk c p => cases p <;> rfl

theorem scrub_getH (o : Obj) : (Obj.scrub o).getH = o.getH := by
  cases o with
  | mk c p => cases p <;> rfl

theorem scrub_setX (o : Obj) (v : ℚ) : (Obj.scrub o).setX v = Obj.scrub (o.setX v) := by
  cases o with
  | mk c p => cases p <;> rfl

theorem scrub_setY (o : Obj) (v : ℚ) : (Obj.scrub o).setY v = Obj.scrub (o.setY v) := by
  cases o with
  | mk c p => cases p <;> rfl

theorem scrub_setW (o : Obj) (v : ℚ) : (Obj.scrub o).setW v = Obj.scrub (o.setW v) := by
  cases o with
  | mk c p =>
      cases p
      case line x1 y1 x2 y2 =>
        show (Obj.mk c (.line x1 y1 x2 y2)).setW v
            = Obj.scrub ((Obj.mk c (.line x1 y1 x2 y2)).setW v)
        unfold Obj.setW
        dsimp only
        split_ifs <;> rfl
      all_goals rfl

theorem scrub_setH (o : Obj) (v : ℚ) : (Obj.scrub o).setH v = Obj.scrub (o.setH v) := by
  cases o with
  | mk c p =>
      cases p
      case line x1 y1 x2 y2 =>
        show (Obj.mk c (.line x1 y1 x2 y2)).setH v
            = Obj.scrub ((Obj.mk c (.line x1 y1 x2 y2)).setH v)
        unfold Obj.setH
        dsimp only
        split_ifs <;> rfl
      all_goals rfl

theorem scrub_alChildH (al : AutoLayout) (fy M pos : ℚ) (c : Obj) :
    alChildH al fy M pos (Obj.scrub c) = Obj.scrub (alChildH al fy M pos c) := by
  unfold alChildH
  rw [scrub_setX]
  split_ifs <;>
    simp only [scrub_setY, scrub_setH, scrub_getH, scrub_setX]

theorem scrub_alChildV (al : AutoLayout) (fx M pos : ℚ) (c : Obj) :
    alChildV al fx M pos (Obj.scrub c) = Obj.scrub (alChildV al fx M pos c) := by
  unfold alChildV
  rw [scrub_setY]
  split_ifs <;>
    simp only [scrub_setY, scrub_setH, scrub_getW, scrub_setX, scrub_setW]

theorem scrub_alPlace (al : AutoLayout) (isH : Bool) (fx fy M : ℚ) :
    (cs : ObjList) → ∀ pos,
      alPlace al isH fx fy M pos (ObjList.scrub cs) =
        ObjList.scrub (alPlace al isH fx fy M pos cs)
  | .nil, pos => rfl
  | .cons c t, pos => by
      show alPlace al isH fx fy M pos (.cons (Obj.scrub c) (ObjList.scrub t)) = _
      unfold alPlace
      cases isH with
      | true =>
          simp only [if_true]
          rw [scrub_setX, scrub_getW, scrub_alChildH, scrub_alPlace al true fx fy M t]
          rfl
      | false =>
          simp only [Bool.false_eq_true, if_false]
          rw [scrub_setY, scrub_getH, scrub_alChildV, scrub_alPlace al false fx fy M t]
          rfl

theorem scrub_length : (cs : ObjList) → (ObjList.scrub cs).length = cs.length
  | .nil => rfl
  | .cons c t => by
      show (ObjList.scrub t).length + 1 = t.length + 1
      rw [scrub_length t]

theorem scrub_alScanSizes (isH : Bool) : (cs : ObjList) → ∀ t m,
    alScanSizes isH t m (ObjList.scrub cs) = alScanSizes isH t m cs
  | .nil, t, m => rfl
  | .cons c l, t, m => by
      show alScanSizes isH _ _ (ObjList.scrub l) = _
      rw [scrub_getW, scrub_getH, scrub_alScanSizes isH l]
      rfl

theorem scrub_apply (a : AutoLayout) (f : Obj) :
    a.apply (Obj.scrub f) = Obj.scrub (a.apply f) := by
  cases f with
  | mk c p =>
      cases p
      case frame cc cr al cs =>
        cases cs with
        | nil => rfl
        | cons h t =>
            show a.apply (Obj.mk c (.frame cc cr al (.cons (Obj.scrub h) (ObjList.scrub t)))) = _
            unfold AutoLayout.apply
            dsimp only
            rw [show ObjList.cons (Obj.scrub h) (ObjList.scrub t) =
              ObjList.scrub (ObjList.cons h t) from rfl]
            rw [scrub_alScanSizes, scrub_alPlace, scrub_length]
            rfl
      all_goals rfl

theorem scrub_append : (cs : ObjList) → ∀ o : Obj,
    (ObjList.scrub cs).append (Obj.scrub o) = ObjList.scrub (cs.append o)
  | .nil, o => rfl
  | .cons c t, o => by
      show ObjList.cons (Obj.scrub c) ((ObjList.scrub t).append (Obj.scrub o)) = _
      rw [scrub_append t o]
      rfl

theorem scrub_frameAddChild (f c : Obj) :
    Frame.addChild (Obj.scrub f) (Obj.scrub c) = Obj.scrub (Frame.addChild f c) := by
  cases f with
  | mk fc p =>
      cases p
      case frame cc cr al cs =>
        cases al with
        | none =>
            show Obj.mk fc (.frame cc cr none ((ObjList.scrub cs).append (Obj.scrub c)))
                = Obj.scrub (Obj.mk fc (.frame cc cr none (cs.append c)))
            rw [scrub_append]
            rfl
        | some a =>
            show a.apply (Obj.mk fc (.frame cc cr (some a) ((ObjList.scrub cs).append (Obj.scrub c))))
                = Obj.scrub (a.apply (Obj.mk fc (.frame cc cr (some a) (cs.append c))))
            rw [scrub_append]
            rw [show Obj.mk fc (Pay.frame cc cr (some a) (ObjList.scrub (cs.append c))) =
              Obj.scrub (Obj.mk fc (Pay.frame cc cr (some a) (cs.append c))) from rfl]
            rw [scrub_apply]
      all_goals rfl

theorem scrub_groupBoundsFold : (l : ObjList) → ∀ init,
    groupBoundsFold (ObjList.scrub l) init = groupBoundsFold l init
  | .nil, _ => rfl
  | .cons x xs, init => by
      obtain ⟨mnx, mny, mxx, mxy⟩ := init
      show groupBoundsFold (ObjList.scrub xs) _ = _
      rw [scrub_bounds, scrub_groupBoundsFold xs]
      rfl

theorem scrub_groupUpdateBounds (g : Obj) :
    Group.updateBounds (Obj.scrub g) = Obj.scrub (Group.updateBounds g) := by
  cases g with
  | mk c p =>
      cases p
      case group cs =>
        cases cs with
        | nil => rfl
        | cons h t =>
            show Obj.mk { c with
                x := (groupBoundsFold (ObjList.cons (Obj.scrub h) (ObjList.scrub t))
                  ((Obj.scrub h).bounds.x, (Obj.scrub h).bounds.y,
                   (Obj.scrub h).bounds.x + (Obj.scrub h).bounds.width,
                   (Obj.scrub h).bounds.y + (Obj.scrub h).bounds.height)).1,
                y := _, width := _, height := _ }
              (.group (.cons (Obj.scrub h) (ObjList.scrub t))) = _
            rw [scrub_bounds]
            rw [show ObjList.cons (Obj.scrub h) (ObjList.scrub t) =
              ObjList.scrub (ObjList.cons h t) from rfl]
            rw [scrub_groupBoundsFold]
            rfl
      all_goals rfl

theorem scrub_groupAddChild (g c : Obj) :
    Group.addChild (Obj.scrub g) (Obj.scrub c) = Obj.scrub (Group.addChild g c) := by
  cases g with
  | mk gc p =>
      cases p
      case group cs =>
        show Group.updateBounds (Obj.mk gc (.group ((ObjList.scrub cs).append (Obj.scrub c))))
            = Obj.scrub (Group.updateBounds (Obj.mk gc (.group (cs.append c))))
        rw [scrub_append]
        rw [show Obj.mk gc (Pay.group (ObjList.scrub (cs.append c))) =
          Obj.scrub (Obj.mk gc (Pay.group (cs.append c))) from rfl]
        rw [scrub_groupUpdateBounds]
      all_goals rfl

theorem scrub_componentAddChild (k c : Obj) :
    Component.addChild (Obj.scrub k) (Obj.scrub c) = Obj.scrub (Component.addChild k c) := by
  cases k with
  | mk kc p =>
      cases p
      case component cc cr cid desc cs =>
        show Obj.mk kc (.component cc cr cid desc ((ObjList.scrub cs).append (Obj.scrub c)))
            = Obj.scrub (Obj.mk kc (.component cc cr cid desc (cs.append c)))
        rw [scrub_append]
        rfl
      all_goals rfl

end Design

namespace Design

theorem lineBounds_width_pos (x1 y1 x2 y2 : ℚ) : 0 < (lineBounds x1 y1 x2 y2).width := by
  unfold lineBounds
  dsimp only
  split_ifs with h
  · norm_num
  · exact lt_of_le_of_ne (sub_nonneg.mpr min_le_max) (Ne.symm h)

theorem lineBounds_height_pos (x1 y1 x2 y2 : ℚ) : 0 < (lineBounds x1 y1 x2 y2).height := by
  unfold lineBounds
  dsimp only
  split_ifs with h
  · norm_num
  · exact lt_of_le_of_ne (sub_nonneg.mpr min_le_max) (Ne.symm h)

theorem lineBounds_x (x1 y1 x2 y2 : ℚ) : (lineBounds x1 y1 x2 y2).x = min x1 x2 := rfl

theorem lineBounds_y (x1 y1 x2 y2 : ℚ) : (lineBounds x1 y1 x2 y2).y = min y1 y2 := rfl

theorem lineBounds_w (x1 y1 x2 y2 : ℚ) : (lineBounds x1 y1 x2 y2).width =
    if max x1 x2 - min x1 x2 = 0 then 1 else max x1 x2 - min x1 x2 := rfl

theorem lineBounds_h (x1 y1 x2 y2 : ℚ) : (lineBounds x1 y1 x2 y2).height =
    if max y1 y2 - min y1 y2 = 0 then 1 else max y1 y2 - min y1 y2 := rfl

theorem getX_line (c : ObjCore) (x1 y1 x2 y2 : ℚ) :
    (Obj.mk c (.line x1 y1 x2 y2)).getX = (lineBounds x1 y1 x2 y2).x := rfl

theorem getY_line (c : ObjCore) (x1 y1 x2 y2 : ℚ) :
    (Obj.mk c (.line x1 y1 x2 y2)).getY = (lineBounds x1 y1 x2 y2).y := rfl

theorem getW_line (c : ObjCore) (x1 y1 x2 y2 : ℚ) :
    (Obj.mk c (.line x1 y1 x2 y2)).getW = (lineBounds x1 y1 x2 y2).width := rfl

theorem getH_line (c : ObjCore) (x1 y1 x2 y2 : ℚ) :
    (Obj.mk c (.line x1 y1 x2 y2)).getH = (lineBounds x1 y1 x2 y2).height := rfl

theorem setX_line (c : ObjCore) (x1 y1 x2 y2 v : ℚ) :
    (Obj.mk c (.line x1 y1 x2 y2)).setX v =
      Obj.mk c (.line (x1 + (v - min x1 x2)) y1 (x2 + (v - min x1 x2)) y2) := rfl

theorem setY_line (c : ObjCore) (x1 y1 x2 y2 v : ℚ) :
    (Obj.mk c (.line x1 y1 x2 y2)).setY v =
      Obj.mk c (.line x1 (y1 + (v - min y1 y2)) x2 (y2 + (v - min y1 y2))) := rfl

theorem setW_line (c : ObjCore) (x1 y1 x2 y2 v : ℚ) :
    (Obj.mk c (.line x1 y1 x2 y2)).setW v =
      Obj.mk c (.line
        (min x1 x2 + (x1 - min x1 x2) * (v / (lineBounds x1 y1 x2 y2).width)) y1
        (min x1 x2 + (x2 - min x1 x2) * (v / (lineBounds x1 y1 x2 y2).width)) y2) := by
  unfold Obj.setW
  dsimp only
  rw [if_neg (ne_of_gt (lineBounds_width_pos x1 y1 x2 y2))]

theorem setH_line (c : ObjCore) (x1 y1 x2 y2 v : ℚ) :
    (Obj.mk c (.line x1 y1 x2 y2)).setH v =
      Obj.mk c (.line x1
        (min y1 y2 + (y1 - min y1 y2) * (v / (lineBounds x1 y1 x2 y2).height)) x2
        (min y1 y2 + (y2 - min y1 y2) * (v / (lineBounds x1 y1 x2 y2).height))) := by
  unfold Obj.setH
  dsimp only
  rw [if_neg (ne_of_gt (lineBounds_height_pos x1 y1 x2 y2))]

theorem getW_setX (o : Obj) (v : ℚ) : (o.setX v).getW = o.getW := by
  cases o with
  | mk c p =>
      cases p
      case line x1 y1 x2 y2 =>
        rw [setX_line, getW_line, getW_line, lineBounds_w, lineBounds_w,
          min_add_add_right, max_add_add_right,
          show ∀ a b d : ℚ, a + d - (b + d) = a - b from fun a b d => by ring]
      all_goals rfl

theorem getH_setX (o : Obj) (v : ℚ) : (o.setX v).getH = o.getH := by
  cases o with
  | mk c p => cases p <;> rfl

theorem getW_setY (o : Obj) (v : ℚ) : (o.setY v).getW = o.getW := by
  cases o with
  | mk c p => cases p <;> rfl

theorem getH_setY (o : Obj) (v : ℚ) : (o.setY v).getH = o.getH := by
  cases o with
  | mk c p =>
      cases p
      case line x1 y1 x2 y2 =>
        rw [setY_line, getH_line, getH_line, lineBounds_h, lineBounds_h,
          min_add_add_right, max_add_add_right,
          show ∀ a b d : ℚ, a + d - (b + d) = a - b from fun a b d => by ring]
      all_goals rfl

theorem getW_setH (o : Obj) (v : ℚ) : (o.setH v).getW = o.getW := by
  cases o with
  | mk c p =>
      cases p
      case line x1 y1 x2 y2 => rw [setH_line, getW_line, getW_line, lineBounds_w, lineBounds_w]
      all_goals rfl

theorem getH_setW (o : Obj) (v : ℚ) : (o.setW v).getH = o.getH := by
  cases o with
  | mk c p =>
      cases p
      case line x1 y1 x2 y2 => rw [setW_line, getH_line, getH_line, lineBounds_h, lineBounds_h]
      all_goals rfl

theorem setX_setX (o : Obj) (u v : ℚ) : (o.setX u).setX v = o.setX v := by
  cases o with
  | mk c p =>
      cases p
      case line x1 y1 x2 y2 =>
        rw [setX_line, setX_line, setX_line, min_add_add_right]
        simp only [Obj.mk.injEq, Pay.line.injEq, eq_self_iff_true, true_and, and_true]
        constructor <;> ring
      all_goals rfl

theorem setY_setY (o : Obj) (u v : ℚ) : (o.setY u).setY v = o.setY v := by
  cases o with
  | mk c p =>
      cases p
      case line x1 y1 x2 y2 =>
        rw [setY_line, setY_line, setY_line, min_add_add_right]
        simp only [Obj.mk.injEq, Pay.line.injEq, eq_self_iff_true, true_and, and_true]
        constructor <;> ring
      all_goals rfl

theorem setY_setX (o : Obj) (u v : ℚ) : (o.setY u).setX v = (o.setX v).setY u := by
  cases o with
  | mk c p =>
      cases p
      case line x1 y1 x2 y2 =>
        rw [setY_line, setX_line, setX_line, setY_line]
      all_goals rfl

theorem setH_setX (o : Obj) (u v : ℚ) : (o.setH u).setX v = (o.setX v).setH u := by
  cases o with
  | mk c p =>
      cases p
      case line x1 y1 x2 y2 =>
        rw [setH_line, setX_line, setX_line, setH_line]
        simp only [lineBounds_h]
      all_goals rfl

theorem setW_setY (o : Obj) (u v : ℚ) : (o.setW u).setY v = (o.setY v).setW u := by
  cases o with
  | mk c p =>
      cases p
      case line x1 y1 x2 y2 =>
        rw [setW_line, setY_line, setY_line, setW_line]
        simp only [lineBounds_w]
      all_goals rfl

end Design

namespace Design

theorem min_scale (m r a b : ℚ) (hr : 0 ≤ r) :
    min (m + (a - m) * r) (m + (b - m) * r) = m + (min a b - m) * r := by
  rcases le_total a b with h | h
  · rw [min_eq_left h, min_eq_left (by nlinarith)]
  · rw [min_eq_right h, min_eq_right (by nlinarith)]

theorem max_scale (m r a b : ℚ) (hr : 0 ≤ r) :
    max (m + (a - m) * r) (m + (b - m) * r) = m + (max a b - m) * r := by
  rcases le_total a b with h | h
  · rw [max_eq_right h, max_eq_right (by nlinarith)]
  · rw [max_eq_left h, max_eq_left (by nlinarith)]

theorem degen_of_sub_eq_zero (y1 y2 : ℚ) (hd : max y1 y2 - min y1 y2 = 0) : y1 = y2 := by
  have hmm := sub_eq_zero.mp hd
  exact le_antisymm (le_trans (le_max_left y1 y2) (hmm ▸ min_le_right y1 y2))
    (le_trans (le_max_right y1 y2) (hmm ▸ min_le_left y1 y2))

theorem line_degen_setH (c : ObjCore) (x1 y1 x2 : ℚ) (v : ℚ) :
    (Obj.mk c (.line x1 y1 x2 y1)).setH v = Obj.mk c (.line x1 y1 x2 y1) := by
  rw [setH_line]
  simp only [min_self, sub_self, zero_mul, add_zero]

theorem line_degen_setW (c : ObjCore) (x1 y1 y2 : ℚ) (v : ℚ) :
    (Obj.mk c (.line x1 y1 x1 y2)).setW v = Obj.mk c (.line x1 y1 x1 y2) := by
  rw [setW_line]
  simp only [min_self, sub_self, zero_mul, add_zero]

theorem getH_setH_or (o : Obj) (v : ℚ) (hv : 0 < v) :
    (o.setH v).getH = v ∨ (o.setH v).getH = o.getH := by
  cases o with
  | mk c p =>
      cases p
      case line x1 y1 x2 y2 =>
        by_cases hd : max y1 y2 - min y1 y2 = 0
        · obtain rfl := degen_of_sub_eq_zero y1 y2 hd
          right
          rw [line_degen_setH]
        · left
          have hΔ : 0 < max y1 y2 - min y1 y2 :=
            lt_of_le_of_ne (sub_nonneg.mpr min_le_max) (Ne.symm hd)
          have hH : (lineBounds x1 y1 x2 y2).height = max y1 y2 - min y1 y2 := by
            rw [lineBounds_h, if_neg hd]
          have hr : 0 ≤ v / (lineBounds x1 y1 x2 y2).height := by
            rw [hH]; positivity
          rw [setH_line, getH_line, lineBounds_h, min_scale _ _ _ _ hr, max_scale _ _ _ _ hr]
          have hsub : (min y1 y2 + (max y1 y2 - min y1 y2) * (v / (lineBounds x1 y1 x2 y2).height))
              - (min y1 y2 + (min y1 y2 - min y1 y2) * (v / (lineBounds x1 y1 x2 y2).height))
              = (max y1 y2 - min y1 y2) * (v / (lineBounds x1 y1 x2 y2).height) := by ring
          rw [hsub, hH]
          have hval : (max y1 y2 - min y1 y2) * (v / (max y1 y2 - min y1 y2)) = v := by
            field_simp
          rw [hval, if_neg (ne_of_gt hv)]
      all_goals exact Or.inl rfl

theorem getW_setW_or (o : Obj) (v : ℚ) (hv : 0 < v) :
    (o.setW v).getW = v ∨ (o.setW v).getW = o.getW := by
  cases o with
  | mk c p =>
      cases p
      case line x1 y1 x2 y2 =>
        by_cases hd : max x1 x2 - min x1 x2 = 0
        · obtain rfl := degen_of_sub_eq_zero x1 x2 hd
          right
          rw [line_degen_setW]
        · left
          have hΔ : 0 < max x1 x2 - min x1 x2 :=
            lt_of_le_of_ne (sub_nonneg.mpr min_le_max) (Ne.symm hd)
          have hW : (lineBounds x1 y1 x2 y2).width = max x1 x2 - min x1 x2 := by
            rw [lineBounds_w, if_neg hd]
          have hr : 0 ≤ v / (lineBounds x1 y1 x2 y2).width := by
            rw [hW]; positivity
          rw [setW_line, getW_line, lineBounds_w, min_scale _ _ _ _ hr, max_scale _ _ _ _ hr]
          have hsub : (min x1 x2 + (max x1 x2 - min x1 x2) * (v / (lineBounds x1 y1 x2 y2).width))
              - (min x1 x2 + (min x1 x2 - min x1 x2) * (v / (lineBounds x1 y1 x2 y2).width))
              = (max x1 x2 - min x1 x2) * (v / (lineBounds x1 y1 x2 y2).width) := by ring
          rw [hsub, hW]
          have hval : (max x1 x2 - min x1 x2) * (v / (max x1 x2 - min x1 x2)) = v := by
            field_simp
          rw [hval, if_neg (ne_of_gt hv)]
      all_goals exact Or.inl rfl

theorem setH_setY_setH (o : Obj) (M w v : ℚ) (hM : 0 < M) :
    (((o.setH M).setY w).setH v) = (o.setY w).setH v := by
  cases o with
  | mk c p =>
      cases p
      case line x1 y1 x2 y2 =>
        by_cases hd : max y1 y2 - min y1 y2 = 0
        · obtain rfl := degen_of_sub_eq_zero y1 y2 hd
          rw [line_degen_setH]
        · have hΔ : 0 < max y1 y2 - min y1 y2 :=
            lt_of_le_of_ne (sub_nonneg.mpr min_le_max) (Ne.symm hd)
          have hH : (lineBounds x1 y1 x2 y2).height = max y1 y2 - min y1 y2 := by
            rw [lineBounds_h, if_neg hd]
          set m := min y1 y2 with hm
          set Δ := max y1 y2 - min y1 y2 with hDd
          have hΔne : Δ ≠ 0 := ne_of_gt hΔ
          have hmx : max y1 y2 = Δ + m := by rw [hDd, hm]; ring
          have h1 : (Obj.mk c (.line x1 y1 x2 y2)).setH M
              = Obj.mk c (.line x1 (m + (y1 - m) * (M / Δ)) x2 (m + (y2 - m) * (M / Δ))) := by
            rw [setH_line, hH, ← hm]
          set a1 := m + (y1 - m) * (M / Δ) with ha1
          set a2 := m + (y2 - m) * (M / Δ) with ha2
          have hr : (0:ℚ) ≤ M / Δ := by positivity
          have hmin1 : min a1 a2 = m := by
            rw [ha1, ha2, min_scale _ _ _ _ hr, ← hm]
            ring
          have hmax1 : max a1 a2 = m + M := by
            rw [ha1, ha2, max_scale _ _ _ _ hr, hmx]
            field_simp
          have h2 : (Obj.mk c (.line x1 a1 x2 a2)).setY w
              = Obj.mk c (.line x1 (a1 + (w - m)) x2 (a2 + (w - m))) := by
            rw [setY_line, hmin1]
          have hminb : min (a1 + (w - m)) (a2 + (w - m)) = w := by
            rw [min_add_add_right, hmin1]
            ring
          have hmaxb : max (a1 + (w - m)) (a2 + (w - m)) = w + M := by
            rw [max_add_add_right, hmax1]
            ring
          have hHb : (lineBounds x1 (a1 + (w - m)) x2 (a2 + (w - m))).height = M := by
            rw [lineBounds_h, hminb, hmaxb, show w + M - w = M from by ring,
              if_neg (ne_of_gt hM)]
          have h3 : (Obj.mk c (.line x1 (a1 + (w - m)) x2 (a2 + (w - m)))).setH v
              = Obj.mk c (.line x1 (w + (y1 - m) * (v / Δ)) x2 (w + (y2 - m) * (v / Δ))) := by
            rw [setH_line, hHb, hminb]
            simp only [Obj.mk.injEq, Pay.line.injEq, eq_self_iff_true, true_and, and_true]
            constructor
            · rw [ha1]
              field_simp
              ring
            · rw [ha2]
              field_simp
              ring
          have g1 : (Obj.mk c (.line x1 y1 x2 y2)).setY w
              = Obj.mk c (.line x1 (y1 + (w - m)) x2 (y2 + (w - m))) := by
            rw [setY_line, ← hm]
          have hming : min (y1 + (w - m)) (y2 + (w - m)) = w := by
            rw [min_add_add_right, ← hm]
            ring
          have hmaxg : max (y1 + (w - m)) (y2 + (w - m)) = w + Δ := by
            rw [max_add_add_right, hmx]
            ring
          have hHg : (lineBounds x1 (y1 + (w - m)) x2 (y2 + (w - m))).height = Δ := by
            rw [lineBounds_h, hming, hmaxg, show w + Δ - w = Δ from by ring, if_neg hΔne]
          have g2 : (Obj.mk c (.line x1 (y1 + (w - m)) x2 (y2 + (w - m)))).setH v
              = Obj.mk c (.line x1 (w + (y1 - m) * (v / Δ)) x2 (w + (y2 - m) * (v / Δ))) := by
            rw [setH_line, hHg, hming]
            simp only [Obj.mk.injEq, Pay.line.injEq, eq_self_iff_true, true_and, and_true]
            constructor <;> ring
          rw [h1, h2, h3, g1, g2]
      all_goals rfl

theorem setW_setX_setW (o : Obj) (M w v : ℚ) (hM : 0 < M) :
    (((o.setW M).setX w).setW v) = (o.setX w).setW v := by
  cases o with
  | mk c p =>
      cases p
      case line x1 y1 x2 y2 =>
        by_cases hd : max x1 x2 - min x1 x2 = 0
        · obtain rfl := degen_of_sub_eq_zero x1 x2 hd
          rw [line_degen_setW]
        · have hΔ : 0 < max x1 x2 - min x1 x2 :=
            lt_of_le_of_ne (sub_nonneg.mpr min_le_max) (Ne.symm hd)
          have hW : (lineBounds x1 y1 x2 y2).width = max x1 x2 - min x1 x2 := by
            rw [lineBounds_w, if_neg hd]
          set m := min x1 x2 with hm
          set Δ := max x1 x2 - min x1 x2 with hDd
          have hΔne : Δ ≠ 0 := ne_of_gt hΔ
          have hmx : max x1 x2 = Δ + m := by rw [hDd, hm]; ring
          have h1 : (Obj.mk c (.line x1 y1 x2 y2)).setW M
              = Obj.mk c (.line (m + (x1 - m) * (M / Δ)) y1 (m + (x2 - m) * (M / Δ)) y2) := by
            rw [setW_line, hW, ← hm]
          set a1 := m + (x1 - m) * (M / Δ) with ha1
          set a2 := m + (x2 - m) * (M / Δ) with ha2
          have hr : (0:ℚ) ≤ M / Δ := by positivity
          have hmin1 : min a1 a2 = m := by
            rw [ha1, ha2, min_scale _ _ _ _ hr, ← hm]
            ring
          have hmax1 : max a1 a2 = m + M := by
            rw [ha1, ha2, max_scale _ _ _ _ hr, hmx]
            field_simp
          have h2 : (Obj.mk c (.line a1 y1 a2 y2)).setX w
              = Obj.mk c (.line (a1 + (w - m)) y1 (a2 + (w - m)) y2) := by
            rw [setX_line, hmin1]
          have hminb : min (a1 + (w - m)) (a2 + (w - m)) = w := by
            rw [min_add_add_right, hmin1]
            ring
          have hmaxb : max (a1 + (w - m)) (a2 + (w - m)) = w + M := by
            rw [max_add_add_right, hmax1]
            ring
          have hWb : (lineBounds (a1 + (w - m)) y1 (a2 + (w - m)) y2).width = M := by
            rw [lineBounds_w, hminb, hmaxb, show w + M - w = M from by ring,
              if_neg (ne_of_gt hM)]
          have h3 : (Obj.mk c (.line (a1 + (w - m)) y1 (a2 + (w - m)) y2)).setW v
              = Obj.mk c (.line (w + (x1 - m) * (v / Δ)) y1 (w + (x2 - m) * (v / Δ)) y2) := by
            rw [setW_line, hWb, hminb]
            simp only [Obj.mk.injEq, Pay.line.injEq, eq_self_iff_true, true_and, and_true]
            constructor
            · rw [ha1]
              field_simp
              ring
            · rw [ha2]
              field_simp
              ring
          have g1 : (Obj.mk c (.line x1 y1 x2 y2)).setX w
              = Obj.mk c (.line (x1 + (w - m)) y1 (x2 + (w - m)) y2) := by
            rw [setX_line, ← hm]
          have hming : min (x1 + (w - m)) (x2 + (w - m)) = w := by
            rw [min_add_add_right, ← hm]
            ring
          have hmaxg : max (x1 + (w - m)) (x2 + (w - m)) = w + Δ := by
            rw [max_add_add_right, hmx]
            ring
          have hWg : (lineBounds (x1 + (w - m)) y1 (x2 + (w - m)) y2).width = Δ := by
            rw [lineBounds_w, hming, hmaxg, show w + Δ - w = Δ from by ring, if_neg hΔne]
          have g2 : (Obj.mk c (.line (x1 + (w - m)) y1 (x2 + (w - m)) y2)).setW v
              = Obj.mk c (.line (w + (x1 - m) * (v / Δ)) y1 (w + (x2 - m) * (v / Δ)) y2) := by
            rw [setW_line, hWg, hming]
            simp only [Obj.mk.injEq, Pay.line.injEq, eq_self_iff_true, true_and, and_true]
            constructor <;> ring
          rw [h1, h2, h3, g1, g2]
      all_goals rfl

end Design

namespace Design

theorem getW_alChildH (al : AutoLayout) (fy M p : ℚ) (c : Obj) :
    (alChildH al fy M p c).getW = c.getW := by
  unfold alChildH
  split_ifs <;> simp only [getW_setH, getW_setY, getW_setX]

theorem getH_alChildV (al : AutoLayout) (fx M p : ℚ) (c : Obj) :
    (alChildV al fx M p c).getH = c.getH := by
  unfold alChildV
  split_ifs <;> simp only [getH_setW, getH_setX, getH_setY]

theorem alChildH_absorb (al : AutoLayout) (fy M M' p p' : ℚ) (c : Obj) (hM : 0 < M) :
    alChildH al fy M' p' (alChildH al fy M p c) = alChildH al fy M' p' c := by
  unfold alChildH
  split_ifs
  · rw [setY_setX, setX_setX, setY_setY]
  · simp only [getH_setX, getH_setY]
    rw [setY_setX, setX_setX, setY_setY]
  · simp only [getH_setX, getH_setY]
    rw [setY_setX, setX_setX, setY_setY]
  · rw [setH_setX, setY_setX, setX_setX, setH_setY_setH _ _ _ _ hM, setY_setY]
  · rw [setX_setX]

theorem alChildV_absorb (al : AutoLayout) (fx M M' p p' : ℚ) (c : Obj) (hM : 0 < M) :
    alChildV al fx M' p' (alChildV al fx M p c) = alChildV al fx M' p' c := by
  unfold alChildV
  split_ifs
  · rw [← setY_setX, setY_setY, setX_setX]
  · simp only [getW_setY, getW_setX]
    rw [← setY_setX, setY_setY, setX_setX]
  · simp only [getW_setY, getW_setX]
    rw [← setY_setX, setY_setY, setX_setX]
  · rw [setW_setY, ← setY_setX, setY_setY, setW_setX_setW _ _ _ _ hM, setX_setX]
  · rw [setY_setY]

end Design

namespace Design

theorem alCrossMax_nonneg (isH : Bool) : (l : ObjList) → 0 ≤ alCrossMax isH l
  | .nil => le_refl 0
  | .cons c t => le_trans (alCrossMax_nonneg isH t) (le_max_right _ _)

theorem allCrossLe_mono (isH : Bool) (M M' : ℚ) (h : M ≤ M') :
    (l : ObjList) → allCrossLe isH M l → allCrossLe isH M' l
  | .nil, _ => trivial
  | .cons c t, hl => ⟨le_trans hl.1 h, allCrossLe_mono isH M M' h t hl.2⟩

theorem allCrossLe_crossMax (isH : Bool) : (l : ObjList) → allCrossLe isH (alCrossMax isH l) l
  | .nil => trivial
  | .cons c t =>
      ⟨le_max_left _ _,
       allCrossLe_mono isH _ _ (le_max_right _ _) t (allCrossLe_crossMax isH t)⟩

theorem alScanSizes_eq (isH : Bool) : (l : ObjList) → ∀ t m, 0 ≤ m →
    alScanSizes isH t m l = (t + alPrimSum isH l, max m (alCrossMax isH l))
  | .nil, t, m, hm => by
      show (t, m) = (t + 0, max m 0)
      rw [add_zero, max_eq_left hm]
  | .cons c l, t, m, hm => by
      show alScanSizes isH (t + (if isH then c.getW else c.getH))
          (max m (if isH then c.getH else c.getW)) l = _
      rw [alScanSizes_eq isH l _ _ (le_trans hm (le_max_left _ _))]
      show (_, _) = (_, _)
      rw [Prod.mk.injEq]
      exact ⟨add_assoc t _ _, max_assoc m _ _⟩

theorem alPlace_length (al : AutoLayout) (isH : Bool) (fx fy M : ℚ) :
    (l : ObjList) → ∀ p, (alPlace al isH fx fy M p l).length = l.length
  | .nil, p => rfl
  | .cons c t, p => by
      unfold alPlace
      cases isH with
      | true =>
          simp only [if_true]
          show (alPlace al true fx fy M _ t).length + 1 = t.length + 1
          rw [alPlace_length al true fx fy M t]
      | false =>
          simp only [Bool.false_eq_true, if_false]
          show (alPlace al false fx fy M _ t).length + 1 = t.length + 1
          rw [alPlace_length al false fx fy M t]

theorem alPlace_primSum (al : AutoLayout) (isH : Bool) (fx fy M : ℚ) :
    (l : ObjList) → ∀ p, alPrimSum isH (alPlace al isH fx fy M p l) = alPrimSum isH l
  | .nil, p => rfl
  | .cons c t, p => by
      unfold alPlace
      cases isH with
      | true =>
          simp only [if_true]
          show (if true = true then (alChildH al fy M p c).getW else _) + alPrimSum true _
              = (if true = true then c.getW else _) + alPrimSum true t
          rw [alPlace_primSum al true fx fy M t]
          simp only [if_true, getW_alChildH]
      | false =>
          simp only [Bool.false_eq_true, if_false]
          show (if false = true then _ else (alChildV al fx M p c).getH) + alPrimSum false _
              = (if false = true then _ else c.getH) + alPrimSum false t
          rw [alPlace_primSum al false fx fy M t]
          simp only [Bool.false_eq_true, if_false, getH_alChildV]

theorem alPosAfter_place (al : AutoLayout) (isH : Bool) (fx fy M : ℚ) :
    (l : ObjList) → ∀ p p',
      alPosAfter al isH p' (alPlace al isH fx fy M p l) = alPosAfter al isH p' l
  | .nil, p, p' => rfl
  | .cons c t, p, p' => by
      unfold alPlace
      cases isH with
      | true =>
          simp only [if_true]
          show alPosAfter al true
              (if true = true then p' + ((alChildH al fy M p c).setX p').getW + al.spacing else _)
              (alPlace al true fx fy M _ t) = _
          rw [alPosAfter_place al true fx fy M t]
          show alPosAfter al true _ t = alPosAfter al true
            (if true = true then p' + (c.setX p').getW + al.spacing else _) t
          simp only [if_true, getW_setX, getW_alChildH]
      | false =>
          simp only [Bool.false_eq_true, if_false]
          show alPosAfter al false
              (if false = true then _ else p' + ((alChildV al fx M p c).setY p').getH + al.spacing)
              (alPlace al false fx fy M _ t) = _
          rw [alPosAfter_place al false fx fy M t]
          show alPosAfter al false _ t = alPosAfter al false
            (if false = true then _ else p' + (c.setY p').getH + al.spacing) t
          simp only [Bool.false_eq_true, if_false, getH_setY, getH_alChildV]

theorem alPlace_append (al : AutoLayout) (isH : Bool) (fx fy M : ℚ) :
    (l : ObjList) → ∀ p d,
      alPlace al isH fx fy M p (l.append d) =
        (alPlace al isH fx fy M p l).append
          (if isH then alChildH al fy M (alPosAfter al isH p l) d
           else alChildV al fx M (alPosAfter al isH p l) d)
  | .nil, p, d => by cases isH <;> rfl
  | .cons c t, p, d => by
      show alPlace al isH fx fy M p (.cons c (t.append d)) = _
      unfold alPlace
      cases isH with
      | true =>
          simp only [if_true]
          rw [alPlace_append al true fx fy M t]
          rfl
      | false =>
          simp only [Bool.false_eq_true, if_false]
          rw [alPlace_append al false fx fy M t]
          rfl

end Design

namespace Design

theorem cross_alChildH_or (al : AutoLayout) (fy M p : ℚ) (c : Obj) (hM : 0 < M) :
    (alChildH al fy M p c).getH = c.getH ∨ (alChildH al fy M p c).getH = M := by
  unfold alChildH
  split_ifs
  · left
    simp only [getH_setY, getH_setX]
  · left
    simp only [getH_setY, getH_setX]
  · left
    simp only [getH_setY, getH_setX]
  · rcases getH_setH_or ((c.setX p).setY (fy + al.paddingTop)) M hM with h | h
    · right
      exact h
    · left
      rw [h, getH_setY, getH_setX]
  · left
    rw [getH_setX]

theorem cross_alChildV_or (al : AutoLayout) (fx M p : ℚ) (c : Obj) (hM : 0 < M) :
    (alChildV al fx M p c).getW = c.getW ∨ (alChildV al fx M p c).getW = M := by
  unfold alChildV
  split_ifs
  · left
    simp only [getW_setX, getW_setY]
  · left
    simp only [getW_setX, getW_setY]
  · left
    simp only [getW_setX, getW_setY]
  · rcases getW_setW_or ((c.setY p).setX (fx + al.paddingLeft)) M hM with h | h
    · right
      exact h
    · left
      rw [h, getW_setX, getW_setY]
  · left
    rw [getW_setY]

theorem cross_place_or (al : AutoLayout) (isH : Bool) (fx fy M p : ℚ) (c : Obj) (hM : 0 < M) :
    (if isH then (alChildH al fy M p c).getH else (alChildV al fx M p c).getW)
      = (if isH then c.getH else c.getW) ∨
    (if isH then (alChildH al fy M p c).getH else (alChildV al fx M p c).getW) = M := by
  cases isH with
  | true =>
      simp only [if_true]
      exact cross_alChildH_or al fy M p c hM
  | false =>
      simp only [Bool.false_eq_true, if_false]
      exact cross_alChildV_or al fx M p c hM

theorem crossMax_place_le (al : AutoLayout) (isH : Bool) (fx fy M : ℚ) (hM : 0 < M) :
    (l : ObjList) → ∀ p, allCrossLe isH M l →
      alCrossMax isH (alPlace al isH fx fy M p l) ≤ M
  | .nil, p, _ => by
      cases isH <;> exact hM.le
  | .cons c t, p, hle => by
      unfold alPlace
      cases isH with
      | true =>
          simp only [if_true]
          show max (if true = true then (alChildH al fy M p c).getH else _)
            (alCrossMax true (alPlace al true fx fy M _ t)) ≤ M
          refine max_le ?_ (crossMax_place_le al true fx fy M hM t _ hle.2)
          simp only [if_true]
          rcases cross_alChildH_or al fy M p c hM with h | h
          · rw [h]
            have := hle.1
            simpa using this
          · rw [h]
      | false =>
          simp only [Bool.false_eq_true, if_false]
          show max (if false = true then _ else (alChildV al fx M p c).getW)
            (alCrossMax false (alPlace al false fx fy M _ t)) ≤ M
          refine max_le ?_ (crossMax_place_le al false fx fy M hM t _ hle.2)
          simp only [Bool.false_eq_true, if_false]
          rcases cross_alChildV_or al fx M p c hM with h | h
          · rw [h]
            have := hle.1
            simpa using this
          · rw [h]

theorem crossMax_le_place (al : AutoLayout) (isH : Bool) (fx fy M : ℚ) (hM : 0 < M) :
    (l : ObjList) → ∀ p, allCrossLe isH M l →
      alCrossMax isH l ≤ alCrossMax isH (alPlace al isH fx fy M p l)
  | .nil, p, _ => by cases isH <;> exact le_refl 0
  | .cons c t, p, hle => by
      unfold alPlace
      cases isH with
      | true =>
          simp only [if_true]
          show max (if true = true then c.getH else _) (alCrossMax true t) ≤
            max (if true = true then (alChildH al fy M p c).getH else _)
              (alCrossMax true (alPlace al true fx fy M _ t))
          refine max_le_max ?_ (crossMax_le_place al true fx fy M hM t _ hle.2)
          simp only [if_true]
          rcases cross_alChildH_or al fy M p c hM with h | h
          · rw [h]
          · rw [h]
            have := hle.1
            simpa using this
      | false =>
          simp only [Bool.false_eq_true, if_false]
          show max (if false = true then _ else c.getW) (alCrossMax false t) ≤
            max (if false = true then _ else (alChildV al fx M p c).getW)
              (alCrossMax false (alPlace al false fx fy M _ t))
          refine max_le_max ?_ (crossMax_le_place al false fx fy M hM t _ hle.2)
          simp only [Bool.false_eq_true, if_false]
          rcases cross_alChildV_or al fx M p c hM with h | h
          · rw [h]
          · rw [h]
            have := hle.1
            simpa using this

theorem alCrossMax_place (al : AutoLayout) (isH : Bool) (fx fy M : ℚ) (hM : 0 < M)
    (l : ObjList) (p : ℚ) (hle : allCrossLe isH M l) (hMeq : alCrossMax isH l = M) :
    alCrossMax isH (alPlace al isH fx fy M p l) = alCrossMax isH l := by
  refine le_antisymm ?_ (crossMax_le_place al isH fx fy M hM l p hle)
  rw [hMeq]
  exact crossMax_place_le al isH fx fy M hM l p hle

theorem alPlace_absorb (al : AutoLayout) (isH : Bool) (fx fy M M' : ℚ) (hM : 0 < M) :
    (l : ObjList) → ∀ p p0,
      alPlace al isH fx fy M' p (alPlace al isH fx fy M p0 l) =
        alPlace al isH fx fy M' p l
  | .nil, p, p0 => by cases isH <;> rfl
  | .cons c t, p, p0 => by
      unfold alPlace
      cases isH with
      | true =>
          simp only [if_true]
          show ObjList.cons (alChildH al fy M' p (alChildH al fy M p0 c))
              (alPlace al true fx fy M' (p + ((alChildH al fy M p0 c).setX p).getW + al.spacing)
                (alPlace al true fx fy M _ t))
            = ObjList.cons (alChildH al fy M' p c)
              (alPlace al true fx fy M' (p + (c.setX p).getW + al.spacing) t)
          rw [alChildH_absorb al fy M M' p0 p c hM, alPlace_absorb al true fx fy M M' hM t,
            getW_setX, getW_alChildH, ← getW_setX c p]
      | false =>
          simp only [Bool.false_eq_true, if_false]
          show ObjList.cons (alChildV al fx M' p (alChildV al fx M p0 c))
              (alPlace al false fx fy M' (p + ((alChildV al fx M p0 c).setY p).getH + al.spacing)
                (alPlace al false fx fy M _ t))
            = ObjList.cons (alChildV al fx M' p c)
              (alPlace al false fx fy M' (p + (c.setY p).getH + al.spacing) t)
          rw [alChildV_absorb al fx M M' p0 p c hM, alPlace_absorb al false fx fy M M' hM t,
            getH_setY, getH_alChildV, ← getH_setY c p]

end Design

namespace Design

theorem appendAll_nil_right : (l : ObjList) → ObjList.appendAll l .nil = l
  | .nil => rfl
  | .cons h t => by
      show ObjList.cons h (ObjList.appendAll t .nil) = _
      rw [appendAll_nil_right t]

theorem appendAll_append_one (d : Obj) :
    (l l2 : ObjList) → ObjList.appendAll (l.append d) l2 = ObjList.appendAll l (.cons d l2)
  | .nil, l2 => rfl
  | .cons h t, l2 => by
      show ObjList.cons h (ObjList.appendAll (t.append d) l2) = _
      rw [appendAll_append_one d t l2]
      rfl

theorem sizesPos_appendAll :
    (l l2 : ObjList) → ObjList.sizesPos (ObjList.appendAll l l2) →
      ObjList.sizesPos l ∧ ObjList.sizesPos l2
  | .nil, l2, h => ⟨trivial, h⟩
  | .cons c t, l2, h => by
      obtain ⟨hw, hh, hrest⟩ := h
      obtain ⟨h1, h2⟩ := sizesPos_appendAll t l2 hrest
      exact ⟨⟨hw, hh, h1⟩, h2⟩

theorem length_append : (l : ObjList) → ∀ d : Obj, (l.append d).length = l.length + 1
  | .nil, d => rfl
  | .cons h t, d => by
      show (t.append d).length + 1 = t.length + 1 + 1
      rw [length_append t d]

theorem primSum_append (isH : Bool) :
    (l : ObjList) → ∀ d : Obj,
      alPrimSum isH (l.append d) = alPrimSum isH l + (if isH then d.getW else d.getH)
  | .nil, d => by
      show (if isH then d.getW else d.getH) + 0 = 0 + (if isH then d.getW else d.getH)
      ring
  | .cons h t, d => by
      show (if isH then h.getW else h.getH) + alPrimSum isH (t.append d) = _
      rw [primSum_append isH t d]
      show _ = (if isH then h.getW else h.getH) + alPrimSum isH t + _
      ring

theorem crossMax_append (isH : Bool) :
    (l : ObjList) → ∀ d : Obj,
      alCrossMax isH (l.append d)
        = max (alCrossMax isH l) (max (if isH then d.getH else d.getW) 0)
  | .nil, d => by
      show max (if isH then d.getH else d.getW) (0:ℚ)
          = max 0 (max (if isH then d.getH else d.getW) (0:ℚ))
      exact (max_eq_right (le_max_right _ _)).symm
  | .cons h t, d => by
      show max (if isH then h.getH else h.getW) (alCrossMax isH (t.append d)) = _
      rw [crossMax_append isH t d]
      show _ = max (max (if isH then h.getH else h.getW) (alCrossMax isH t)) _
      rw [max_assoc]

end Design

namespace Design

theorem apply_cons (a : AutoLayout) (c : ObjCore) (cc : Bool) (cr : ℚ)
    (fal : Option AutoLayout) (h : Obj) (t : ObjList) :
    a.apply (Obj.mk c (.frame cc cr fal (.cons h t)))
      = Obj.mk (applyNF a c (.cons h t)).1 (.frame cc cr fal (applyNF a c (.cons h t)).2) := rfl

end Design

namespace Design

theorem applyNF_fst_x (a : AutoLayout) (c : ObjCore) (l : ObjList) :
    ((applyNF a c l).1).x = c.x := by
  unfold applyNF
  dsimp only
  split_ifs <;> rfl

theorem applyNF_fst_y (a : AutoLayout) (c : ObjCore) (l : ObjList) :
    ((applyNF a c l).1).y = c.y := by
  unfold applyNF
  dsimp only
  split_ifs <;> rfl

theorem applyNF_fst_absorb (a : AutoLayout) (c : ObjCore) (l0 l : ObjList) :
    (applyNF a (applyNF a c l0).1 l).1 = (applyNF a c l).1 := by
  unfold applyNF
  dsimp only
  split_ifs <;> rfl

theorem applyNF_snd_xy (a : AutoLayout) (c c' : ObjCore) (l : ObjList)
    (hx : c'.x = c.x) (hy : c'.y = c.y) : (applyNF a c' l).2 = (applyNF a c l).2 := by
  unfold applyNF
  dsimp only
  rw [hx, hy]

theorem applyNF_snd_true (a : AutoLayout) (c : ObjCore) (l : ObjList)
    (hdir : a.direction = "horizontal") :
    (applyNF a c l).2
      = alPlace a true c.x c.y (alScanSizes true 0 0 l).2 (c.x + a.paddingLeft) l := by
  unfold applyNF
  dsimp only
  rw [decide_eq_true hdir, if_pos hdir]

theorem applyNF_snd_false (a : AutoLayout) (c : ObjCore) (l : ObjList)
    (hdir : ¬ a.direction = "horizontal") :
    (applyNF a c l).2
      = alPlace a false c.x c.y (alScanSizes false 0 0 l).2 (c.y + a.paddingTop) l := by
  unfold applyNF
  dsimp only
  rw [decide_eq_false hdir, if_neg hdir]

theorem applyNF_fst_congr_true (a : AutoLayout) (c : ObjCore) (l1 l2 : ObjList)
    (hdir : a.direction = "horizontal")
    (hscan : alScanSizes true 0 0 l1 = alScanSizes true 0 0 l2)
    (hlen : l1.length = l2.length) : (applyNF a c l1).1 = (applyNF a c l2).1 := by
  unfold applyNF
  dsimp only
  rw [decide_eq_true hdir, hscan, hlen]

theorem applyNF_fst_congr_false (a : AutoLayout) (c : ObjCore) (l1 l2 : ObjList)
    (hdir : ¬ a.direction = "horizontal")
    (hscan : alScanSizes false 0 0 l1 = alScanSizes false 0 0 l2)
    (hlen : l1.length = l2.length) : (applyNF a c l1).1 = (applyNF a c l2).1 := by
  unfold applyNF
  dsimp only
  rw [decide_eq_false hdir, hscan, hlen]

theorem applyNF_step (a : AutoLayout) (c : ObjCore) (h0 : Obj) (t0 : ObjList) (d : Obj)
    (hsz : ObjList.sizesPos (.cons h0 t0)) :
    applyNF a c (((applyNF a c (.cons h0 t0)).2).append d)
      = applyNF a c ((ObjList.cons h0 t0).append d) := by
  by_cases hdir : a.direction = "horizontal"
  · have hpl := applyNF_snd_true a c (.cons h0 t0) hdir
    have hM0 := alScanSizes_eq true (.cons h0 t0) 0 0 le_rfl
    have hMeq : (alScanSizes true 0 0 (.cons h0 t0)).2 = alCrossMax true (.cons h0 t0) := by
      rw [hM0]
      exact max_eq_right (alCrossMax_nonneg _ _)
    have hMpos : 0 < (alScanSizes true 0 0 (.cons h0 t0)).2 := by
      rw [hMeq]
      exact lt_of_lt_of_le hsz.2.1 (le_max_left _ _)
    have hle : allCrossLe true (alScanSizes true 0 0 (.cons h0 t0)).2 (.cons h0 t0) := by
      rw [hMeq]
      exact allCrossLe_crossMax true _
    have hprim : alPrimSum true ((applyNF a c (.cons h0 t0)).2)
        = alPrimSum true (.cons h0 t0) := by
      rw [hpl]
      exact alPlace_primSum a true c.x c.y _ _ _
    have hcross : alCrossMax true ((applyNF a c (.cons h0 t0)).2)
        = alCrossMax true (.cons h0 t0) := by
      rw [hpl]
      exact alCrossMax_place a true c.x c.y _ hMpos _ _ hle hMeq.symm
    have hlen2 : ((applyNF a c (.cons h0 t0)).2).length = (ObjList.cons h0 t0).length := by
      rw [hpl]
      exact alPlace_length a true c.x c.y _ _ _
    have hscan : alScanSizes true 0 0 (((applyNF a c (.cons h0 t0)).2).append d)
        = alScanSizes true 0 0 ((ObjList.cons h0 t0).append d) := by
      rw [alScanSizes_eq true _ 0 0 le_rfl, alScanSizes_eq true _ 0 0 le_rfl,
        primSum_append, primSum_append, crossMax_append, crossMax_append, hprim, hcross]
    have hlen : (((applyNF a c (.cons h0 t0)).2).append d).length
        = ((ObjList.cons h0 t0).append d).length := by
      rw [length_append, length_append, hlen2]
    refine Prod.ext ?_ ?_
    · exact applyNF_fst_congr_true a c _ _ hdir hscan hlen
    · have hscanP := hscan
      rw [hpl] at hscanP
      rw [hpl]
      rw [applyNF_snd_true a c _ hdir, applyNF_snd_true a c _ hdir, hscanP]
      rw [alPlace_append, alPlace_append]
      rw [alPlace_absorb a true c.x c.y _ _ hMpos]
      rw [alPosAfter_place a true c.x c.y _ _]
  · have hpl := applyNF_snd_false a c (.cons h0 t0) hdir
    have hM0 := alScanSizes_eq false (.cons h0 t0) 0 0 le_rfl
    have hMeq : (alScanSizes false 0 0 (.cons h0 t0)).2 = alCrossMax false (.cons h0 t0) := by
      rw [hM0]
      exact max_eq_right (alCrossMax_nonneg _ _)
    have hMpos : 0 < (alScanSizes false 0 0 (.cons h0 t0)).2 := by
      rw [hMeq]
      exact lt_of_lt_of_le hsz.1 (le_max_left _ _)
    have hle : allCrossLe false (alScanSizes false 0 0 (.cons h0 t0)).2 (.cons h0 t0) := by
      rw [hMeq]
      exact allCrossLe_crossMax false _
    have hprim : alPrimSum false ((applyNF a c (.cons h0 t0)).2)
        = alPrimSum false (.cons h0 t0) := by
      rw [hpl]
      exact alPlace_primSum a false c.x c.y _ _ _
    have hcross : alCrossMax false ((applyNF a c (.cons h0 t0)).2)
        = alCrossMax false (.cons h0 t0) := by
      rw [hpl]
      exact alCrossMax_place a false c.x c.y _ hMpos _ _ hle hMeq.symm
    have hlen2 : ((applyNF a c (.cons h0 t0)).2).length = (ObjList.cons h0 t0).length := by
      rw [hpl]
      exact alPlace_length a false c.x c.y _ _ _
    have hscan : alScanSizes false 0 0 (((applyNF a c (.cons h0 t0)).2).append d)
        = alScanSizes false 0 0 ((ObjList.cons h0 t0).append d) := by
      rw [alScanSizes_eq false _ 0 0 le_rfl, alScanSizes_eq false _ 0 0 le_rfl,
        primSum_append, primSum_append, crossMax_append, crossMax_append, hprim, hcross]
    have hlen : (((applyNF a c (.cons h0 t0)).2).append d).length
        = ((ObjList.cons h0 t0).append d).length := by
      rw [length_append, length_append, hlen2]
    refine Prod.ext ?_ ?_
    · exact applyNF_fst_congr_false a c _ _ hdir hscan hlen
    · have hscanP := hscan
      rw [hpl] at hscanP
      rw [hpl]
      rw [applyNF_snd_false a c _ hdir, applyNF_snd_false a c _ hdir, hscanP]
      rw [alPlace_append, alPlace_append]
      rw [alPlace_absorb a false c.x c.y _ _ hMpos]
      rw [alPosAfter_place a false c.x c.y _ _]

end Design

namespace Design

theorem apply_append (a : AutoLayout) (C : ObjCore) (cc : Bool) (cr : ℚ)
    (fal : Option AutoLayout) (l : ObjList) (d : Obj) :
    a.apply (Obj.mk C (.frame cc cr fal (l.append d)))
      = Obj.mk (applyNF a C (l.append d)).1 (.frame cc cr fal (applyNF a C (l.append d)).2) := by
  cases l with
  | nil => exact apply_cons a C cc cr fal d .nil
  | cons h t => exact apply_cons a C cc cr fal h (t.append d)

theorem frameFold_aux (a : AutoLayout) (c : ObjCore) (cc : Bool) (cr : ℚ) :
    (rest : ObjList) → (h0 : Obj) → (t0 : ObjList) →
      ObjList.sizesPos (ObjList.appendAll (.cons h0 t0) rest) →
      ObjList.foldAdd Frame.addChild
          (a.apply (Obj.mk c (.frame cc cr (some a) (.cons h0 t0)))) rest
        = a.apply (Obj.mk c (.frame cc cr (some a) (ObjList.appendAll (.cons h0 t0) rest)))
  | .nil, h0, t0, hsz => by
      show a.apply _ = _
      rw [appendAll_nil_right]
  | .cons d rest', h0, t0, hsz => by
      show ObjList.foldAdd Frame.addChild
        (Frame.addChild (a.apply (Obj.mk c (.frame cc cr (some a) (.cons h0 t0)))) d) rest' = _
      have hszPre : ObjList.sizesPos (.cons h0 t0) :=
        (sizesPos_appendAll _ _ hsz).1
      have hstep : Frame.addChild (a.apply (Obj.mk c (.frame cc cr (some a) (.cons h0 t0)))) d
          = a.apply (Obj.mk c (.frame cc cr (some a) ((ObjList.cons h0 t0).append d))) := by
        rw [apply_cons]
        show a.apply (Obj.mk (applyNF a c (.cons h0 t0)).1
          (.frame cc cr (some a) (((applyNF a c (.cons h0 t0)).2).append d))) = _
        rw [apply_append, apply_append]
        rw [applyNF_fst_absorb]
        rw [applyNF_snd_xy a c ((applyNF a c (.cons h0 t0)).1)
          (((applyNF a c (.cons h0 t0)).2).append d)
          (applyNF_fst_x a c (.cons h0 t0)) (applyNF_fst_y a c (.cons h0 t0))]
        rw [applyNF_step a c h0 t0 d hszPre]
      rw [hstep]
      have hrec := frameFold_aux a c cc cr rest' h0 (t0.append d) ?_
      · rw [show (ObjList.cons h0 t0).append d = ObjList.cons h0 (t0.append d) from rfl]
        rw [hrec]
        rw [show ObjList.appendAll (ObjList.cons h0 (t0.append d)) rest'
          = ObjList.appendAll ((ObjList.cons h0 t0).append d) rest' from rfl]
        rw [appendAll_append_one]
      · rw [show ObjList.appendAll (ObjList.cons h0 (t0.append d)) rest'
          = ObjList.appendAll ((ObjList.cons h0 t0).append d) rest' from rfl]
        rw [appendAll_append_one]
        exact hsz

theorem frameFold_fix (a : AutoLayout) (c : ObjCore) (cc : Bool) (cr : ℚ) (ds : ObjList)
    (hsz : ObjList.sizesPos ds)
    (hfix : a.apply (Obj.mk c (.frame cc cr (some a) ds)) = Obj.mk c (.frame cc cr (some a) ds)) :
    ObjList.foldAdd Frame.addChild (Obj.mk c (.frame cc cr (some a) .nil)) ds
      = Obj.mk c (.frame cc cr (some a) ds) := by
  cases ds with
  | nil => rfl
  | cons d0 rest =>
      show ObjList.foldAdd Frame.addChild
        (Frame.addChild (Obj.mk c (.frame cc cr (some a) .nil)) d0) rest = _
      have h1 : Frame.addChild (Obj.mk c (.frame cc cr (some a) .nil)) d0
          = a.apply (Obj.mk c (.frame cc cr (some a) (.cons d0 .nil))) := rfl
      rw [h1, frameFold_aux a c cc cr rest d0 .nil hsz]
      exact hfix

end Design

namespace Design

theorem updateBounds_cons (c : ObjCore) (h : Obj) (t : ObjList) :
    Group.updateBounds (Obj.mk c (.group (.cons h t)))
      = Obj.mk { c with
          x := (groupBoundsFold (ObjList.cons h t)
            (h.bounds.x, h.bounds.y, h.bounds.x + h.bounds.width,
             h.bounds.y + h.bounds.height)).1,
          y := (groupBoundsFold (ObjList.cons h t)
            (h.bounds.x, h.bounds.y, h.bounds.x + h.bounds.width,
             h.bounds.y + h.bounds.height)).2.1,
          width := (groupBoundsFold (ObjList.cons h t)
            (h.bounds.x, h.bounds.y, h.bounds.x + h.bounds.width,
             h.bounds.y + h.bounds.height)).2.2.1 -
            (groupBoundsFold (ObjList.cons h t)
              (h.bounds.x, h.bounds.y, h.bounds.x + h.bounds.width,
               h.bounds.y + h.bounds.height)).1,
          height := (groupBoundsFold (ObjList.cons h t)
            (h.bounds.x, h.bounds.y, h.bounds.x + h.bounds.width,
             h.bounds.y + h.bounds.height)).2.2.2 -
            (groupBoundsFold (ObjList.cons h t)
              (h.bounds.x, h.bounds.y, h.bounds.x + h.bounds.width,
               h.bounds.y + h.bounds.height)).2.1 }
        (.group (.cons h t)) := rfl

theorem updateBounds_update (c : ObjCore) (A B C D : ℚ) (h : Obj) (t : ObjList) :
    Group.updateBounds (Obj.mk { c with x := A, y := B, width := C, height := D }
        (.group (.cons h t)))
      = Group.updateBounds (Obj.mk c (.group (.cons h t))) := rfl

theorem groupFold_aux (c : ObjCore) :
    (rest : ObjList) → (h0 : Obj) → (t0 : ObjList) →
      ObjList.foldAdd Group.addChild
          (Group.updateBounds (Obj.mk c (.group (.cons h0 t0)))) rest
        = Group.updateBounds (Obj.mk c (.group (ObjList.appendAll (.cons h0 t0) rest)))
  | .nil, h0, t0 => by
      show Group.updateBounds _ = _
      rw [appendAll_nil_right]
  | .cons d rest', h0, t0 => by
      show ObjList.foldAdd Group.addChild
        (Group.addChild (Group.updateBounds (Obj.mk c (.group (.cons h0 t0)))) d) rest' = _
      have hstep : Group.addChild (Group.updateBounds (Obj.mk c (.group (.cons h0 t0)))) d
          = Group.updateBounds (Obj.mk c (.group ((ObjList.cons h0 t0).append d))) := by
        rw [updateBounds_cons]
        show Group.updateBounds (Obj.mk { c with x := _, y := _, width := _, height := _ }
          (.group ((ObjList.cons h0 t0).append d))) = _
        rw [show (ObjList.cons h0 t0).append d = ObjList.cons h0 (t0.append d) from rfl]
        rw [updateBounds_update]
      rw [hstep]
      rw [show (ObjList.cons h0 t0).append d = ObjList.cons h0 (t0.append d) from rfl]
      rw [groupFold_aux c rest' h0 (t0.append d)]
      rw [show ObjList.appendAll (ObjList.cons h0 (t0.append d)) rest'
        = ObjList.appendAll ((ObjList.cons h0 t0).append d) rest' from rfl]
      rw [appendAll_append_one]

theorem groupFold_fix (c : ObjCore) (ds : ObjList)
    (hfix : Group.updateBounds (Obj.mk c (.group ds)) = Obj.mk c (.group ds)) :
    ObjList.foldAdd Group.addChild (Obj.mk c (.group .nil)) ds = Obj.mk c (.group ds) := by
  cases ds with
  | nil => rfl
  | cons d0 rest =>
      show ObjList.foldAdd Group.addChild
        (Group.addChild (Obj.mk c (.group .nil)) d0) rest = _
      have h1 : Group.addChild (Obj.mk c (.group .nil)) d0
          = Group.updateBounds (Obj.mk c (.group (.cons d0 .nil))) := rfl
      rw [h1, groupFold_aux c rest d0 .nil]
      exact hfix

theorem componentFold_aux (c : ObjCore) (cc : Bool) (cr : ℚ) (cid desc : String) :
    (ds : ObjList) → ∀ es,
      ObjList.foldAdd Component.addChild (Obj.mk c (.component cc cr cid desc es)) ds
        = Obj.mk c (.component cc cr cid desc (ObjList.appendAll es ds))
  | .nil, es => by
      show Obj.mk c (.component cc cr cid desc es) = _
      rw [appendAll_nil_right]
  | .cons d ds', es => by
      show ObjList.foldAdd Component.addChild
        (Obj.mk c (.component cc cr cid desc (es.append d))) ds' = _
      rw [componentFold_aux c cc cr cid desc ds' (es.append d), appendAll_append_one]

theorem frameFoldNone_aux (c : ObjCore) (cc : Bool) (cr : ℚ) :
    (ds : ObjList) → ∀ es,
      ObjList.foldAdd Frame.addChild (Obj.mk c (.frame cc cr none es)) ds
        = Obj.mk c (.frame cc cr none (ObjList.appendAll es ds))
  | .nil, es => by
      show Obj.mk c (.frame cc cr none es) = _
      rw [appendAll_nil_right]
  | .cons d ds', es => by
      show ObjList.foldAdd Frame.addChild
        (Obj.mk c (.frame cc cr none (es.append d))) ds' = _
      rw [frameFoldNone_aux c cc cr ds' (es.append d), appendAll_append_one]

end Design

namespace Design

theorem scrub_sizesPos : (cs : ObjList) → ObjList.sizesPos cs → ObjList.sizesPos (ObjList.scrub cs)
  | .nil, _ => trivial
  | .cons c t, h =>
      ⟨by rw [scrub_getW]; exact h.1, by rw [scrub_getH]; exact h.2.1,
       scrub_sizesPos t h.2.2⟩

theorem serialize_rectangle (c : ObjCore) (cr : ℚ) :
    Obj.serialize (Obj.mk c (.rectangle cr)) =
      .mk { baseData (Obj.mk c (.rectangle cr)) with cornerRadius := some cr } none := rfl

theorem serialize_ellipse (c : ObjCore) :
    Obj.serialize (Obj.mk c .ellipse) = .mk (baseData (Obj.mk c .ellipse)) none := rfl

theorem serialize_line (c : ObjCore) (x1 y1 x2 y2 : ℚ) :
    Obj.serialize (Obj.mk c (.line x1 y1 x2 y2)) =
      .mk { baseData (Obj.mk c (.line x1 y1 x2 y2)) with
              x1 := some x1, y1 := some y1, x2 := some x2, y2 := some y2 } none := rfl

theorem serialize_text (c : ObjCore) (t ff : String) (fs : ℚ) (fw : String) (lh : ℚ)
    (ta : String) :
    Obj.serialize (Obj.mk c (.text t ff fs fw lh ta)) =
      .mk { baseData (Obj.mk c (.text t ff fs fw lh ta)) with
              text := some t, fontFamily := some ff, fontSize := some fs,
              fontWeight := some fw, lineHeight := some lh, textAlign := some ta } none := rfl

theorem serialize_frame (c : ObjCore) (cc : Bool) (cr : ℚ) (al : Option AutoLayout)
    (cs : ObjList) :
    Obj.serialize (Obj.mk c (.frame cc cr al cs)) =
      .mk { baseData (Obj.mk c (.frame cc cr al cs)) with
              clipContent := some cc, cornerRadius := some cr,
              autoLayout := some (al.map AutoLayout.serialize) }
        (some (Obj.serializeList cs)) := rfl

theorem serialize_path (c : ObjCore) (pts : List PathPoint) (cl : Bool) (bx bY bw bh : ℚ) :
    Obj.serialize (Obj.mk c (.path pts cl bx bY bw bh)) =
      .mk { baseData (Obj.mk c (.path pts cl bx bY bw bh)) with
              points := some pts, closed := some cl } none := rfl

theorem serialize_group (c : ObjCore) (cs : ObjList) :
    Obj.serialize (Obj.mk c (.group cs)) =
      .mk (baseData (Obj.mk c (.group cs))) (some (Obj.serializeList cs)) := rfl

theorem serialize_image (c : ObjCore) (s : String) (idata : Option String) (ft : String)
    (cr : ℚ) :
    Obj.serialize (Obj.mk c (.image s idata ft cr)) =
      .mk { baseData (Obj.mk c (.image s idata ft cr)) with
              src := some s, imageData := some idata, fit := some ft,
              cornerRadius := some cr } none := rfl

theorem serialize_component (c : ObjCore) (cc : Bool) (cr : ℚ) (cid desc : String)
    (cs : ObjList) :
    Obj.serialize (Obj.mk c (.component cc cr cid desc cs)) =
      .mk { baseData (Obj.mk c (.component cc cr cid desc cs)) with
              clipContent := some cc, cornerRadius := some cr,
              componentId := some cid, description := some desc }
        (some (Obj.serializeList cs)) := rfl

theorem serialize_generic (c : ObjCore) (tag : String) :
    Obj.serialize (Obj.mk c (.generic tag)) = .mk (baseData (Obj.mk c (.generic tag))) none := rfl

theorem baseCore_irrel_rect (t : String) (dc : DataCore) (v : Option ℚ) :
    baseCore t { dc with cornerRadius := v } = baseCore t dc := rfl

theorem baseCore_irrel_line (t : String) (dc : DataCore) (a b d e : Option ℚ) :
    baseCore t { dc with x1 := a, y1 := b, x2 := d, y2 := e } = baseCore t dc := rfl

theorem baseCore_irrel_text (t : String) (dc : DataCore) (a : Option String)
    (b : Option String) (d : Option ℚ) (e : Option String) (f : Option ℚ)
    (g : Option String) :
    baseCore t { dc with text := a, fontFamily := b, fontSize := d, fontWeight := e, lineHeight := f, textAlign := g } = baseCore t dc := rfl

theorem baseCore_irrel_frame (t : String) (dc : DataCore) (a : Option Bool) (b : Option ℚ)
    (d : Option (Option AutoLayoutData)) :
    baseCore t { dc with clipContent := a, cornerRadius := b, autoLayout := d }
      = baseCore t dc := rfl

theorem baseCore_irrel_path (t : String) (dc : DataCore) (a : Option (List PathPoint))
    (b : Option Bool) :
    baseCore t { dc with points := a, closed := b } = baseCore t dc := rfl

theorem baseCore_irrel_image (t : String) (dc : DataCore) (a : Option String)
    (b : Option (Option String)) (d : Option String) (e : Option ℚ) :
    baseCore t { dc with src := a, imageData := b, fit := d, cornerRadius := e }
      = baseCore t dc := rfl

theorem baseCore_irrel_component (t : String) (dc : DataCore) (a : Option Bool)
    (b : Option ℚ) (d : Option String) (e : Option String) :
    baseCore t { dc with clipContent := a, cornerRadius := b, componentId := d, description := e } = baseCore t dc := rfl

theorem alOpt_roundtrip (al : Option AutoLayout) (h : ∀ a, al = some a → wfAutoLayout a) :
    (truthyObj (some (al.map AutoLayout.serialize))).map AutoLayout.ofOptions = al := by
  cases al with
  | none => rfl
  | some a =>
      show (truthyObj (some (some (AutoLayout.serialize a)))).map AutoLayout.ofOptions = _
      rw [truthyObj_some]
      exact congrArg some (autoLayout_roundtrip a (h a rfl))

theorem fillOrWhite_some (f : String) (hf : f ≠ "") : fillOrWhite (some (some f)) = f := by
  show (if f = "" then "#FFFFFF" else f) = f
  rw [if_neg hf]

theorem strokeOrBlack_some (s : String) (hs : s ≠ "") : strokeOrBlack (some (some s)) = s := by
  show (if s = "" then "#000000" else s) = s
  rw [if_neg hs]

end Design

namespace Design

theorem lineCore_roundtrip (c : ObjCore) (p : Pay) (hwfc : wfCore c)
    (hfill : c.fill = none) (hstroke : c.stroke ≠ none) (hsw : c.strokeWidth ≠ 0)
    (hx : c.x = 0) (hy : c.y = 0) (hw : c.width = 0) (hh : c.height = 0) :
    { baseCore "line" (baseData (Obj.mk c p)) with
        x := 0, y := 0, width := 0, height := 0, fill := none,
        stroke := some (strokeOrBlack ((baseData (Obj.mk c p)).stroke)),
        strokeWidth := numD ((baseData (Obj.mk c p)).strokeWidth) 2 } = c := by
  obtain ⟨h1, h2, h3, h4, h5, h6, h7⟩ := hwfc
  unfold baseCore baseData
  simp only [Obj.core] at *
  cases c with
  | mk cid cname cx cy cw chh crot cfill cfo cstroke csw cso cvis clock cop cbm cgrad cshad cblur ccons =>
      simp only at h1 h2 h3 h4 h5 h6 h7 hfill hstroke hsw hx hy hw hh ⊢
      congr 1
      · exact strD_some_of_ne _ _ h1
      · exact strD_some_of_ne _ _ h2
      · exact hx.symm
      · exact hy.symm
      · exact hw.symm
      · exact hh.symm
      · exact numD_some_zero crot
      · exact hfill.symm
      · cases cstroke with
        | none => exact absurd rfl hstroke
        | some s =>
            have hs : s ≠ "" := fun e => h4 (by rw [e])
            exact congrArg some (strokeOrBlack_some s hs)
      · exact numD_some_of_ne _ _ hsw
      · exact boolD_some_false clock
      · exact strD_some_of_ne _ _ h3
      · rw [truthyObj_some]
        cases cgrad with
        | none => rfl
        | some g => exact congrArg some (gradient_roundtrip g (h5 g rfl))
      · simp only [Option.getD_some]
        exact shadows_roundtrip cshad h6
      · exact numD_some_zero cblur
      · rw [truthyObj_some]
        cases ccons with
        | none => rfl
        | some k => exact congrArg some (constraints_roundtrip k (h7 k rfl))

end Design

namespace Design

theorem frameChildren_some (f : Obj) (ds : DataList) :
    Obj.frameChildren f (some ds) = Obj.frameChildrenList f ds := rfl

theorem groupChildren_some (g : Obj) (ds : DataList) :
    Obj.groupChildren g (some ds) = Obj.groupChildrenList g ds := rfl

theorem componentChildren_some (k : Obj) (ds : DataList) :
    Obj.componentChildren k (some ds) = Obj.componentChildrenList k ds := rfl

theorem baseCore_irrel_inst (t : String) (dc : DataCore) (a : Option String)
    (b : Option (List (String × Bool))) (d : Option ℚ) :
    baseCore t { dc with componentId := a, overrides := b, cornerRadius := d }
      = baseCore t dc := rfl

mutual

/-- Deserializing a serialized well-formed object reproduces it exactly,
except that every `masterComponent` reference has been scrubbed to
`null` (serialize never emits it). -/
theorem roundtrip_obj : (x : Obj) → Obj.wf x → Obj.deserialize x.serialize = Obj.scrub x
  | .mk c p, hwf => by
      obtain ⟨hwfc, hp⟩ := hwf
      cases p with
      | rectangle cr =>
          obtain ⟨hw, hh⟩ := hp
          rw [serialize_rectangle, deserialize_rectangle _ _ rfl, baseCore_irrel_rect]
          dsimp only
          rw [baseCore_of_baseData c (.rectangle cr) "rectangle" hwfc (ne_of_gt hw)
            (ne_of_gt hh) rfl rfl rfl rfl, numD_some_zero]
          rfl
      | ellipse =>
          obtain ⟨hw, hh⟩ := hp
          rw [serialize_ellipse, deserialize_ellipse _ _ rfl]
          rw [baseCore_of_baseData c .ellipse "ellipse" hwfc (ne_of_gt hw)
            (ne_of_gt hh) rfl rfl rfl rfl]
          rfl
      | line x1 y1 x2 y2 =>
          obtain ⟨hfill, hstroke, hsw, hx, hy, hw, hh⟩ := hp
          rw [serialize_line, deserialize_line _ _ rfl, baseCore_irrel_line]
          dsimp only
          simp only [Option.getD_some]
          rw [lineCore_roundtrip c (.line x1 y1 x2 y2) hwfc hfill hstroke hsw hx hy hw hh]
          rfl
      | text t ff fs fw lh ta =>
          obtain ⟨hw0, hh0, ht, hff, hfs, hfw, hlh, hta⟩ := hp
          rw [serialize_text, deserialize_text _ _ rfl, baseCore_irrel_text]
          dsimp only
          rw [show (baseData (Obj.mk c (.text t ff fs fw lh ta))).width = some c.width from rfl,
            show (baseData (Obj.mk c (.text t ff fs fw lh ta))).height = some c.height from rfl,
            numD_some_of_ne _ _ (ne_of_gt hw0), numD_some_of_ne _ _ (ne_of_gt hh0)]
          rw [baseCore_of_baseData c (.text t ff fs fw lh ta) "text" hwfc (ne_of_gt hw0)
            (ne_of_gt hh0) rfl rfl rfl rfl]
          rw [strD_some_of_ne _ _ ht, strD_some_of_ne _ _ hff, numD_some_of_ne _ _ hfs,
            strD_some_of_ne _ _ hfw, numD_some_of_ne _ _ hlh, strD_some_of_ne _ _ hta]
          rfl
      | frame cc cr al cs =>
          obtain ⟨hw0, hh0, hfne, hfne2, hwfAll, hal⟩ := hp
          obtain ⟨f, hf⟩ : ∃ f, c.fill = some f := by
            cases hcf : c.fill with
            | none => exact absurd hcf hfne
            | some f => exact ⟨f, rfl⟩
          have hfeq : f ≠ "" := by
            intro e
            rw [e] at hf
            exact hfne2 hf
          have halwf : ∀ a, al = some a → wfAutoLayout a := by
            intro a ha
            rw [ha] at hal
            exact hal.1
          rw [serialize_frame, deserialize_frame _ _ rfl, baseCore_irrel_frame]
          dsimp only
          rw [show (baseData (Obj.mk c (.frame cc cr al cs))).fill = some c.fill from rfl,
            hf, fillOrWhite_some f hfeq]
          rw [baseCore_of_baseData c (.frame cc cr al cs) "frame" hwfc (ne_of_gt hw0)
            (ne_of_gt hh0) rfl rfl rfl rfl]
          have hcore : { c with fill := some f } = c := by rw [← hf]
          rw [hcore]
          rw [alOpt_roundtrip al halwf]
          rw [show undefD (some cc) true = cc from rfl, numD_some_zero]
          rw [frameChildren_some, roundtrip_frameList cs hwfAll]
          show ObjList.foldAdd Frame.addChild (Obj.mk c (.frame cc cr al .nil))
            (ObjList.scrub cs) = Obj.mk c (.frame cc cr al (ObjList.scrub cs))
          cases al with
          | none =>
              rw [frameFoldNone_aux c cc cr (ObjList.scrub cs) .nil]
              rfl
          | some a =>
              have hfix : a.apply (Obj.mk c (.frame cc cr (some a) (ObjList.scrub cs)))
                  = Obj.mk c (.frame cc cr (some a) (ObjList.scrub cs)) := by
                rw [show Obj.mk c (.frame cc cr (some a) (ObjList.scrub cs))
                  = Obj.scrub (Obj.mk c (.frame cc cr (some a) cs)) from rfl]
                rw [scrub_apply, hal.2.2]
              exact frameFold_fix a c cc cr (ObjList.scrub cs)
                (scrub_sizesPos cs hal.2.1) hfix
      | path pts cl bx bY bw bh =>
          obtain ⟨hw0, hh0, hb⟩ := hp
          rw [serialize_path, deserialize_path _ _ rfl, baseCore_irrel_path]
          dsimp only
          rw [show listD (some pts) ([] : List PathPoint) = pts from rfl, boolD_some_false]
          rw [← hb]
          rw [baseCore_of_baseData c (.path pts cl bx bY bw bh) "path" hwfc (ne_of_gt hw0)
            (ne_of_gt hh0) rfl rfl rfl rfl]
          rfl
      | group cs =>
          obtain ⟨hfillnone, hw0, hh0, hwfAll, hfixG⟩ := hp
          rw [serialize_group, deserialize_group _ _ rfl]
          rw [baseCore_of_baseData c (.group cs) "group" hwfc (ne_of_gt hw0)
            (ne_of_gt hh0) rfl rfl rfl rfl]
          have hcore : { c with fill := (none : Option String) } = c := by rw [← hfillnone]
          rw [hcore]
          rw [groupChildren_some, roundtrip_groupList cs hwfAll]
          show ObjList.foldAdd Group.addChild (Obj.mk c (.group .nil)) (ObjList.scrub cs)
            = Obj.mk c (.group (ObjList.scrub cs))
          have hfix : Group.updateBounds (Obj.mk c (.group (ObjList.scrub cs)))
              = Obj.mk c (.group (ObjList.scrub cs)) := by
            rw [show Obj.mk c (.group (ObjList.scrub cs))
              = Obj.scrub (Obj.mk c (.group cs)) from rfl]
            rw [scrub_groupUpdateBounds, hfixG]
          exact groupFold_fix c (ObjList.scrub cs) hfix
      | image s idata ft cr =>
          obtain ⟨hw0, hh0, hid, hft⟩ := hp
          rw [serialize_image, deserialize_image _ _ rfl, baseCore_irrel_image]
          dsimp only
          rw [strD_some_empty, strOrNull_some_of_ne idata hid, strD_some_of_ne _ _ hft,
            numD_some_zero]
          rw [baseCore_of_baseData c (.image s idata ft cr) "image" hwfc (ne_of_gt hw0)
            (ne_of_gt hh0) rfl rfl rfl rfl]
          rfl
      | component cc cr cid desc cs =>
          obtain ⟨hw0, hh0, hfne, hfne2, hcid, hwfAll⟩ := hp
          obtain ⟨f, hf⟩ : ∃ f, c.fill = some f := by
            cases hcf : c.fill with
            | none => exact absurd hcf hfne
            | some f => exact ⟨f, rfl⟩
          have hfeq : f ≠ "" := by
            intro e
            rw [e] at hf
            exact hfne2 hf
          rw [serialize_component, deserialize_component _ _ rfl, baseCore_irrel_component]
          dsimp only
          rw [show (baseData (Obj.mk c (.component cc cr cid desc cs))).fill
            = some c.fill from rfl, hf, fillOrWhite_some f hfeq]
          rw [baseCore_of_baseData c (.component cc cr cid desc cs) "component" hwfc
            (ne_of_gt hw0) (ne_of_gt hh0) rfl rfl rfl rfl]
          have hcore : { c with fill := some f } = c := by rw [← hf]
          rw [hcore]
          rw [show undefD (some cc) true = cc from rfl, numD_some_zero,
            strD_some_of_ne _ _ hcid, strD_some_empty]
          rw [componentChildren_some, roundtrip_componentList cs hwfAll]
          show ObjList.foldAdd Component.addChild
            (Obj.mk c (.component cc cr cid desc .nil)) (ObjList.scrub cs)
            = Obj.mk c (.component cc cr cid desc (ObjList.scrub cs))
          rw [componentFold_aux c cc cr cid desc (ObjList.scrub cs) .nil]
          rfl
      | compInstance cid m ov cr =>
          obtain ⟨hw0, hh0⟩ := hp
          rw [serialize_compInstance, deserialize_compInstance _ _ rfl, baseCore_irrel_inst]
          dsimp only
          rw [show (baseData (Obj.mk c (.compInstance cid m ov cr))).masterComponent
            = none from rfl]
          rw [strD_some_empty, numD_some_zero]
          simp only [Option.getD_some]
          rw [baseCore_of_baseData c (.compInstance cid m ov cr) "componentInstance" hwfc
            (ne_of_gt hw0) (ne_of_gt hh0) rfl rfl rfl rfl]
          rfl
      | generic tag =>
          obtain ⟨hw0, hh0, htag⟩ := hp
          rw [serialize_generic]
          rw [deserialize_generic _ _ (by
            rw [show (baseData (Obj.mk c (.generic tag))).dtype = tag from rfl]
            exact htag)]
          rw [show (baseData (Obj.mk c (.generic tag))).dtype = tag from rfl]
          rw [baseCore_of_baseData c (.generic tag) tag hwfc (ne_of_gt hw0)
            (ne_of_gt hh0) rfl rfl rfl rfl]
          rfl

/-- Frame child rebuilding over serialized well-formed children is the
`addChild` fold over the scrubbed children. -/
theorem roundtrip_frameList : (cs : ObjList) → ObjList.wfAll cs → ∀ f : Obj,
    Obj.frameChildrenList f (Obj.serializeList cs)
      = ObjList.foldAdd Frame.addChild f (ObjList.scrub cs)
  | .nil, _, f => rfl
  | .cons c t, hwf, f => by
      show Obj.frameChildrenList (Frame.addChild f (Obj.deserialize c.serialize))
          (Obj.serializeList t)
        = ObjList.foldAdd Frame.addChild (Frame.addChild f (Obj.scrub c)) (ObjList.scrub t)
      rw [roundtrip_obj c hwf.1, roundtrip_frameList t hwf.2]

/-- Group child rebuilding analogue. -/
theorem roundtrip_groupList : (cs : ObjList) → ObjList.wfAll cs → ∀ g : Obj,
    Obj.groupChildrenList g (Obj.serializeList cs)
      = ObjList.foldAdd Group.addChild g (ObjList.scrub cs)
  | .nil, _, g => rfl
  | .cons c t, hwf, g => by
      show Obj.groupChildrenList (Group.addChild g (Obj.deserialize c.serialize))
          (Obj.serializeList t)
        = ObjList.foldAdd Group.addChild (Group.addChild g (Obj.scrub c)) (ObjList.scrub t)
      rw [roundtrip_obj c hwf.1, roundtrip_groupList t hwf.2]

/-- Component child rebuilding analogue. -/
theorem roundtrip_componentList : (cs : ObjList) → ObjList.wfAll cs → ∀ k : Obj,
    Obj.componentChildrenList k (Obj.serializeList cs)
      = ObjList.foldAdd Component.addChild k (ObjList.scrub cs)
  | .nil, _, k => rfl
  | .cons c t, hwf, k => by
      show Obj.componentChildrenList (Component.addChild k (Obj.deserialize c.serialize))
          (Obj.serializeList t)
        = ObjList.foldAdd Component.addChild (Component.addChild k (Obj.scrub c))
          (ObjList.scrub t)
      rw [roundtrip_obj c hwf.1, roundtrip_componentList t hwf.2]

end

end Design

namespace Design

theorem wf_sampleFrame : Obj.wf sampleFrame := by
  unfold sampleFrame
  refine ⟨⟨?_, ?_, ?_, ?_, ?_, ?_, ?_⟩, ?_, ?_, ?_, ?_,
    ⟨⟨⟨?_, ?_, ?_, ?_, ?_, ?_, ?_⟩, ?_, ?_⟩, trivial⟩,
    ⟨?_, ⟨?_, ?_, trivial⟩, ?_⟩⟩ <;>
    first
      | with_unfolding_all rfl
      | with_unfolding_all decide
      | simp [sampleCore, sampleChildCore, sampleAL, wfAutoLayout]

end Design

namespace Design

/-- CLAIM C1 (amended) — for every well-formed object (no attribute
holding a value its constructor's `||`-defaulting would replace, each
container in its own post-processed state), `deserialize ∘ serialize`
reproduces every observable field, including nested children and
gradient/shadow sub-objects, EXCEPT that every `masterComponent`
reference comes back `null`: `serialize` never emits the live master
link, so the round trip equals the object with masters scrubbed. -/
theorem C1_roundtrip (x : Obj) (hwf : Obj.wf x) :
    Obj.deserialize (Obj.serialize x) = Obj.scrub x :=
  roundtrip_obj x hwf

/-- CLAIM C1 counterexample — the claim as stated is false: a
`ComponentInstance` holding a live `masterComponent` reference does not
round-trip; the rebuilt instance's master is `null`. -/
theorem C1_roundtrip_cex :
    Obj.deserialize (Obj.serialize (Obj.mk sampleCore (.compInstance "m7" (some 7) [] 1)))
      ≠ Obj.mk sampleCore (.compInstance "m7" (some 7) [] 1) := by
  intro h
  have h1 : (Obj.deserialize (Obj.serialize (Obj.mk sampleCore
      (.compInstance "m7" (some 7) [] 1)))).pay.masterRef = none := by
    with_unfolding_all rfl
  rw [h] at h1
  have h2 : (Obj.mk sampleCore (.compInstance "m7" (some 7) [] 1)).pay.masterRef
      = some 7 := rfl
  rw [h2] at h1
  exact Option.noConfusion h1

/-- Witness for C1 on a concrete auto-layout frame holding a rectangle
child. -/
theorem C1_roundtrip_witness :
    Obj.wf sampleFrame ∧
      Obj.deserialize (Obj.serialize sampleFrame) = Obj.scrub sampleFrame :=
  ⟨wf_sampleFrame, C1_roundtrip sampleFrame wf_sampleFrame⟩

end Design
